import Mathlib

/-!
Verification of the fdt-rs modify/serialize engine.

The development shallowly embeds the repository's code:
  * `src/priv_util.rs`   — bounds-checked byte-buffer accessors,
  * `src/modify/modtoken.rs` — the token-modification protocol,
  * `src/modify/serializer.rs` — the `Serializer` writer engine.

The parser / `DevTree` collaborator (crate::base) is not part of the
sources; where it is needed it is modelled from the specification and
marked as such in the doc comments.

Machine bytes are `Nat`s kept below 256 by the write primitives; u32/u64
wrap-around is `% 2^32` / `% 2^64` at the write sites, exactly where the
Rust code truncates (`as u32`) or fixes the width of a store.
-/

set_option maxHeartbeats 1000000

namespace FdtRs

/-- A destination or source byte buffer: unbounded backing store plus an
explicit length.  A slot `i < len` is a byte of the buffer; the write
primitives bounds-check against `len` before touching `data`, mirroring
`be_write!` in `src/priv_util.rs`, so slots `≥ len` model memory outside
the buffer and must never change. -/
structure Buffer where
  data : Nat → Nat
  len : Nat

/-- Error type of the write accessors (`SliceWriteError` in
`src/priv_util.rs`). -/
inductive SliceWriteError where
  | unexpectedEndOfInput
deriving DecidableEq, Repr

/-- Result of a write accessor (`SliceWriteResult = Result<(), SliceWriteError>`). -/
inductive SliceWriteResult where
  | ok
  | error (e : SliceWriteError)
deriving DecidableEq, Repr

/-- Error type of the read accessors (`SliceReadError` in `src/priv_util.rs`). -/
inductive SliceReadError where
  | invalidOffset (off sz : Nat)
  | unexpectedEndOfInput
deriving DecidableEq, Repr

/-- Result of a read accessor (`SliceReadResult<T>`). -/
inductive SliceReadResult (α : Type) where
  | ok (v : α)
  | error (e : SliceReadError)
deriving DecidableEq, Repr

/-- Store one byte (reduced mod 256, the value space of `u8`) at `pos`,
without a bounds check; internal helper for the checked writes. -/
def Buffer.setByte (b : Buffer) (pos v : Nat) : Buffer :=
  ⟨fun i => if i = pos then v % 256 else b.data i, b.len⟩

/-- The `be_write!(self, u8, pos, v)` macro instance: checked single-byte
store. -/
def Buffer.write_u8 (b : Buffer) (pos v : Nat) : SliceWriteResult × Buffer :=
  if pos + 1 > b.len then (.error .unexpectedEndOfInput, b)
  else (.ok, b.setByte pos v)

/-- `write_be_u32` of `SliceWrite` (`be_write!(self, u32, pos, value)`):
bounds check first, then an unaligned big-endian 4-byte store. -/
def Buffer.write_be_u32 (b : Buffer) (pos v : Nat) : SliceWriteResult × Buffer :=
  if pos + 4 > b.len then (.error .unexpectedEndOfInput, b)
  else (.ok, ((((b.setByte pos (v / 2 ^ 24)).setByte (pos + 1) (v / 2 ^ 16)).setByte
      (pos + 2) (v / 2 ^ 8)).setByte (pos + 3) v))

/-- `write_be_u64` of `SliceWrite`: bounds check first, then an unaligned
big-endian 8-byte store. -/
def Buffer.write_be_u64 (b : Buffer) (pos v : Nat) : SliceWriteResult × Buffer :=
  if pos + 8 > b.len then (.error .unexpectedEndOfInput, b)
  else (.ok, ((((((((b.setByte pos (v / 2 ^ 56)).setByte (pos + 1) (v / 2 ^ 48)).setByte
      (pos + 2) (v / 2 ^ 40)).setByte (pos + 3) (v / 2 ^ 32)).setByte
      (pos + 4) (v / 2 ^ 24)).setByte (pos + 5) (v / 2 ^ 16)).setByte
      (pos + 6) (v / 2 ^ 8)).setByte (pos + 7) v))

/-- `write_slice` of `SliceWrite`: byte-at-a-time checked stores; stops at
the first failure, leaving the already-written prefix in place. -/
def Buffer.write_slice (b : Buffer) (pos : Nat) (s : List Nat) : SliceWriteResult × Buffer :=
  match s with
  | [] => (.ok, b)
  | c :: rest =>
    match b.write_u8 pos c with
    | (.ok, b') => b'.write_slice (pos + 1) rest
    | (.error e, b') => (.error e, b')

/-- `write_bstring0` of `SliceWrite`: the bytes of the string, one checked
store each, followed by a single zero byte. -/
def Buffer.write_bstring0 (b : Buffer) (pos : Nat) (s : List Nat) : SliceWriteResult × Buffer :=
  match s with
  | [] => b.write_u8 pos 0
  | c :: rest =>
    match b.write_u8 pos c with
    | (.ok, b') => b'.write_bstring0 (pos + 1) rest
    | (.error e, b') => (.error e, b')

/-- `read_be_u32` of `SliceRead`: checked unaligned big-endian 4-byte load. -/
def Buffer.read_be_u32 (b : Buffer) (pos : Nat) : SliceReadResult Nat :=
  if pos + 4 > b.len then .error .unexpectedEndOfInput
  else .ok (b.data pos % 256 * 2 ^ 24 + b.data (pos + 1) % 256 * 2 ^ 16 +
      b.data (pos + 2) % 256 * 2 ^ 8 + b.data (pos + 3) % 256)

/-- Scan for the first zero byte at or after `pos`, staying inside the
buffer; the loop of `read_bstring0` in `src/priv_util.rs`. -/
def Buffer.findNul (b : Buffer) (pos : Nat) : Option Nat :=
  if h : pos < b.len then
    if b.data pos % 256 = 0 then some pos else b.findNul (pos + 1)
  else none
termination_by b.len - pos

/-- `read_bstring0` of `SliceRead`: the bytes strictly before the first
zero byte, or `UnexpectedEndOfInput` when no zero occurs inside the
buffer. -/
def Buffer.read_bstring0 (b : Buffer) (pos : Nat) : SliceReadResult (List Nat) :=
  match b.findNul pos with
  | some i => .ok ((List.range (i - pos)).map fun k => b.data (pos + k) % 256)
  | none => .error .unexpectedEndOfInput

/-- `Serializer::align_offset::<T>`: advance an offset to the next multiple
of `sz` when misaligned (the serializer always instantiates `sz = 4`). -/
def align_offset (sz off : Nat) : Nat :=
  if off % sz = 0 then off else off + (sz - off % sz)

/-- Modelled from the spec: the structure-block token tags (`crate::spec::FdtTok`,
not under src/).  The spec only states that tokens are "discriminated by a
32-bit tag"; the numeric values are the Flattened-Device-Tree wire values. -/
def fdtBeginNode : Nat := 1

/-- Modelled from the spec: the `EndNode` tag value. -/
def fdtEndNode : Nat := 2

/-- Modelled from the spec: the `Prop` tag value. -/
def fdtProp : Nat := 3

/-- Modelled from the spec: the `Nop` tag value. -/
def fdtNop : Nat := 4

/-- Modelled from the spec: the `End` (end-of-structure sentinel) tag value. -/
def fdtEnd : Nat := 9

/-- Modelled from the spec: `crate::spec::FDT_MAGIC`, the header magic number. -/
def FDT_MAGIC : Nat := 0xd00dfeed

/-- Modelled from the spec: a parsed structural token (`crate::base::parse::ParsedTok`,
not under src/).  `beginNode` carries the node-name bytes, `prop` carries the
strings-block name offset and the property value bytes. -/
inductive ParsedTok where
  | beginNode (name : List Nat)
  | prop (name_offset : Nat) (prop_buf : List Nat)
  | endNode
  | nop
deriving DecidableEq, Repr

/-- The callback's directive (`ModifyTokenResponse` in `src/modify/modtoken.rs`). -/
inductive ModifyTokenResponse where
  | pass
  | drop
  | modifySize (n : Nat)
deriving DecidableEq, Repr

/-- The error type surfaced by `Serializer::modify` (`DevTreeError`); only
the variant the engine itself produces is modelled. -/
inductive DevTreeError where
  | invalidParameter (msg : String)
deriving DecidableEq, Repr

/-- Modelled from the spec: the parsed source tree (`crate::base::DevTree`,
not under src/).  It exposes the header-field accessors, the raw source
buffer (`bufData`, used only for the strings region), the reservation
entries — which per the spec run from `off_mem_rsvmap` up to the structure
block's start — and the replayable token stream: the listed `tokens`
followed by the stream's terminal signal, `parseErr = true` meaning the
fail-fast parser-error signal and `false` the normal end of sequence. -/
structure DevTree where
  bufData : Nat → Nat
  totalsize : Nat
  off_dt_struct : Nat
  off_dt_strings : Nat
  off_mem_rsvmap : Nat
  version : Nat
  last_comp_version : Nat
  boot_cpuid_phys : Nat
  size_dt_strings : Nat
  size_dt_struct : Nat
  reserved : List (Nat × Nat)
  tokens : List ParsedTok
  parseErr : Bool

/-- Serializer state: the output buffer plus the single cursor
(`Serializer { offset }` together with the `output: &mut [u8]` argument). -/
structure St where
  buf : Buffer
  off : Nat

/-- Outcome of a serializer routine.  `ok` is normal return, `err` is a
propagated `Err(DevTreeError)`, and `trap` is a Rust panic — every write in
`src/modify/serializer.rs` is followed by `.unwrap()`, so a failed accessor
does not return: it traps.  Each outcome carries the state (buffer and
cursor) at that point. -/
inductive Out (α : Type) where
  | ok (v : α) (st : St)
  | err (e : DevTreeError) (st : St)
  | trap (st : St)

/-- The state carried by an outcome, whichever it is. -/
def Out.state {α : Type} : Out α → St
  | .ok _ st => st
  | .err _ st => st
  | .trap st => st

/-- The returned value of a normal outcome. -/
def Out.okVal {α : Type} : Out α → Option α
  | .ok v _ => some v
  | _ => none

/-- The propagated error of an `err` outcome. -/
def Out.errVal {α : Type} : Out α → Option DevTreeError
  | .err e _ => some e
  | _ => none

/-- Whether the outcome is a trap (an unwrapped accessor failure). -/
def Out.isTrap {α : Type} : Out α → Bool
  | .trap _ => true
  | _ => false

/-- Sequencing of serializer steps: a propagated error or a trap aborts the
rest of the routine, exactly as `return Err(e)` and a panicking `.unwrap()`
do. -/
def Out.seq {α : Type} : Out Unit → (St → Out α) → Out α
  | .ok _ st, k => k st
  | .err e st, _ => .err e st
  | .trap st, _ => .trap st

/-- `Serializer::serialize_u32`: write at the cursor, then advance the
cursor by 4 (the cursor advances even when the write failed, as in the
source). -/
def serialize_u32 (st : St) (v : Nat) : SliceWriteResult × St :=
  let (r, b) := st.buf.write_be_u32 st.off v
  (r, ⟨b, st.off + 4⟩)

/-- `Serializer::serialize_u64`: write at the cursor, advance by 8. -/
def serialize_u64 (st : St) (v : Nat) : SliceWriteResult × St :=
  let (r, b) := st.buf.write_be_u64 st.off v
  (r, ⟨b, st.off + 8⟩)

/-- `Serializer::serialize_slice`: write at the cursor, advance by the
slice length. -/
def serialize_slice (st : St) (s : List Nat) : SliceWriteResult × St :=
  let (r, b) := st.buf.write_slice st.off s
  (r, ⟨b, st.off + s.length⟩)

/-- `Serializer::serialize_string`: null-terminated write at the cursor,
advance by length + 1. -/
def serialize_string (st : St) (s : List Nat) : SliceWriteResult × St :=
  let (r, b) := st.buf.write_bstring0 st.off s
  (r, ⟨b, st.off + s.length + 1⟩)

/-- An `.unwrap()` on a write result: success continues, failure traps. -/
def unwrapped : SliceWriteResult × St → Out Unit
  | (.ok, st) => .ok () st
  | (.error _, st) => .trap st

/-- `Serializer::serialize_header`: reset the cursor to 0 and emit the ten
header fields from the source tree's values, each store unwrapped. -/
def serialize_header (t : DevTree) (st : St) : Out Unit :=
  let st : St := ⟨st.buf, 0⟩
  (unwrapped (serialize_u32 st FDT_MAGIC)).seq fun st =>
  (unwrapped (serialize_u32 st t.totalsize)).seq fun st =>
  (unwrapped (serialize_u32 st t.off_dt_struct)).seq fun st =>
  (unwrapped (serialize_u32 st t.off_dt_strings)).seq fun st =>
  (unwrapped (serialize_u32 st t.off_mem_rsvmap)).seq fun st =>
  (unwrapped (serialize_u32 st t.version)).seq fun st =>
  (unwrapped (serialize_u32 st t.last_comp_version)).seq fun st =>
  (unwrapped (serialize_u32 st t.boot_cpuid_phys)).seq fun st =>
  (unwrapped (serialize_u32 st t.size_dt_strings)).seq fun st =>
  unwrapped (serialize_u32 st t.size_dt_struct)

/-- The entry loop of `serialize_memory_reservation_block`: two unwrapped
u64 stores per reserved entry. -/
def serRsvEntries : List (Nat × Nat) → St → Out Unit
  | [], st => .ok () st
  | (a, s) :: rest, st =>
    (unwrapped (serialize_u64 st a)).seq fun st =>
    (unwrapped (serialize_u64 st s)).seq fun st =>
    serRsvEntries rest st

/-- `Serializer::serialize_memory_reservation_block`: cursor to
`off_mem_rsvmap`, then copy every reserved entry. -/
def serialize_memory_reservation_block (t : DevTree) (st : St) : Out Unit :=
  serRsvEntries t.reserved ⟨st.buf, t.off_mem_rsvmap⟩

/-- The per-token serialization inside the structure-block loop: emit the
tag and the variant's fields at the cursor (the `match token.clone()` block
of `serialize_structure_block`). -/
def serTokBytes (t : ParsedTok) (st : St) : Out Unit :=
  match t with
  | .beginNode name =>
    (unwrapped (serialize_u32 st fdtBeginNode)).seq fun st =>
    if name.length = 0 then unwrapped (serialize_u32 st 0)
    else unwrapped (serialize_string st name)
  | .prop noff pb =>
    (unwrapped (serialize_u32 st fdtProp)).seq fun st =>
    (unwrapped (serialize_u32 st pb.length)).seq fun st =>
    (unwrapped (serialize_u32 st noff)).seq fun st =>
    unwrapped (serialize_slice st pb)
  | .endNode => unwrapped (serialize_u32 st fdtEndNode)
  | .nop => unwrapped (serialize_u32 st fdtNop)

/-- One iteration of the structure-block loop: remember the token's start
offset, serialize the token, align to 4, apply the callback's directive
(`Pass` keeps the cursor, `Drop` rewinds it to the start, `ModifySize`
rewrites a property's length and name-offset fields and re-advances the
cursor — or aborts with `InvalidParameter` on any other token), then align
to 4 again. -/
def serOne (t : ParsedTok) (resp : ModifyTokenResponse) (st : St) : Out Unit :=
  let node_offset := st.off
  (serTokBytes t st).seq fun st =>
  let st : St := ⟨st.buf, align_offset 4 st.off⟩
  (match resp with
   | .pass => Out.ok () st
   | .drop => Out.ok () ⟨st.buf, node_offset⟩
   | .modifySize n =>
     match t with
     | .prop noff _ =>
       let st : St := ⟨st.buf, node_offset + 4⟩
       (unwrapped (serialize_u32 st n)).seq fun st =>
       (unwrapped (serialize_u32 st noff)).seq fun st =>
       Out.ok () ⟨st.buf, st.off + n⟩
     | _ => Out.err (.invalidParameter "Cannot return ModifySize from a non-Prop token!") st
  ).seq fun st => .ok () ⟨st.buf, align_offset 4 st.off⟩

/-- The structure-block token loop over the replayable stream.  The
callback is modelled as a pure function of the running token index and the
token (the Rust `FnMut` closure's mutable captures are the index).  Note
the loop is `while let Ok(Some(token))`, so it walks exactly the listed
tokens and never inspects the stream's terminal signal. -/
def serStructToks (fm : Nat → ParsedTok → ModifyTokenResponse) :
    Nat → List ParsedTok → St → Out Unit
  | _, [], st => .ok () st
  | i, t :: rest, st => (serOne t (fm i t) st).seq (serStructToks fm (i + 1) rest)

/-- `Serializer::serialize_structure_block`: remember the incoming cursor
as `starting_offset`, jump to `off_dt_struct`, run the token loop, emit the
terminating `End` tag, and return the cursor's net advance from
`starting_offset`. -/
def serialize_structure_block (t : DevTree) (fm : Nat → ParsedTok → ModifyTokenResponse)
    (st : St) : Out Nat :=
  let starting_offset := st.off
  let st : St := ⟨st.buf, t.off_dt_struct⟩
  (serStructToks fm 0 t.tokens st).seq fun st =>
  (unwrapped (serialize_u32 st fdtEnd)).seq fun st =>
  .ok (st.off - starting_offset) st

/-- `Serializer::set_structure_block_size`: back-patch header offset 36. -/
def set_structure_block_size (n : Nat) (st : St) : Out Unit :=
  unwrapped (serialize_u32 ⟨st.buf, 36⟩ n)

/-- `Serializer::set_strings_block_offset`: back-patch header offset 12. -/
def set_strings_block_offset (v : Nat) (st : St) : Out Unit :=
  unwrapped (serialize_u32 ⟨st.buf, 12⟩ v)

/-- `Serializer::set_total_size`: back-patch header offset 4. -/
def set_total_size (v : Nat) (st : St) : Out Unit :=
  unwrapped (serialize_u32 ⟨st.buf, 4⟩ v)

/-- The source strings region `devtree.buf()[off_dt_strings .. off_dt_strings
+ size_dt_strings]` as a byte list. -/
def stringsRegion (t : DevTree) : List Nat :=
  (List.range t.size_dt_strings).map fun k => t.bufData (t.off_dt_strings + k)

/-- `Serializer::serialize_strings_block`: cursor to the freshly computed
offset, copy the source strings region verbatim, then align to 4. -/
def serialize_strings_block (t : DevTree) (offset : Nat) (st : St) : Out Unit :=
  let st : St := ⟨st.buf, offset⟩
  (unwrapped (serialize_slice st (stringsRegion t))).seq fun st =>
  .ok () ⟨st.buf, align_offset 4 st.off⟩

/-- `Serializer::modify`: header, memory-reservation block, structure block
(propagating its error), then relocate the strings block directly after the
structure block, back-patch the three changed header fields, and return the
new total size. -/
def modify (t : DevTree) (B : Buffer) (fm : Nat → ParsedTok → ModifyTokenResponse) : Out Nat :=
  let st : St := ⟨B, 0⟩
  (serialize_header t st).seq fun st =>
  (serialize_memory_reservation_block t st).seq fun st =>
  match serialize_structure_block t fm st with
  | .err e st => .err e st
  | .trap st => .trap st
  | .ok new_structure_block_size st =>
    let strings_block_offset := st.off
    (set_structure_block_size new_structure_block_size st).seq fun st =>
    (set_strings_block_offset strings_block_offset st).seq fun st =>
    (serialize_strings_block t strings_block_offset st).seq fun st =>
    let total_size := st.off
    (set_total_size total_size st).seq fun st =>
    .ok total_size st

/-- The always-`Pass` callback. -/
def respPass : Nat → ParsedTok → ModifyTokenResponse := fun _ _ => .pass

/-- A callback that drops exactly the token at stream index `i` and passes
every other token. -/
def respDropAt (i : Nat) : Nat → ParsedTok → ModifyTokenResponse :=
  fun j _ => if j = i then .drop else .pass

/-- A callback that returns `ModifySize n` exactly at stream index `i` and
passes every other token. -/
def respResizeAt (i n : Nat) : Nat → ParsedTok → ModifyTokenResponse :=
  fun j _ => if j = i then .modifySize n else .pass

/-- Ghost bookkeeping: the cursor position right after a token's bytes have
been emitted at offset `o` (tag, then name with terminator — a lone u32 for
an empty name — or the property header and value).  Every individual write
during that emission ends at or before this position, and the last one ends
exactly here. -/
def tokAdvance : ParsedTok → Nat → Nat
  | .beginNode name, o => o + 4 + (if name.length = 0 then 4 else name.length + 1)
  | .prop _ pb, o => o + 12 + pb.length
  | .endNode, o => o + 4
  | .nop, o => o + 4

/-- Ghost replay of the structure-block loop: for callback `fm`, starting
index `i` and cursor `o`, returns the maximum write end over the loop's
stores together with `some` final cursor, or `none` when the callback's
directive is `ModifySize` on a non-property token (in which case the
maximum covers the tokens up to and including the offending one, whose
bytes are emitted before the directive is examined). -/
def serGhost (fm : Nat → ParsedTok → ModifyTokenResponse) :
    Nat → List ParsedTok → Nat → Nat × Option Nat
  | _, [], o => (0, some o)
  | i, t :: rest, o =>
    let e := tokAdvance t o
    let nx : Option Nat :=
      match fm i t with
      | .pass => some (align_offset 4 e)
      | .drop => some (align_offset 4 o)
      | .modifySize n =>
        match t with
        | .prop _ _ => some (align_offset 4 (o + 12 + n))
        | _ => none
    match nx with
    | none => (e, none)
    | some nxo =>
      match serGhost fm (i + 1) rest nxo with
      | (mx, r) => (max e mx, r)

/-- Ghost bookkeeping: the maximum write end of the memory-reservation
block copy (no write happens when there are no entries). -/
def rsvMaxEnd (t : DevTree) : Nat :=
  if t.reserved.length = 0 then 0 else t.off_mem_rsvmap + 16 * t.reserved.length

/-- Ghost replay of a whole `modify` call: the first component is the true
minimum buffer length the pass requires (the maximum over the ends of every
write it attempts); the second is `some` returned total size, or `none`
when the callback directs `ModifySize` at a non-property token. -/
def modifyGhost (t : DevTree) (fm : Nat → ParsedTok → ModifyTokenResponse) :
    Nat × Option Nat :=
  match serGhost fm 0 t.tokens t.off_dt_struct with
  | (mx, none) => (max 40 (max (rsvMaxEnd t) mx), none)
  | (mx, some endo) =>
    let strOff := endo + 4
    let mx1 := max 40 (max (rsvMaxEnd t) (max mx (endo + 4)))
    let mx2 := if t.size_dt_strings = 0 then mx1 else max mx1 (strOff + t.size_dt_strings)
    (mx2, some (align_offset 4 (strOff + t.size_dt_strings)))

/-- Ghost bookkeeping: the final cursor of a pass-through token loop
started at offset `o`. -/
def passEnd : List ParsedTok → Nat → Nat
  | [], o => o
  | t :: rest, o => passEnd rest (align_offset 4 (tokAdvance t o))

/-- Ghost bookkeeping: the tokens of a pass-through loop annotated with the
offset at which each is emitted. -/
def passAnnot : List ParsedTok → Nat → List (Nat × ParsedTok)
  | [], _ => []
  | t :: rest, o => (o, t) :: passAnnot rest (align_offset 4 (tokAdvance t o))

/-- Ghost bookkeeping: whether `p` lies in one of the alignment gaps of a
pass-through loop started at offset `o` — at or past the end of some
token's last written byte and before the 4-aligned offset of the next. -/
def inPassGap : List ParsedTok → Nat → Nat → Bool
  | [], _, _ => false
  | t :: rest, o, p =>
    (decide (tokAdvance t o ≤ p) && decide (p < align_offset 4 (tokAdvance t o))) ||
      inPassGap rest (align_offset 4 (tokAdvance t o)) p

/-- Validity of a source token: byte values are bytes, a node name has no
interior NUL (it is stored null-terminated), and the u32-sized fields of a
property fit in 32 bits. -/
def tokValid : ParsedTok → Bool
  | .beginNode name => name.all fun b => decide (b < 256) && decide (b ≠ 0)
  | .prop noff pb =>
    (pb.all fun b => decide (b < 256)) && decide (noff < 2 ^ 32) &&
      decide (pb.length < 2 ^ 32)
  | .endNode => true
  | .nop => true

/-- Validity of a source tree, as the wire format requires of an accepted
input: the header occupies the first 40 bytes, the reservation entries run
from `off_mem_rsvmap` exactly up to the structure block's start (the spec's
"terminated implicitly by the structure block's start offset"), the
structure block starts 4-byte aligned, and every token is valid. -/
def validTree (t : DevTree) : Bool :=
  decide (40 ≤ t.off_mem_rsvmap) &&
  decide (t.off_mem_rsvmap + 16 * t.reserved.length = t.off_dt_struct) &&
  decide (t.off_dt_struct % 4 = 0) &&
  t.tokens.all tokValid

/-- Modelled from the spec: the structure-block reader (the excluded
parser, `crate::base::parse`), reading the wire format of section 6 of the
spec — a 4-byte big-endian tag, then for `BeginNode` a null-terminated
name padded to 4 bytes, for `Prop` a 4-byte length, a 4-byte strings-table
offset and that many value bytes padded to 4, nothing for
`EndNode`/`Nop` — until the distinguished `End` tag.  Returns the tokens
annotated with their start offsets and the offset just past the `End` tag;
`none` on any out-of-bounds read, unknown tag, or fuel exhaustion. -/
def parseToks (b : Buffer) (pos : Nat) : Nat → Option (List (Nat × ParsedTok) × Nat)
  | 0 => none
  | fuel + 1 =>
    match b.read_be_u32 pos with
    | .error _ => none
    | .ok tag =>
      if tag = fdtEnd then some ([], pos + 4)
      else if tag = fdtBeginNode then
        match b.read_bstring0 (pos + 4) with
        | .error _ => none
        | .ok name =>
          match parseToks b (align_offset 4 (pos + 4 + name.length + 1)) fuel with
          | some (r, fin) => some ((pos, .beginNode name) :: r, fin)
          | none => none
      else if tag = fdtProp then
        match b.read_be_u32 (pos + 4), b.read_be_u32 (pos + 8) with
        | .ok plen, .ok noff =>
          if pos + 12 + plen > b.len then none
          else
            match parseToks b (align_offset 4 (pos + 12 + plen)) fuel with
            | some (r, fin) =>
              some ((pos, .prop noff ((List.range plen).map fun k =>
                b.data (pos + 12 + k) % 256)) :: r, fin)
            | none => none
        | _, _ => none
      else if tag = fdtEndNode then
        match parseToks b (pos + 4) fuel with
        | some (r, fin) => some ((pos, .endNode) :: r, fin)
        | none => none
      else if tag = fdtNop then
        match parseToks b (pos + 4) fuel with
        | some (r, fin) => some ((pos, .nop) :: r, fin)
        | none => none
      else none

/-- The byte image a token's serialization leaves at `off` (ghost
specification used by the round-trip proofs): the big-endian tag, then the
variant's payload — for a valid token the stored bytes equal the token's
own bytes. -/
def tokBytesSpec (d : Nat → Nat) (off : Nat) : ParsedTok → Prop
  | .beginNode name =>
    d off = 0 ∧ d (off + 1) = 0 ∧ d (off + 2) = 0 ∧ d (off + 3) = fdtBeginNode ∧
    (∀ k (hk : k < name.length), d (off + 4 + k) = name.get ⟨k, hk⟩) ∧
    d (off + 4 + name.length) = 0
  | .prop noff pb =>
    d off = 0 ∧ d (off + 1) = 0 ∧ d (off + 2) = 0 ∧ d (off + 3) = fdtProp ∧
    d (off + 4) = pb.length / 2 ^ 24 % 256 ∧ d (off + 5) = pb.length / 2 ^ 16 % 256 ∧
    d (off + 6) = pb.length / 2 ^ 8 % 256 ∧ d (off + 7) = pb.length % 256 ∧
    d (off + 8) = noff / 2 ^ 24 % 256 ∧ d (off + 9) = noff / 2 ^ 16 % 256 ∧
    d (off + 10) = noff / 2 ^ 8 % 256 ∧ d (off + 11) = noff % 256 ∧
    (∀ k (hk : k < pb.length), d (off + 12 + k) = pb.get ⟨k, hk⟩)
  | .endNode => d off = 0 ∧ d (off + 1) = 0 ∧ d (off + 2) = 0 ∧ d (off + 3) = fdtEndNode
  | .nop => d off = 0 ∧ d (off + 1) = 0 ∧ d (off + 2) = 0 ∧ d (off + 3) = fdtNop

/-- Ghost specification: the bytes the header pass leaves for the two
header fields that are never back-patched and are re-read by the
invariants — the structure-block offset (bytes 8–11) and the strings-block
size (bytes 32–35). -/
def hdrFieldBytes (d : Nat → Nat) (t : DevTree) : Prop :=
  d 8 = t.off_dt_struct / 2 ^ 24 % 256 ∧ d 9 = t.off_dt_struct / 2 ^ 16 % 256 ∧
  d 10 = t.off_dt_struct / 2 ^ 8 % 256 ∧ d 11 = t.off_dt_struct % 256 ∧
  d 32 = t.size_dt_strings / 2 ^ 24 % 256 ∧ d 33 = t.size_dt_strings / 2 ^ 16 % 256 ∧
  d 34 = t.size_dt_strings / 2 ^ 8 % 256 ∧ d 35 = t.size_dt_strings % 256

/-- A small concrete source tree used to exercise the serializer: one
node named "ab" holding one 5-byte property, a nop and the node end, no
memory reservations, and a 4-byte strings block at offset 200 of the
source buffer. -/
def exTree : DevTree where
  bufData := fun i => (i + 3) % 256
  totalsize := 84
  off_dt_struct := 40
  off_dt_strings := 200
  off_mem_rsvmap := 40
  version := 17
  last_comp_version := 16
  boot_cpuid_phys := 0
  size_dt_strings := 4
  size_dt_struct := 40
  reserved := []
  tokens := [.beginNode [97, 98], .prop 0 [1, 2, 3, 4, 5], .nop, .endNode]
  parseErr := false

/-- A destination buffer exactly as large as the pass-through
serialization of `exTree` requires (84 bytes), pre-filled with the byte 7. -/
def exBuf : Buffer := ⟨fun _ => 7, 84⟩

/-- A destination buffer too small for even the 40-byte header. -/
def exBufShort : Buffer := ⟨fun _ => 7, 30⟩

/-- A source tree whose structure block is truncated mid-stream: the
parser stops with an error after yielding the tokens.  Only the
`parseErr` flag differs from `exTree`. -/
def exTreeErr : DevTree := { exTree with parseErr := true }

/-- A source tree with two sibling `BeginNode` tokens whose first node has
the long name "abcdefgh": dropping it makes the serializer rewind over
bytes it has already written, leaving residue in the later alignment
gap. -/
def gapTree : DevTree where
  bufData := fun _ => 65
  totalsize := 52
  off_dt_struct := 40
  off_dt_strings := 100
  off_mem_rsvmap := 40
  version := 17
  last_comp_version := 16
  boot_cpuid_phys := 0
  size_dt_strings := 0
  size_dt_struct := 8
  reserved := []
  tokens := [.beginNode [97, 98, 99, 100, 101, 102, 103, 104], .beginNode [97, 98]]
  parseErr := false

/-- A 53-byte destination buffer for `gapTree`, pre-filled with the byte
7 (53 bytes because the dropped token's serialization transiently reaches
offset 53 before the rewind). -/
def gapBuf : Buffer := ⟨fun _ => 7, 53⟩

/-! ### Arithmetic and alignment lemmas -/

theorem align4_of_dvd {o : Nat} (h : o % 4 = 0) : align_offset 4 o = o := by
  simp [align_offset, h]

theorem align4_mod (o : Nat) : align_offset 4 o % 4 = 0 := by
  unfold align_offset
  split <;> omega

theorem align4_le (o : Nat) : o ≤ align_offset 4 o := by
  unfold align_offset
  split <;> omega

theorem align4_lt (o : Nat) : align_offset 4 o < o + 4 := by
  unfold align_offset
  split <;> omega

theorem beBytesVal (v : Nat) :
    v / 2 ^ 24 % 256 % 256 * 2 ^ 24 + v / 2 ^ 16 % 256 % 256 * 2 ^ 16 +
      v / 2 ^ 8 % 256 % 256 * 2 ^ 8 + v % 256 % 256 = v % 2 ^ 32 := by
  norm_num
  omega

/-! ### Characterization of the write accessors -/

theorem write_u8_spec (b : Buffer) (pos v : Nat) (h : pos + 1 ≤ b.len) :
    (b.write_u8 pos v).1 = .ok ∧ (b.write_u8 pos v).2.len = b.len ∧
    (b.write_u8 pos v).2.data pos = v % 256 ∧
    ∀ p, p ≠ pos → (b.write_u8 pos v).2.data p = b.data p := by
  have hc : ¬ (pos + 1 > b.len) := by omega
  unfold Buffer.write_u8
  rw [if_neg hc]
  refine ⟨rfl, rfl, by simp [Buffer.setByte], ?_⟩
  intro p hp
  simp [Buffer.setByte, hp]

theorem write_u8_err (b : Buffer) (pos v : Nat) (h : b.len < pos + 1) :
    b.write_u8 pos v = (.error .unexpectedEndOfInput, b) := by
  unfold Buffer.write_u8
  rw [if_pos h]

theorem write_u8_oob (b : Buffer) (pos v p : Nat) (hp : b.len ≤ p) :
    (b.write_u8 pos v).2.data p = b.data p ∧ (b.write_u8 pos v).2.len = b.len := by
  unfold Buffer.write_u8
  split
  · exact ⟨rfl, rfl⟩
  · next h =>
    have hne : p ≠ pos := by omega
    exact ⟨by simp [Buffer.setByte, hne], rfl⟩

theorem write_be_u32_spec (b : Buffer) (pos v : Nat) (h : pos + 4 ≤ b.len) :
    (b.write_be_u32 pos v).1 = .ok ∧ (b.write_be_u32 pos v).2.len = b.len ∧
    (b.write_be_u32 pos v).2.data pos = v / 2 ^ 24 % 256 ∧
    (b.write_be_u32 pos v).2.data (pos + 1) = v / 2 ^ 16 % 256 ∧
    (b.write_be_u32 pos v).2.data (pos + 2) = v / 2 ^ 8 % 256 ∧
    (b.write_be_u32 pos v).2.data (pos + 3) = v % 256 ∧
    ∀ p, p < pos ∨ pos + 4 ≤ p → (b.write_be_u32 pos v).2.data p = b.data p := by
  have hc : ¬ (pos + 4 > b.len) := by omega
  unfold Buffer.write_be_u32
  rw [if_neg hc]
  refine ⟨rfl, rfl, ?_, ?_, ?_, ?_, ?_⟩
  · simp only [Buffer.setByte]
    rw [if_neg (by omega), if_neg (by omega), if_neg (by omega)]
    simp
  · simp only [Buffer.setByte]
    rw [if_neg (by omega), if_neg (by omega)]
    simp
  · simp only [Buffer.setByte]
    rw [if_neg (by omega)]
    simp
  · simp only [Buffer.setByte]
    simp
  · intro p hp
    simp only [Buffer.setByte]
    rw [if_neg (by omega), if_neg (by omega), if_neg (by omega), if_neg (by omega)]

theorem write_be_u32_err (b : Buffer) (pos v : Nat) (h : b.len < pos + 4) :
    b.write_be_u32 pos v = (.error .unexpectedEndOfInput, b) := by
  unfold Buffer.write_be_u32
  rw [if_pos h]

theorem write_be_u32_oob (b : Buffer) (pos v p : Nat) (hp : b.len ≤ p) :
    (b.write_be_u32 pos v).2.data p = b.data p ∧ (b.write_be_u32 pos v).2.len = b.len := by
  unfold Buffer.write_be_u32
  split
  · exact ⟨rfl, rfl⟩
  · next h =>
    constructor
    · simp only [Buffer.setByte]
      rw [if_neg (by omega), if_neg (by omega), if_neg (by omega), if_neg (by omega)]
    · rfl

theorem write_be_u64_spec (b : Buffer) (pos v : Nat) (h : pos + 8 ≤ b.len) :
    (b.write_be_u64 pos v).1 = .ok ∧ (b.write_be_u64 pos v).2.len = b.len ∧
    (∀ k, k < 8 → (b.write_be_u64 pos v).2.data (pos + k) = v / 2 ^ (8 * (7 - k)) % 256) ∧
    ∀ p, p < pos ∨ pos + 8 ≤ p → (b.write_be_u64 pos v).2.data p = b.data p := by
  have hc : ¬ (pos + 8 > b.len) := by omega
  unfold Buffer.write_be_u64
  rw [if_neg hc]
  refine ⟨rfl, rfl, ?_, ?_⟩
  · intro k hk
    interval_cases k <;> simp only [Buffer.setByte] <;> norm_num
  · intro p hp
    have hne : ∀ k, k ≤ 7 → ¬ (p = pos + k) := fun k hk => by omega
    simp only [Buffer.setByte]
    rw [if_neg (hne 7 le_rfl), if_neg (hne 6 (by norm_num)), if_neg (hne 5 (by norm_num)),
      if_neg (hne 4 (by norm_num)), if_neg (hne 3 (by norm_num)),
      if_neg (hne 2 (by norm_num)), if_neg (hne 1 (by norm_num)),
      if_neg (show ¬ (p = pos) from by omega)]

theorem write_be_u64_err (b : Buffer) (pos v : Nat) (h : b.len < pos + 8) :
    b.write_be_u64 pos v = (.error .unexpectedEndOfInput, b) := by
  unfold Buffer.write_be_u64
  rw [if_pos h]

theorem write_be_u64_oob (b : Buffer) (pos v p : Nat) (hp : b.len ≤ p) :
    (b.write_be_u64 pos v).2.data p = b.data p ∧ (b.write_be_u64 pos v).2.len = b.len := by
  unfold Buffer.write_be_u64
  split
  · exact ⟨rfl, rfl⟩
  · next h =>
    refine ⟨?_, rfl⟩
    have hne : ∀ k, k ≤ 7 → ¬ (p = pos + k) := fun k hk => by omega
    simp only [Buffer.setByte]
    rw [if_neg (hne 7 le_rfl), if_neg (hne 6 (by norm_num)), if_neg (hne 5 (by norm_num)),
      if_neg (hne 4 (by norm_num)), if_neg (hne 3 (by norm_num)),
      if_neg (hne 2 (by norm_num)), if_neg (hne 1 (by norm_num)),
      if_neg (show ¬ (p = pos) from by omega)]

theorem write_slice_spec (s : List Nat) : ∀ (b : Buffer) (pos : Nat),
    pos + s.length ≤ b.len →
    (b.write_slice pos s).1 = .ok ∧ (b.write_slice pos s).2.len = b.len ∧
    (∀ k (hk : k < s.length), (b.write_slice pos s).2.data (pos + k) = s.get ⟨k, hk⟩ % 256) ∧
    ∀ p, p < pos ∨ pos + s.length ≤ p → (b.write_slice pos s).2.data p = b.data p := by
  induction s with
  | nil =>
    intro b pos _
    exact ⟨rfl, rfl, fun k hk => absurd hk (by simp), fun p _ => rfl⟩
  | cons c rest ih =>
    intro b pos h
    have h1 : pos + 1 ≤ b.len := by simp at h; omega
    obtain ⟨hr, hlen, hat, hfr⟩ := write_u8_spec b pos c h1
    unfold Buffer.write_slice
    rcases hw : b.write_u8 pos c with ⟨r, b'⟩
    rw [hw] at hr hlen hat hfr
    simp only at hr hlen hat hfr
    subst hr
    have h2 : pos + 1 + rest.length ≤ b'.len := by
      rw [hlen]; simp at h; omega
    obtain ⟨ir, ilen, iat, ifr⟩ := ih b' (pos + 1) h2
    refine ⟨ir, by rw [ilen, hlen], ?_, ?_⟩
    · intro k hk
      match k with
      | 0 =>
        rw [show pos + 0 = pos by omega, ifr pos (Or.inl (by omega)), hat]
        rfl
      | k + 1 =>
        have hk' : k < rest.length := by simp at hk; omega
        have := iat k hk'
        rw [show pos + (k + 1) = pos + 1 + k by omega, this]
        rfl
    · intro p hp
      have : p < pos + 1 ∨ pos + 1 + rest.length ≤ p := by simp at hp ⊢; omega
      rcases hp with hp | hp
      · rw [ifr p (Or.inl (by omega)), hfr p (by omega)]
      · rw [ifr p (Or.inr (by simp at hp ⊢; omega)), hfr p (by simp at hp; omega)]

theorem write_slice_err (s : List Nat) : ∀ (b : Buffer) (pos : Nat),
    s ≠ [] → b.len < pos + s.length →
    (b.write_slice pos s).1 = .error .unexpectedEndOfInput := by
  induction s with
  | nil => intro b pos hne _; exact absurd rfl hne
  | cons c rest ih =>
    intro b pos _ h
    unfold Buffer.write_slice
    by_cases h1 : b.len < pos + 1
    · rw [write_u8_err b pos c h1]
    · have h1' : pos + 1 ≤ b.len := by omega
      obtain ⟨hr, hlen, _, _⟩ := write_u8_spec b pos c h1'
      rcases hw : b.write_u8 pos c with ⟨r, b'⟩
      rw [hw] at hr hlen
      simp only at hr hlen
      subst hr
      have hrest : rest ≠ [] := by
        intro hcon
        subst hcon
        simp at h
        omega
      exact ih b' (pos + 1) hrest (by rw [hlen]; simp at h; omega)

theorem write_slice_oob (s : List Nat) : ∀ (b : Buffer) (pos p : Nat), b.len ≤ p →
    (b.write_slice pos s).2.data p = b.data p ∧ (b.write_slice pos s).2.len = b.len := by
  induction s with
  | nil => intro b pos p _; exact ⟨rfl, rfl⟩
  | cons c rest ih =>
    intro b pos p hp
    unfold Buffer.write_slice
    rcases hw : b.write_u8 pos c with ⟨r, b'⟩
    have h8 := write_u8_oob b pos c p hp
    rw [hw] at h8
    simp only at h8
    cases r with
    | ok =>
      have := ih b' (pos + 1) p (by rw [h8.2]; exact hp)
      exact ⟨by rw [this.1, h8.1], by rw [this.2, h8.2]⟩
    | error e => exact h8

theorem write_bstring0_spec (s : List Nat) : ∀ (b : Buffer) (pos : Nat),
    pos + s.length + 1 ≤ b.len →
    (b.write_bstring0 pos s).1 = .ok ∧ (b.write_bstring0 pos s).2.len = b.len ∧
    (∀ k (hk : k < s.length), (b.write_bstring0 pos s).2.data (pos + k) = s.get ⟨k, hk⟩ % 256) ∧
    (b.write_bstring0 pos s).2.data (pos + s.length) = 0 ∧
    ∀ p, p < pos ∨ pos + s.length + 1 ≤ p → (b.write_bstring0 pos s).2.data p = b.data p := by
  induction s with
  | nil =>
    intro b pos h
    obtain ⟨hr, hlen, hat, hfr⟩ := write_u8_spec b pos 0 (by omega)
    unfold Buffer.write_bstring0
    refine ⟨hr, hlen, fun k hk => absurd hk (by simp), by simpa using hat, ?_⟩
    intro p hp
    exact hfr p (by simp at hp; omega)
  | cons c rest ih =>
    intro b pos h
    have h1 : pos + 1 ≤ b.len := by simp at h; omega
    obtain ⟨hr, hlen, hat, hfr⟩ := write_u8_spec b pos c h1
    unfold Buffer.write_bstring0
    rcases hw : b.write_u8 pos c with ⟨r, b'⟩
    rw [hw] at hr hlen hat hfr
    simp only at hr hlen hat hfr
    subst hr
    have h2 : pos + 1 + rest.length + 1 ≤ b'.len := by rw [hlen]; simp at h; omega
    obtain ⟨ir, ilen, iat, inul, ifr⟩ := ih b' (pos + 1) h2
    refine ⟨ir, by rw [ilen, hlen], ?_, ?_, ?_⟩
    · intro k hk
      match k with
      | 0 =>
        rw [show pos + 0 = pos by omega, ifr pos (Or.inl (by omega)), hat]
        rfl
      | k + 1 =>
        have hk' : k < rest.length := by simp at hk; omega
        have := iat k hk'
        rw [show pos + (k + 1) = pos + 1 + k by omega, this]
        rfl
    · rw [show pos + (c :: rest).length = pos + 1 + rest.length by simp; omega]
      exact inul
    · intro p hp
      rcases hp with hp | hp
      · rw [ifr p (Or.inl (by omega)), hfr p (by omega)]
      · rw [ifr p (Or.inr (by simp at hp ⊢; omega)), hfr p (by simp at hp; omega)]

theorem write_bstring0_err (s : List Nat) : ∀ (b : Buffer) (pos : Nat),
    b.len < pos + s.length + 1 →
    (b.write_bstring0 pos s).1 = .error .unexpectedEndOfInput := by
  induction s with
  | nil =>
    intro b pos h
    unfold Buffer.write_bstring0
    simp only [List.length_nil] at h
    rw [write_u8_err b pos 0 (by omega)]
  | cons c rest ih =>
    intro b pos h
    unfold Buffer.write_bstring0
    by_cases h1 : b.len < pos + 1
    · rw [write_u8_err b pos c h1]
    · have h1' : pos + 1 ≤ b.len := by omega
      obtain ⟨hr, hlen, _, _⟩ := write_u8_spec b pos c h1'
      rcases hw : b.write_u8 pos c with ⟨r, b'⟩
      rw [hw] at hr hlen
      simp only at hr hlen
      subst hr
      exact ih b' (pos + 1) (by rw [hlen]; simp at h; omega)

theorem write_bstring0_oob (s : List Nat) : ∀ (b : Buffer) (pos p : Nat), b.len ≤ p →
    (b.write_bstring0 pos s).2.data p = b.data p ∧ (b.write_bstring0 pos s).2.len = b.len := by
  induction s with
  | nil => intro b pos p hp; exact write_u8_oob b pos 0 p hp
  | cons c rest ih =>
    intro b pos p hp
    unfold Buffer.write_bstring0
    rcases hw : b.write_u8 pos c with ⟨r, b'⟩
    have h8 := write_u8_oob b pos c p hp
    rw [hw] at h8
    simp only at h8
    cases r with
    | ok =>
      have := ih b' (pos + 1) p (by rw [h8.2]; exact hp)
      exact ⟨by rw [this.1, h8.1], by rw [this.2, h8.2]⟩
    | error e => exact h8

/-! ### Characterization of the read accessors -/

theorem read_back_u32 (b : Buffer) (pos v : Nat) (h4 : pos + 4 ≤ b.len)
    (h0 : b.data pos = v / 2 ^ 24 % 256) (h1 : b.data (pos + 1) = v / 2 ^ 16 % 256)
    (h2 : b.data (pos + 2) = v / 2 ^ 8 % 256) (h3 : b.data (pos + 3) = v % 256) :
    b.read_be_u32 pos = .ok (v % 2 ^ 32) := by
  unfold Buffer.read_be_u32
  rw [if_neg (by omega), h0, h1, h2, h3, beBytesVal]

theorem findNul_spec (s : List Nat) : ∀ (b : Buffer) (pos : Nat),
    (∀ k (hk : k < s.length), b.data (pos + k) = s.get ⟨k, hk⟩) →
    (∀ c ∈ s, c < 256 ∧ c ≠ 0) →
    b.data (pos + s.length) = 0 → pos + s.length < b.len →
    b.findNul pos = some (pos + s.length) := by
  induction s with
  | nil =>
    intro b pos _ _ hnul hlt
    unfold Buffer.findNul
    simp only [List.length_nil, Nat.add_zero] at hnul hlt
    rw [dif_pos (by omega)]
    rw [if_pos (by omega)]
    simp
  | cons c rest ih =>
    intro b pos hbytes hvals hnul hlt
    unfold Buffer.findNul
    have hc : b.data pos = c := by
      have := hbytes 0 (by simp)
      simpa using this
    obtain ⟨hc256, hc0⟩ := hvals c (by simp)
    rw [dif_pos (by simp at hlt; omega)]
    rw [if_neg (by rw [hc, Nat.mod_eq_of_lt hc256]; exact hc0)]
    have := ih b (pos + 1)
      (fun k hk => by
        have := hbytes (k + 1) (by simp; omega)
        rw [show pos + 1 + k = pos + (k + 1) by omega]
        simpa using this)
      (fun d hd => hvals d (by simp [hd]))
      (by rw [show pos + 1 + rest.length = pos + (c :: rest).length by simp; omega]; exact hnul)
      (by simp at hlt; omega)
    rw [this]
    congr 1
    simp
    omega

theorem read_bstring0_of_bytes (b : Buffer) (pos : Nat) (s : List Nat)
    (hbytes : ∀ k (hk : k < s.length), b.data (pos + k) = s.get ⟨k, hk⟩)
    (hvals : ∀ c ∈ s, c < 256 ∧ c ≠ 0)
    (hnul : b.data (pos + s.length) = 0) (hlt : pos + s.length < b.len) :
    b.read_bstring0 pos = .ok s := by
  unfold Buffer.read_bstring0
  rw [findNul_spec s b pos hbytes hvals hnul hlt]
  have hlen : pos + s.length - pos = s.length := by omega
  dsimp only
  rw [hlen]
  congr 1
  refine List.ext_get (by simp) ?_
  intro k hk1 hk2
  simp only [List.get_eq_getElem, List.getElem_map, List.getElem_range]
  have hk : k < s.length := by simpa using hk2
  rw [hbytes k hk]
  have := (hvals (s.get ⟨k, hk⟩) (by simp)).1
  simp only [List.get_eq_getElem] at this
  simp [Nat.mod_eq_of_lt this]

/-! ### Outcome plumbing -/

theorem unwrapped_state (x : SliceWriteResult × St) : (unwrapped x).state = x.2 := by
  rcases x with ⟨r, st⟩
  cases r <;> rfl

theorem unwrapped_cases (x : SliceWriteResult × St) :
    unwrapped x = .ok () x.2 ∨ unwrapped x = .trap x.2 := by
  rcases x with ⟨r, st⟩
  cases r with
  | ok => exact Or.inl rfl
  | error e => exact Or.inr rfl

theorem serialize_u32_snd (st : St) (v : Nat) :
    (serialize_u32 st v).2 = ⟨(st.buf.write_be_u32 st.off v).2, st.off + 4⟩ := rfl

theorem serialize_u64_snd (st : St) (v : Nat) :
    (serialize_u64 st v).2 = ⟨(st.buf.write_be_u64 st.off v).2, st.off + 8⟩ := rfl

theorem serialize_slice_snd (st : St) (s : List Nat) :
    (serialize_slice st s).2 = ⟨(st.buf.write_slice st.off s).2, st.off + s.length⟩ := rfl

theorem serialize_string_snd (st : St) (s : List Nat) :
    (serialize_string st s).2 = ⟨(st.buf.write_bstring0 st.off s).2, st.off + s.length + 1⟩ := rfl

theorem seq_oob {α : Type} (o : Out Unit) (k : St → Out α) (p L : Nat) (d0 : Nat → Nat)
    (ho : o.state.buf.len = L ∧ o.state.buf.data p = d0 p)
    (hk : ∀ st', o = .ok () st' →
      (k st').state.buf.len = L ∧ (k st').state.buf.data p = d0 p) :
    (o.seq k).state.buf.len = L ∧ (o.seq k).state.buf.data p = d0 p := by
  cases o with
  | ok v st' => cases v; exact hk st' rfl
  | err e st' => exact ho
  | trap st' => exact ho

theorem seq_ok_state {α : Type} (o : Out Unit) (k : St → Out α) (st' : St)
    (h : o = .ok () st') : o.seq k = k st' := by
  rw [h]
  rfl

/-! ### Nothing is ever stored at or past the end of the buffer -/

theorem u32_oob (st : St) (v p L : Nat) (d0 : Nat → Nat)
    (h1 : st.buf.len = L) (h2 : st.buf.data p = d0 p) (hp : L ≤ p) :
    (unwrapped (serialize_u32 st v)).state.buf.len = L ∧
    (unwrapped (serialize_u32 st v)).state.buf.data p = d0 p := by
  rw [unwrapped_state, serialize_u32_snd]
  have := write_be_u32_oob st.buf st.off v p (by omega)
  exact ⟨by rw [this.2, h1], by rw [this.1, h2]⟩

theorem u64_oob (st : St) (v p L : Nat) (d0 : Nat → Nat)
    (h1 : st.buf.len = L) (h2 : st.buf.data p = d0 p) (hp : L ≤ p) :
    (unwrapped (serialize_u64 st v)).state.buf.len = L ∧
    (unwrapped (serialize_u64 st v)).state.buf.data p = d0 p := by
  rw [unwrapped_state, serialize_u64_snd]
  have := write_be_u64_oob st.buf st.off v p (by omega)
  exact ⟨by rw [this.2, h1], by rw [this.1, h2]⟩

theorem slice_oob (st : St) (s : List Nat) (p L : Nat) (d0 : Nat → Nat)
    (h1 : st.buf.len = L) (h2 : st.buf.data p = d0 p) (hp : L ≤ p) :
    (unwrapped (serialize_slice st s)).state.buf.len = L ∧
    (unwrapped (serialize_slice st s)).state.buf.data p = d0 p := by
  rw [unwrapped_state, serialize_slice_snd]
  have := write_slice_oob s st.buf st.off p (by omega)
  exact ⟨by rw [this.2, h1], by rw [this.1, h2]⟩

theorem string_oob (st : St) (s : List Nat) (p L : Nat) (d0 : Nat → Nat)
    (h1 : st.buf.len = L) (h2 : st.buf.data p = d0 p) (hp : L ≤ p) :
    (unwrapped (serialize_string st s)).state.buf.len = L ∧
    (unwrapped (serialize_string st s)).state.buf.data p = d0 p := by
  rw [unwrapped_state, serialize_string_snd]
  have := write_bstring0_oob s st.buf st.off p (by omega)
  exact ⟨by rw [this.2, h1], by rw [this.1, h2]⟩

theorem seq_u32_oob {α : Type} (st : St) (v : Nat) (k : St → Out α) (p L : Nat)
    (d0 : Nat → Nat) (h1 : st.buf.len = L) (h2 : st.buf.data p = d0 p) (hp : L ≤ p)
    (hk : ∀ st', st'.buf.len = L → st'.buf.data p = d0 p →
      (k st').state.buf.len = L ∧ (k st').state.buf.data p = d0 p) :
    ((unwrapped (serialize_u32 st v)).seq k).state.buf.len = L ∧
    ((unwrapped (serialize_u32 st v)).seq k).state.buf.data p = d0 p := by
  refine seq_oob _ _ p L d0 (u32_oob st v p L d0 h1 h2 hp) ?_
  intro st' hok
  have := u32_oob st v p L d0 h1 h2 hp
  rw [hok] at this
  exact hk st' this.1 this.2

theorem seq_u64_oob {α : Type} (st : St) (v : Nat) (k : St → Out α) (p L : Nat)
    (d0 : Nat → Nat) (h1 : st.buf.len = L) (h2 : st.buf.data p = d0 p) (hp : L ≤ p)
    (hk : ∀ st', st'.buf.len = L → st'.buf.data p = d0 p →
      (k st').state.buf.len = L ∧ (k st').state.buf.data p = d0 p) :
    ((unwrapped (serialize_u64 st v)).seq k).state.buf.len = L ∧
    ((unwrapped (serialize_u64 st v)).seq k).state.buf.data p = d0 p := by
  refine seq_oob _ _ p L d0 (u64_oob st v p L d0 h1 h2 hp) ?_
  intro st' hok
  have := u64_oob st v p L d0 h1 h2 hp
  rw [hok] at this
  exact hk st' this.1 this.2

theorem serTokBytes_oob (t : ParsedTok) (st : St) (p L : Nat) (d0 : Nat → Nat)
    (h1 : st.buf.len = L) (h2 : st.buf.data p = d0 p) (hp : L ≤ p) :
    (serTokBytes t st).state.buf.len = L ∧ (serTokBytes t st).state.buf.data p = d0 p := by
  cases t with
  | beginNode name =>
    dsimp only [serTokBytes]
    refine seq_oob _ _ p L d0 (u32_oob st _ p L d0 h1 h2 hp) ?_
    intro st' hok
    have hst' : st'.buf.len = L ∧ st'.buf.data p = d0 p := by
      have := u32_oob st fdtBeginNode p L d0 h1 h2 hp
      rw [hok] at this
      exact this
    split
    · exact u32_oob st' 0 p L d0 hst'.1 hst'.2 hp
    · exact string_oob st' name p L d0 hst'.1 hst'.2 hp
  | prop noff pb =>
    dsimp only [serTokBytes]
    refine seq_oob _ _ p L d0 (u32_oob st _ p L d0 h1 h2 hp) ?_
    intro st1 hok1
    have hst1 : st1.buf.len = L ∧ st1.buf.data p = d0 p := by
      have := u32_oob st fdtProp p L d0 h1 h2 hp
      rw [hok1] at this
      exact this
    refine seq_oob _ _ p L d0 (u32_oob st1 _ p L d0 hst1.1 hst1.2 hp) ?_
    intro st2 hok2
    have hst2 : st2.buf.len = L ∧ st2.buf.data p = d0 p := by
      have := u32_oob st1 pb.length p L d0 hst1.1 hst1.2 hp
      rw [hok2] at this
      exact this
    refine seq_oob _ _ p L d0 (u32_oob st2 _ p L d0 hst2.1 hst2.2 hp) ?_
    intro st3 hok3
    have hst3 : st3.buf.len = L ∧ st3.buf.data p = d0 p := by
      have := u32_oob st2 noff p L d0 hst2.1 hst2.2 hp
      rw [hok3] at this
      exact this
    exact slice_oob st3 pb p L d0 hst3.1 hst3.2 hp
  | endNode => exact u32_oob st _ p L d0 h1 h2 hp
  | nop => exact u32_oob st _ p L d0 h1 h2 hp

theorem serOne_arm_oob (t : ParsedTok) (resp : ModifyTokenResponse) (node_offset : Nat)
    (st1 : St) (p L : Nat) (d0 : Nat → Nat)
    (h1 : st1.buf.len = L) (h2 : st1.buf.data p = d0 p) (hp : L ≤ p) :
    ((match resp with
      | ModifyTokenResponse.pass => Out.ok () st1
      | ModifyTokenResponse.drop => Out.ok () ⟨st1.buf, node_offset⟩
      | ModifyTokenResponse.modifySize n =>
        match t with
        | ParsedTok.prop noff _ =>
          (unwrapped (serialize_u32 ⟨st1.buf, node_offset + 4⟩ n)).seq fun st =>
          (unwrapped (serialize_u32 st noff)).seq fun st =>
          Out.ok () ⟨st.buf, st.off + n⟩
        | _ => Out.err (.invalidParameter "Cannot return ModifySize from a non-Prop token!") st1
      : Out Unit).seq fun st =>
        Out.ok () ⟨st.buf, align_offset 4 st.off⟩).state.buf.len = L ∧
    ((match resp with
      | ModifyTokenResponse.pass => Out.ok () st1
      | ModifyTokenResponse.drop => Out.ok () ⟨st1.buf, node_offset⟩
      | ModifyTokenResponse.modifySize n =>
        match t with
        | ParsedTok.prop noff _ =>
          (unwrapped (serialize_u32 ⟨st1.buf, node_offset + 4⟩ n)).seq fun st =>
          (unwrapped (serialize_u32 st noff)).seq fun st =>
          Out.ok () ⟨st.buf, st.off + n⟩
        | _ => Out.err (.invalidParameter "Cannot return ModifySize from a non-Prop token!") st1
      : Out Unit).seq fun st =>
        Out.ok () ⟨st.buf, align_offset 4 st.off⟩).state.buf.data p = d0 p := by
  cases resp with
  | pass => exact ⟨h1, h2⟩
  | drop => exact ⟨h1, h2⟩
  | modifySize n =>
    cases t with
    | prop noff pb =>
      refine seq_oob _ _ p L d0 ?_ ?_
      · refine seq_oob _ _ p L d0 (u32_oob _ n p L d0 h1 h2 hp) ?_
        intro st2 hok2
        have hst2 : st2.buf.len = L ∧ st2.buf.data p = d0 p := by
          have := u32_oob (⟨st1.buf, node_offset + 4⟩ : St) n p L d0 h1 h2 hp
          rw [hok2] at this
          exact this
        refine seq_oob _ _ p L d0 (u32_oob st2 noff p L d0 hst2.1 hst2.2 hp) ?_
        intro st3 hok3
        have := u32_oob st2 noff p L d0 hst2.1 hst2.2 hp
        rw [hok3] at this
        exact this
      · intro st4 hok4
        have : ((unwrapped (serialize_u32 ⟨st1.buf, node_offset + 4⟩ n)).seq fun st =>
            (unwrapped (serialize_u32 st noff)).seq fun st =>
            Out.ok () ⟨st.buf, st.off + n⟩).state.buf.len = L ∧
            ((unwrapped (serialize_u32 ⟨st1.buf, node_offset + 4⟩ n)).seq fun st =>
            (unwrapped (serialize_u32 st noff)).seq fun st =>
            Out.ok () ⟨st.buf, st.off + n⟩).state.buf.data p = d0 p := by
          refine seq_oob _ _ p L d0 (u32_oob _ n p L d0 h1 h2 hp) ?_
          intro st2 hok2
          have hst2 : st2.buf.len = L ∧ st2.buf.data p = d0 p := by
            have := u32_oob (⟨st1.buf, node_offset + 4⟩ : St) n p L d0 h1 h2 hp
            rw [hok2] at this
            exact this
          refine seq_oob _ _ p L d0 (u32_oob st2 noff p L d0 hst2.1 hst2.2 hp) ?_
          intro st3 hok3
          have := u32_oob st2 noff p L d0 hst2.1 hst2.2 hp
          rw [hok3] at this
          exact this
        dsimp only at hok4
        rw [hok4] at this
        exact this
    | beginNode name => exact ⟨h1, h2⟩
    | endNode => exact ⟨h1, h2⟩
    | nop => exact ⟨h1, h2⟩

theorem serOne_oob (t : ParsedTok) (resp : ModifyTokenResponse) (st : St) (p L : Nat)
    (d0 : Nat → Nat) (h1 : st.buf.len = L) (h2 : st.buf.data p = d0 p) (hp : L ≤ p) :
    (serOne t resp st).state.buf.len = L ∧ (serOne t resp st).state.buf.data p = d0 p := by
  unfold serOne
  refine seq_oob _ _ p L d0 (serTokBytes_oob t st p L d0 h1 h2 hp) ?_
  intro st1 hok1
  have hst1 : st1.buf.len = L ∧ st1.buf.data p = d0 p := by
    have := serTokBytes_oob t st p L d0 h1 h2 hp
    rw [hok1] at this
    exact this
  exact serOne_arm_oob t resp st.off ⟨st1.buf, align_offset 4 st1.off⟩ p L d0 hst1.1 hst1.2 hp

theorem serStructToks_oob (fm : Nat → ParsedTok → ModifyTokenResponse) (ts : List ParsedTok) :
    ∀ (i : Nat) (st : St) (p L : Nat) (d0 : Nat → Nat), st.buf.len = L →
    st.buf.data p = d0 p → L ≤ p →
    (serStructToks fm i ts st).state.buf.len = L ∧
    (serStructToks fm i ts st).state.buf.data p = d0 p := by
  induction ts with
  | nil => intro i st p L d0 h1 h2 _; exact ⟨h1, h2⟩
  | cons t rest ih =>
    intro i st p L d0 h1 h2 hp
    unfold serStructToks
    refine seq_oob _ _ p L d0 (serOne_oob t (fm i t) st p L d0 h1 h2 hp) ?_
    intro st1 hok1
    have hst1 : st1.buf.len = L ∧ st1.buf.data p = d0 p := by
      have := serOne_oob t (fm i t) st p L d0 h1 h2 hp
      rw [hok1] at this
      exact this
    exact ih (i + 1) st1 p L d0 hst1.1 hst1.2 hp

theorem serialize_header_oob (t : DevTree) (st : St) (p L : Nat) (d0 : Nat → Nat)
    (h1 : st.buf.len = L) (h2 : st.buf.data p = d0 p) (hp : L ≤ p) :
    (serialize_header t st).state.buf.len = L ∧
    (serialize_header t st).state.buf.data p = d0 p := by
  unfold serialize_header
  refine seq_u32_oob _ _ _ p L d0 h1 h2 hp ?_
  intro s1 l1 e1
  refine seq_u32_oob _ _ _ p L d0 l1 e1 hp ?_
  intro s2 l2 e2
  refine seq_u32_oob _ _ _ p L d0 l2 e2 hp ?_
  intro s3 l3 e3
  refine seq_u32_oob _ _ _ p L d0 l3 e3 hp ?_
  intro s4 l4 e4
  refine seq_u32_oob _ _ _ p L d0 l4 e4 hp ?_
  intro s5 l5 e5
  refine seq_u32_oob _ _ _ p L d0 l5 e5 hp ?_
  intro s6 l6 e6
  refine seq_u32_oob _ _ _ p L d0 l6 e6 hp ?_
  intro s7 l7 e7
  refine seq_u32_oob _ _ _ p L d0 l7 e7 hp ?_
  intro s8 l8 e8
  refine seq_u32_oob _ _ _ p L d0 l8 e8 hp ?_
  intro s9 l9 e9
  exact u32_oob _ _ p L d0 l9 e9 hp

theorem serRsvEntries_oob (rs : List (Nat × Nat)) : ∀ (st : St) (p L : Nat) (d0 : Nat → Nat),
    st.buf.len = L → st.buf.data p = d0 p → L ≤ p →
    (serRsvEntries rs st).state.buf.len = L ∧ (serRsvEntries rs st).state.buf.data p = d0 p := by
  induction rs with
  | nil => intro st p L d0 h1 h2 _; exact ⟨h1, h2⟩
  | cons e rest ih =>
    rcases e with ⟨a, s⟩
    intro st p L d0 h1 h2 hp
    unfold serRsvEntries
    refine seq_u64_oob _ _ _ p L d0 h1 h2 hp ?_
    intro s1 l1 e1
    refine seq_u64_oob _ _ _ p L d0 l1 e1 hp ?_
    intro s2 l2 e2
    exact ih s2 p L d0 l2 e2 hp

theorem modify_oob (t : DevTree) (B : Buffer) (fm : Nat → ParsedTok → ModifyTokenResponse)
    (p : Nat) (hp : B.len ≤ p) :
    (modify t B fm).state.buf.len = B.len ∧ (modify t B fm).state.buf.data p = B.data p := by
  unfold modify
  refine seq_oob _ _ p B.len B.data (serialize_header_oob t ⟨B, 0⟩ p B.len B.data rfl rfl hp) ?_
  intro st1 hok1
  have hst1 : st1.buf.len = B.len ∧ st1.buf.data p = B.data p := by
    have := serialize_header_oob t ⟨B, 0⟩ p B.len B.data rfl rfl hp
    rw [hok1] at this
    exact this
  refine seq_oob _ _ p B.len B.data ?_ ?_
  · exact serRsvEntries_oob t.reserved ⟨st1.buf, t.off_mem_rsvmap⟩ p B.len B.data hst1.1 hst1.2 hp
  intro st2 hok2
  have hst2 : st2.buf.len = B.len ∧ st2.buf.data p = B.data p := by
    have := serRsvEntries_oob t.reserved ⟨st1.buf, t.off_mem_rsvmap⟩ p B.len B.data hst1.1 hst1.2 hp
    have heq : serialize_memory_reservation_block t st1 =
        serRsvEntries t.reserved ⟨st1.buf, t.off_mem_rsvmap⟩ := rfl
    rw [heq] at hok2
    rw [hok2] at this
    exact this
  have hsb : (serialize_structure_block t fm st2).state.buf.len = B.len ∧
      (serialize_structure_block t fm st2).state.buf.data p = B.data p := by
    unfold serialize_structure_block
    refine seq_oob _ _ p B.len B.data
      (serStructToks_oob fm t.tokens 0 ⟨st2.buf, t.off_dt_struct⟩ p B.len B.data hst2.1 hst2.2 hp) ?_
    intro st3 hok3
    have hst3 : st3.buf.len = B.len ∧ st3.buf.data p = B.data p := by
      have := serStructToks_oob fm t.tokens 0 ⟨st2.buf, t.off_dt_struct⟩ p B.len B.data hst2.1 hst2.2 hp
      rw [hok3] at this
      exact this
    refine seq_oob _ _ p B.len B.data (u32_oob st3 fdtEnd p B.len B.data hst3.1 hst3.2 hp) ?_
    intro st4 hok4
    have hst4 : st4.buf.len = B.len ∧ st4.buf.data p = B.data p := by
      have := u32_oob st3 fdtEnd p B.len B.data hst3.1 hst3.2 hp
      rw [hok4] at this
      exact this
    exact hst4
  rcases hsbe : serialize_structure_block t fm st2 with ⟨n, st3⟩ | ⟨e, st3⟩ | st3
  · rw [hsbe] at hsb
    have hst3 : st3.buf.len = B.len ∧ st3.buf.data p = B.data p := hsb
    refine seq_oob _ _ p B.len B.data (u32_oob _ _ p B.len B.data hst3.1 hst3.2 hp) ?_
    intro st4 hok4
    have hst4 : st4.buf.len = B.len ∧ st4.buf.data p = B.data p := by
      have := u32_oob (⟨st3.buf, 36⟩ : St) n p B.len B.data hst3.1 hst3.2 hp
      have heq : set_structure_block_size n st3 = unwrapped (serialize_u32 ⟨st3.buf, 36⟩ n) := rfl
      rw [heq] at hok4
      rw [hok4] at this
      exact this
    refine seq_oob _ _ p B.len B.data (u32_oob _ _ p B.len B.data hst4.1 hst4.2 hp) ?_
    intro st5 hok5
    have hst5 : st5.buf.len = B.len ∧ st5.buf.data p = B.data p := by
      have := u32_oob (⟨st4.buf, 12⟩ : St) st3.off p B.len B.data hst4.1 hst4.2 hp
      have heq : set_strings_block_offset st3.off st4 =
          unwrapped (serialize_u32 ⟨st4.buf, 12⟩ st3.off) := rfl
      rw [heq] at hok5
      rw [hok5] at this
      exact this
    refine seq_oob _ _ p B.len B.data ?_ ?_
    · unfold serialize_strings_block
      refine seq_oob _ _ p B.len B.data
        (slice_oob ⟨st5.buf, st3.off⟩ (stringsRegion t) p B.len B.data hst5.1 hst5.2 hp) ?_
      intro st6 hok6
      have := slice_oob (⟨st5.buf, st3.off⟩ : St) (stringsRegion t) p B.len B.data hst5.1 hst5.2 hp
      rw [hok6] at this
      exact this
    intro st6 hok6
    have hst6 : st6.buf.len = B.len ∧ st6.buf.data p = B.data p := by
      have : (serialize_strings_block t st3.off st5).state.buf.len = B.len ∧
          (serialize_strings_block t st3.off st5).state.buf.data p = B.data p := by
        unfold serialize_strings_block
        refine seq_oob _ _ p B.len B.data
          (slice_oob ⟨st5.buf, st3.off⟩ (stringsRegion t) p B.len B.data hst5.1 hst5.2 hp) ?_
        intro st7 hok7
        have := slice_oob (⟨st5.buf, st3.off⟩ : St) (stringsRegion t) p B.len B.data hst5.1 hst5.2 hp
        rw [hok7] at this
        exact this
      rw [hok6] at this
      exact this
    refine seq_oob _ _ p B.len B.data (u32_oob _ _ p B.len B.data hst6.1 hst6.2 hp) ?_
    intro st7 hok7
    have := u32_oob (⟨st6.buf, 4⟩ : St) st6.off p B.len B.data hst6.1 hst6.2 hp
    have heq : set_total_size st6.off st6 = unwrapped (serialize_u32 ⟨st6.buf, 4⟩ st6.off) := rfl
    rw [heq] at hok7
    rw [hok7] at this
    exact this
  · rw [hsbe] at hsb
    exact hsb
  · rw [hsbe] at hsb
    exact hsb

/-! ### More alignment lemmas -/

theorem align4_idem (o : Nat) : align_offset 4 (align_offset 4 o) = align_offset 4 o :=
  align4_of_dvd (align4_mod o)

theorem align4_add4 {o : Nat} (h : o % 4 = 0) : align_offset 4 (o + 4) = o + 4 :=
  align4_of_dvd (by omega)

theorem align4_add5 {o : Nat} (h : o % 4 = 0) : align_offset 4 (o + 5) = o + 8 := by
  unfold align_offset
  split <;> omega

theorem tokAdvance_ge (t : ParsedTok) (o : Nat) : o + 4 ≤ tokAdvance t o := by
  cases t <;> simp only [tokAdvance] <;> first
  | (split <;> omega)
  | omega

/-! ### Success and trap forms of the serializer primitives -/

theorem step_u32 (st : St) (v : Nat) (h : st.off + 4 ≤ st.buf.len) :
    ∃ d, unwrapped (serialize_u32 st v) = .ok () ⟨⟨d, st.buf.len⟩, st.off + 4⟩ ∧
      d st.off = v / 2 ^ 24 % 256 ∧ d (st.off + 1) = v / 2 ^ 16 % 256 ∧
      d (st.off + 2) = v / 2 ^ 8 % 256 ∧ d (st.off + 3) = v % 256 ∧
      ∀ p, p < st.off ∨ st.off + 4 ≤ p → d p = st.buf.data p := by
  obtain ⟨hr, hlen, b0, b1, b2, b3, hfr⟩ := write_be_u32_spec st.buf st.off v h
  refine ⟨(st.buf.write_be_u32 st.off v).2.data, ?_, b0, b1, b2, b3, hfr⟩
  have he : unwrapped (serialize_u32 st v) =
      unwrapped ((st.buf.write_be_u32 st.off v).1,
        ⟨(st.buf.write_be_u32 st.off v).2, st.off + 4⟩) := rfl
  rw [he, hr]
  show Out.ok () ⟨(st.buf.write_be_u32 st.off v).2, st.off + 4⟩ = _
  have hb : (st.buf.write_be_u32 st.off v).2 =
      ⟨(st.buf.write_be_u32 st.off v).2.data, st.buf.len⟩ := by rw [← hlen]
  rw [hb]

theorem step_u64 (st : St) (v : Nat) (h : st.off + 8 ≤ st.buf.len) :
    ∃ d, unwrapped (serialize_u64 st v) = .ok () ⟨⟨d, st.buf.len⟩, st.off + 8⟩ ∧
      ∀ p, p < st.off ∨ st.off + 8 ≤ p → d p = st.buf.data p := by
  obtain ⟨hr, hlen, _, hfr⟩ := write_be_u64_spec st.buf st.off v h
  refine ⟨(st.buf.write_be_u64 st.off v).2.data, ?_, hfr⟩
  have he : unwrapped (serialize_u64 st v) =
      unwrapped ((st.buf.write_be_u64 st.off v).1,
        ⟨(st.buf.write_be_u64 st.off v).2, st.off + 8⟩) := rfl
  rw [he, hr]
  show Out.ok () ⟨(st.buf.write_be_u64 st.off v).2, st.off + 8⟩ = _
  have hb : (st.buf.write_be_u64 st.off v).2 =
      ⟨(st.buf.write_be_u64 st.off v).2.data, st.buf.len⟩ := by rw [← hlen]
  rw [hb]

theorem step_slice (st : St) (s : List Nat) (h : st.off + s.length ≤ st.buf.len) :
    ∃ d, unwrapped (serialize_slice st s) = .ok () ⟨⟨d, st.buf.len⟩, st.off + s.length⟩ ∧
      (∀ k (hk : k < s.length), d (st.off + k) = s.get ⟨k, hk⟩ % 256) ∧
      ∀ p, p < st.off ∨ st.off + s.length ≤ p → d p = st.buf.data p := by
  obtain ⟨hr, hlen, hat, hfr⟩ := write_slice_spec s st.buf st.off h
  refine ⟨(st.buf.write_slice st.off s).2.data, ?_, hat, hfr⟩
  have he : unwrapped (serialize_slice st s) =
      unwrapped ((st.buf.write_slice st.off s).1,
        ⟨(st.buf.write_slice st.off s).2, st.off + s.length⟩) := rfl
  rw [he, hr]
  show Out.ok () ⟨(st.buf.write_slice st.off s).2, st.off + s.length⟩ = _
  have hb : (st.buf.write_slice st.off s).2 =
      ⟨(st.buf.write_slice st.off s).2.data, st.buf.len⟩ := by rw [← hlen]
  rw [hb]

theorem step_string (st : St) (s : List Nat) (h : st.off + s.length + 1 ≤ st.buf.len) :
    ∃ d, unwrapped (serialize_string st s) = .ok () ⟨⟨d, st.buf.len⟩, st.off + s.length + 1⟩ ∧
      (∀ k (hk : k < s.length), d (st.off + k) = s.get ⟨k, hk⟩ % 256) ∧
      d (st.off + s.length) = 0 ∧
      ∀ p, p < st.off ∨ st.off + s.length + 1 ≤ p → d p = st.buf.data p := by
  obtain ⟨hr, hlen, hat, hnul, hfr⟩ := write_bstring0_spec s st.buf st.off h
  refine ⟨(st.buf.write_bstring0 st.off s).2.data, ?_, hat, hnul, hfr⟩
  have he : unwrapped (serialize_string st s) =
      unwrapped ((st.buf.write_bstring0 st.off s).1,
        ⟨(st.buf.write_bstring0 st.off s).2, st.off + s.length + 1⟩) := rfl
  rw [he, hr]
  show Out.ok () ⟨(st.buf.write_bstring0 st.off s).2, st.off + s.length + 1⟩ = _
  have hb : (st.buf.write_bstring0 st.off s).2 =
      ⟨(st.buf.write_bstring0 st.off s).2.data, st.buf.len⟩ := by rw [← hlen]
  rw [hb]

theorem step_u32_trap (st : St) (v : Nat) (h : st.buf.len < st.off + 4) :
    ∃ st', unwrapped (serialize_u32 st v) = .trap st' := by
  refine ⟨⟨st.buf, st.off + 4⟩, ?_⟩
  have he : unwrapped (serialize_u32 st v) =
      unwrapped ((st.buf.write_be_u32 st.off v).1,
        ⟨(st.buf.write_be_u32 st.off v).2, st.off + 4⟩) := rfl
  rw [he, write_be_u32_err st.buf st.off v h]
  rfl

theorem step_u64_trap (st : St) (v : Nat) (h : st.buf.len < st.off + 8) :
    ∃ st', unwrapped (serialize_u64 st v) = .trap st' := by
  refine ⟨⟨st.buf, st.off + 8⟩, ?_⟩
  have he : unwrapped (serialize_u64 st v) =
      unwrapped ((st.buf.write_be_u64 st.off v).1,
        ⟨(st.buf.write_be_u64 st.off v).2, st.off + 8⟩) := rfl
  rw [he, write_be_u64_err st.buf st.off v h]
  rfl

theorem step_slice_trap (st : St) (s : List Nat) (hne : s ≠ [])
    (h : st.buf.len < st.off + s.length) :
    ∃ st', unwrapped (serialize_slice st s) = .trap st' := by
  refine ⟨⟨(st.buf.write_slice st.off s).2, st.off + s.length⟩, ?_⟩
  have he : unwrapped (serialize_slice st s) =
      unwrapped ((st.buf.write_slice st.off s).1,
        ⟨(st.buf.write_slice st.off s).2, st.off + s.length⟩) := rfl
  rw [he, write_slice_err s st.buf st.off hne h]
  rfl

theorem step_string_trap (st : St) (s : List Nat) (h : st.buf.len < st.off + s.length + 1) :
    ∃ st', unwrapped (serialize_string st s) = .trap st' := by
  refine ⟨⟨(st.buf.write_bstring0 st.off s).2, st.off + s.length + 1⟩, ?_⟩
  have he : unwrapped (serialize_string st s) =
      unwrapped ((st.buf.write_bstring0 st.off s).1,
        ⟨(st.buf.write_bstring0 st.off s).2, st.off + s.length + 1⟩) := rfl
  rw [he, write_bstring0_err s st.buf st.off h]
  rfl

/-! ### Characterization of per-token serialization -/

theorem serTokBytes_ok (t : ParsedTok) (st : St) (hv : tokValid t = true)
    (hcap : tokAdvance t st.off ≤ st.buf.len) :
    ∃ d, serTokBytes t st = .ok () ⟨⟨d, st.buf.len⟩, tokAdvance t st.off⟩ ∧
      tokBytesSpec d st.off t ∧
      ∀ p, p < st.off ∨ tokAdvance t st.off ≤ p → d p = st.buf.data p := by
  cases t with
  | nop =>
    simp only [tokAdvance] at hcap ⊢
    obtain ⟨d, he, b0, b1, b2, b3, fr⟩ := step_u32 st fdtNop hcap
    refine ⟨d, he, ⟨?_, ?_, ?_, ?_⟩, fr⟩ <;> simp [b0, b1, b2, b3] <;> decide
  | endNode =>
    simp only [tokAdvance] at hcap ⊢
    obtain ⟨d, he, b0, b1, b2, b3, fr⟩ := step_u32 st fdtEndNode hcap
    refine ⟨d, he, ⟨?_, ?_, ?_, ?_⟩, fr⟩ <;> simp [b0, b1, b2, b3] <;> decide
  | beginNode name =>
    by_cases hn : name.length = 0
    · have hname : name = [] := List.length_eq_zero.mp hn
      subst hname
      have hadv : tokAdvance (.beginNode []) st.off = st.off + 8 := by
        simp [tokAdvance]
      rw [hadv] at hcap ⊢
      dsimp only [serTokBytes]
      obtain ⟨d1, he1, a0, a1, a2, a3, fr1⟩ := step_u32 st fdtBeginNode (by omega)
      rw [seq_ok_state _ _ _ he1]
      rw [if_pos (show List.length ([] : List Nat) = 0 from rfl)]
      obtain ⟨d2, he2, c0, c1, c2, c3, fr2⟩ :=
        step_u32 ⟨⟨d1, st.buf.len⟩, st.off + 4⟩ 0
          (show st.off + 4 + 4 ≤ st.buf.len by omega)
      dsimp only at he2 c0 c1 c2 c3 fr2
      rw [he2]
      refine ⟨d2, rfl, ⟨?_, ?_, ?_, ?_, ?_, ?_⟩, ?_⟩
      · rw [fr2 st.off (Or.inl (by omega)), a0]; decide
      · rw [fr2 (st.off + 1) (Or.inl (by omega)), a1]; decide
      · rw [fr2 (st.off + 2) (Or.inl (by omega)), a2]; decide
      · rw [fr2 (st.off + 3) (Or.inl (by omega)), a3]; decide
      · intro k hk
        exact absurd hk (by simp)
      · show d2 (st.off + 4 + 0) = 0
        have : st.off + 4 + 0 = st.off + 4 := by omega
        rw [this, c0]
        rfl
      · intro p hp
        rcases hp with hp | hp
        · rw [fr2 p (Or.inl (by omega)), fr1 p (Or.inl hp)]
        · rw [fr2 p (Or.inr (by omega)), fr1 p (Or.inr (by omega))]
    · have hadv : tokAdvance (.beginNode name) st.off = st.off + 4 + name.length + 1 := by
        simp only [tokAdvance, if_neg hn]
        omega
      rw [hadv] at hcap ⊢
      simp only [tokValid, List.all_eq_true, Bool.and_eq_true, decide_eq_true_eq] at hv
      dsimp only [serTokBytes]
      obtain ⟨d1, he1, a0, a1, a2, a3, fr1⟩ := step_u32 st fdtBeginNode (by omega)
      rw [seq_ok_state _ _ _ he1, if_neg hn]
      obtain ⟨d2, he2, sbytes, snul, fr2⟩ :=
        step_string ⟨⟨d1, st.buf.len⟩, st.off + 4⟩ name
          (show st.off + 4 + name.length + 1 ≤ st.buf.len by omega)
      dsimp only at he2 sbytes snul fr2
      rw [he2]
      refine ⟨d2, rfl, ⟨?_, ?_, ?_, ?_, ?_, ?_⟩, ?_⟩
      · rw [fr2 st.off (Or.inl (by omega)), a0]; decide
      · rw [fr2 (st.off + 1) (Or.inl (by omega)), a1]; decide
      · rw [fr2 (st.off + 2) (Or.inl (by omega)), a2]; decide
      · rw [fr2 (st.off + 3) (Or.inl (by omega)), a3]; decide
      · intro k hk
        have := sbytes k hk
        rw [this]
        exact Nat.mod_eq_of_lt (hv (name.get ⟨k, hk⟩) (List.get_mem name k hk)).1
      · exact snul
      · intro p hp
        rcases hp with hp | hp
        · rw [fr2 p (Or.inl (by omega)), fr1 p (Or.inl hp)]
        · rw [fr2 p (Or.inr (by omega)), fr1 p (Or.inr (by omega))]
  | prop noff pb =>
    have hadv : tokAdvance (.prop noff pb) st.off = st.off + 12 + pb.length := rfl
    rw [hadv] at hcap ⊢
    simp only [tokValid, List.all_eq_true, Bool.and_eq_true, decide_eq_true_eq] at hv
    dsimp only [serTokBytes]
    obtain ⟨d1, he1, a0, a1, a2, a3, fr1⟩ := step_u32 st fdtProp (by omega)
    rw [seq_ok_state _ _ _ he1]
    obtain ⟨d2, he2, b0, b1, b2, b3, fr2⟩ :=
      step_u32 ⟨⟨d1, st.buf.len⟩, st.off + 4⟩ pb.length
        (show st.off + 4 + 4 ≤ st.buf.len by omega)
    dsimp only at he2 b0 b1 b2 b3 fr2
    rw [seq_ok_state _ _ _ he2]
    obtain ⟨d3, he3, c0, c1, c2, c3, fr3⟩ :=
      step_u32 ⟨⟨d2, st.buf.len⟩, st.off + 4 + 4⟩ noff
        (show st.off + 4 + 4 + 4 ≤ st.buf.len by omega)
    dsimp only at he3 c0 c1 c2 c3 fr3
    rw [seq_ok_state _ _ _ he3]
    obtain ⟨d4, he4, vbytes, fr4⟩ :=
      step_slice ⟨⟨d3, st.buf.len⟩, st.off + 4 + 4 + 4⟩ pb
        (show st.off + 4 + 4 + 4 + pb.length ≤ st.buf.len by omega)
    dsimp only at he4 vbytes fr4
    have hoff : st.off + 4 + 4 + 4 + pb.length = st.off + 12 + pb.length := by omega
    rw [he4]
    refine ⟨d4, by rw [hoff], ?_, ?_⟩
    · refine ⟨?_, ?_, ?_, ?_, ?_, ?_, ?_, ?_, ?_, ?_, ?_, ?_, ?_⟩
      · rw [fr4 st.off (Or.inl (by omega)), fr3 st.off (Or.inl (by omega)),
          fr2 st.off (Or.inl (by omega)), a0]; decide
      · rw [fr4 (st.off + 1) (Or.inl (by omega)), fr3 (st.off + 1) (Or.inl (by omega)),
          fr2 (st.off + 1) (Or.inl (by omega)), a1]; decide
      · rw [fr4 (st.off + 2) (Or.inl (by omega)), fr3 (st.off + 2) (Or.inl (by omega)),
          fr2 (st.off + 2) (Or.inl (by omega)), a2]; decide
      · rw [fr4 (st.off + 3) (Or.inl (by omega)), fr3 (st.off + 3) (Or.inl (by omega)),
          fr2 (st.off + 3) (Or.inl (by omega)), a3]; decide
      · rw [fr4 (st.off + 4) (Or.inl (by omega)), fr3 (st.off + 4) (Or.inl (by omega))]
        exact b0
      · rw [fr4 (st.off + 5) (Or.inl (by omega)), fr3 (st.off + 5) (Or.inl (by omega))]
        have : st.off + 5 = st.off + 4 + 1 := by omega
        rw [this]
        exact b1
      · rw [fr4 (st.off + 6) (Or.inl (by omega)), fr3 (st.off + 6) (Or.inl (by omega))]
        have : st.off + 6 = st.off + 4 + 2 := by omega
        rw [this]
        exact b2
      · rw [fr4 (st.off + 7) (Or.inl (by omega)), fr3 (st.off + 7) (Or.inl (by omega))]
        have : st.off + 7 = st.off + 4 + 3 := by omega
        rw [this]
        exact b3
      · rw [fr4 (st.off + 8) (Or.inl (by omega))]
        have : st.off + 8 = st.off + 4 + 4 := by omega
        rw [this]
        exact c0
      · rw [fr4 (st.off + 9) (Or.inl (by omega))]
        have : st.off + 9 = st.off + 4 + 4 + 1 := by omega
        rw [this]
        exact c1
      · rw [fr4 (st.off + 10) (Or.inl (by omega))]
        have : st.off + 10 = st.off + 4 + 4 + 2 := by omega
        rw [this]
        exact c2
      · rw [fr4 (st.off + 11) (Or.inl (by omega))]
        have : st.off + 11 = st.off + 4 + 4 + 3 := by omega
        rw [this]
        exact c3
      · intro k hk
        have : st.off + 12 + k = st.off + 4 + 4 + 4 + k := by omega
        rw [this, vbytes k hk]
        exact Nat.mod_eq_of_lt (hv.1.1 (pb.get ⟨k, hk⟩) (List.get_mem pb k hk))
    · intro p hp
      rcases hp with hp | hp
      · rw [fr4 p (Or.inl (by omega)), fr3 p (Or.inl (by omega)),
          fr2 p (Or.inl (by omega)), fr1 p (Or.inl hp)]
      · rw [fr4 p (Or.inr (by omega)), fr3 p (Or.inr (by omega)),
          fr2 p (Or.inr (by omega)), fr1 p (Or.inr (by omega))]

theorem serTokBytes_trap (t : ParsedTok) (st : St)
    (h : st.buf.len < tokAdvance t st.off) :
    ∃ st', serTokBytes t st = .trap st' := by
  cases t with
  | nop =>
    simp only [tokAdvance] at h
    exact step_u32_trap st fdtNop h
  | endNode =>
    simp only [tokAdvance] at h
    exact step_u32_trap st fdtEndNode h
  | beginNode name =>
    dsimp only [serTokBytes]
    by_cases h1 : st.buf.len < st.off + 4
    · obtain ⟨st', he⟩ := step_u32_trap st fdtBeginNode h1
      exact ⟨st', by rw [he]; rfl⟩
    · push_neg at h1
      obtain ⟨d1, he1, _, _, _, _, _⟩ := step_u32 st fdtBeginNode h1
      rw [seq_ok_state _ _ _ he1]
      by_cases hn : name.length = 0
      · rw [if_pos hn]
        have hadv : tokAdvance (.beginNode name) st.off = st.off + 8 := by
          simp [tokAdvance, hn]
        rw [hadv] at h
        exact step_u32_trap ⟨⟨d1, st.buf.len⟩, st.off + 4⟩ 0
          (show st.buf.len < st.off + 4 + 4 by omega)
      · rw [if_neg hn]
        have hadv : tokAdvance (.beginNode name) st.off = st.off + 4 + name.length + 1 := by
          simp only [tokAdvance, if_neg hn]
          omega
        rw [hadv] at h
        exact step_string_trap ⟨⟨d1, st.buf.len⟩, st.off + 4⟩ name
          (show st.buf.len < st.off + 4 + name.length + 1 by omega)
  | prop noff pb =>
    have hadv : tokAdvance (.prop noff pb) st.off = st.off + 12 + pb.length := rfl
    rw [hadv] at h
    dsimp only [serTokBytes]
    by_cases h1 : st.buf.len < st.off + 4
    · obtain ⟨st', he⟩ := step_u32_trap st fdtProp h1
      exact ⟨st', by rw [he]; rfl⟩
    · push_neg at h1
      obtain ⟨d1, he1, _, _, _, _, _⟩ := step_u32 st fdtProp h1
      rw [seq_ok_state _ _ _ he1]
      by_cases h2 : st.buf.len < st.off + 4 + 4
      · obtain ⟨st', he⟩ := step_u32_trap ⟨⟨d1, st.buf.len⟩, st.off + 4⟩ pb.length h2
        exact ⟨st', by rw [he]; rfl⟩
      · push_neg at h2
        obtain ⟨d2, he2, _, _, _, _, _⟩ :=
          step_u32 ⟨⟨d1, st.buf.len⟩, st.off + 4⟩ pb.length h2
        rw [seq_ok_state _ _ _ he2]
        by_cases h3 : st.buf.len < st.off + 4 + 4 + 4
        · obtain ⟨st', he⟩ := step_u32_trap ⟨⟨d2, st.buf.len⟩, st.off + 4 + 4⟩ noff h3
          exact ⟨st', by rw [he]; rfl⟩
        · push_neg at h3
          obtain ⟨d3, he3, _, _, _, _, _⟩ :=
            step_u32 ⟨⟨d2, st.buf.len⟩, st.off + 4 + 4⟩ noff h3
          rw [seq_ok_state _ _ _ he3]
          refine step_slice_trap ⟨⟨d3, st.buf.len⟩, st.off + 4 + 4 + 4⟩ pb ?_
            (show st.buf.len < st.off + 4 + 4 + 4 + pb.length by omega)
          intro hcon
          subst hcon
          simp at h
          omega

theorem seq_err_state {α : Type} (o : Out Unit) (k : St → Out α) (e : DevTreeError) (st' : St)
    (h : o = .err e st') : o.seq k = .err e st' := by
  rw [h]
  rfl

theorem seq_trap_state {α : Type} (o : Out Unit) (k : St → Out α) (st' : St)
    (h : o = .trap st') : o.seq k = .trap st' := by
  rw [h]
  rfl

/-! ### Characterization of one loop iteration (serOne) -/

theorem serOne_pass (t : ParsedTok) (st : St) (hv : tokValid t = true)
    (hcap : tokAdvance t st.off ≤ st.buf.len) :
    ∃ d, serOne t .pass st = .ok () ⟨⟨d, st.buf.len⟩, align_offset 4 (tokAdvance t st.off)⟩ ∧
      tokBytesSpec d st.off t ∧
      ∀ p, p < st.off ∨ tokAdvance t st.off ≤ p → d p = st.buf.data p := by
  obtain ⟨d, he, hspec, hfr⟩ := serTokBytes_ok t st hv hcap
  refine ⟨d, ?_, hspec, hfr⟩
  unfold serOne
  rw [seq_ok_state _ _ _ he]
  simp only [Out.seq]
  rw [align4_idem]

theorem serOne_drop (t : ParsedTok) (st : St) (hv : tokValid t = true)
    (hcap : tokAdvance t st.off ≤ st.buf.len) :
    ∃ d, serOne t .drop st = .ok () ⟨⟨d, st.buf.len⟩, align_offset 4 st.off⟩ ∧
      ∀ p, p < st.off ∨ tokAdvance t st.off ≤ p → d p = st.buf.data p := by
  obtain ⟨d, he, _, hfr⟩ := serTokBytes_ok t st hv hcap
  refine ⟨d, ?_, hfr⟩
  unfold serOne
  rw [seq_ok_state _ _ _ he]
  simp only [Out.seq]

theorem serOne_resize (noff : Nat) (pb : List Nat) (n : Nat) (st : St)
    (hv : tokValid (.prop noff pb) = true)
    (hcap : st.off + 12 + pb.length ≤ st.buf.len) :
    ∃ d, serOne (.prop noff pb) (.modifySize n) st =
        .ok () ⟨⟨d, st.buf.len⟩, align_offset 4 (st.off + 12 + n)⟩ ∧
      d (st.off + 4) = n / 2 ^ 24 % 256 ∧ d (st.off + 5) = n / 2 ^ 16 % 256 ∧
      d (st.off + 6) = n / 2 ^ 8 % 256 ∧ d (st.off + 7) = n % 256 ∧
      d (st.off + 8) = noff / 2 ^ 24 % 256 ∧ d (st.off + 9) = noff / 2 ^ 16 % 256 ∧
      d (st.off + 10) = noff / 2 ^ 8 % 256 ∧ d (st.off + 11) = noff % 256 ∧
      ∀ p, p < st.off ∨ st.off + 12 + pb.length ≤ p → d p = st.buf.data p := by
  have hadv : tokAdvance (.prop noff pb) st.off = st.off + 12 + pb.length := rfl
  obtain ⟨d0, he, _, hfr0⟩ := serTokBytes_ok (.prop noff pb) st hv (by rw [hadv]; exact hcap)
  unfold serOne
  rw [seq_ok_state _ _ _ he]
  dsimp only
  obtain ⟨d1, he1, a0, a1, a2, a3, fr1⟩ :=
    step_u32 ⟨⟨d0, st.buf.len⟩, st.off + 4⟩ n (show st.off + 4 + 4 ≤ st.buf.len by omega)
  dsimp only at he1 a0 a1 a2 a3 fr1
  rw [seq_ok_state _ _ _ he1]
  obtain ⟨d2, he2, b0, b1, b2, b3, fr2⟩ :=
    step_u32 ⟨⟨d1, st.buf.len⟩, st.off + 4 + 4⟩ noff
      (show st.off + 4 + 4 + 4 ≤ st.buf.len by omega)
  dsimp only at he2 b0 b1 b2 b3 fr2
  rw [seq_ok_state _ _ _ he2]
  dsimp only
  refine ⟨d2, ?_, ?_, ?_, ?_, ?_, ?_, ?_, ?_, ?_, ?_⟩
  · have harith : st.off + 4 + 4 + 4 + n = st.off + 12 + n := by omega
    rw [harith]
    simp only [Out.seq]
  · rw [fr2 (st.off + 4) (Or.inl (by omega))]
    exact a0
  · rw [fr2 (st.off + 5) (Or.inl (by omega))]
    have : st.off + 5 = st.off + 4 + 1 := by omega
    rw [this]
    exact a1
  · rw [fr2 (st.off + 6) (Or.inl (by omega))]
    have : st.off + 6 = st.off + 4 + 2 := by omega
    rw [this]
    exact a2
  · rw [fr2 (st.off + 7) (Or.inl (by omega))]
    have : st.off + 7 = st.off + 4 + 3 := by omega
    rw [this]
    exact a3
  · have : st.off + 8 = st.off + 4 + 4 := by omega
    rw [this]
    exact b0
  · have : st.off + 9 = st.off + 4 + 4 + 1 := by omega
    rw [this]
    exact b1
  · have : st.off + 10 = st.off + 4 + 4 + 2 := by omega
    rw [this]
    exact b2
  · have : st.off + 11 = st.off + 4 + 4 + 3 := by omega
    rw [this]
    exact b3
  · intro p hp
    rcases hp with hp | hp
    · rw [fr2 p (Or.inl (by omega)), fr1 p (Or.inl (by omega)),
        hfr0 p (Or.inl hp)]
    · rw [fr2 p (Or.inr (by omega)), fr1 p (Or.inr (by omega)),
        hfr0 p (Or.inr (by rw [hadv]; omega))]

theorem serOne_resize_nonprop (t : ParsedTok) (n : Nat) (st : St)
    (hv : tokValid t = true) (hnp : ∀ noff pb, t ≠ .prop noff pb)
    (hcap : tokAdvance t st.off ≤ st.buf.len) :
    ∃ st', serOne t (.modifySize n) st =
      .err (.invalidParameter "Cannot return ModifySize from a non-Prop token!") st' := by
  obtain ⟨d, he, _, _⟩ := serTokBytes_ok t st hv hcap
  refine ⟨⟨⟨d, st.buf.len⟩, align_offset 4 (tokAdvance t st.off)⟩, ?_⟩
  unfold serOne
  rw [seq_ok_state _ _ _ he]
  cases t with
  | beginNode name => rfl
  | endNode => rfl
  | nop => rfl
  | prop noff pb => exact absurd rfl (hnp noff pb)

theorem serOne_trap (t : ParsedTok) (resp : ModifyTokenResponse) (st : St)
    (h : st.buf.len < tokAdvance t st.off) :
    ∃ st', serOne t resp st = .trap st' := by
  obtain ⟨st', he⟩ := serTokBytes_trap t st h
  refine ⟨st', ?_⟩
  unfold serOne
  rw [seq_trap_state _ _ _ he]

/-! ### Control characterization of the token loop (arbitrary callback) -/

theorem serStructToks_ok_of (fm : Nat → ParsedTok → ModifyTokenResponse)
    (ts : List ParsedTok) : ∀ (i : Nat) (st : St) (mx endo : Nat),
    serGhost fm i ts st.off = (mx, some endo) → ts.all tokValid = true →
    mx ≤ st.buf.len →
    ∃ d, serStructToks fm i ts st = .ok () ⟨⟨d, st.buf.len⟩, endo⟩ ∧
      ∀ p, p < st.off → d p = st.buf.data p := by
  induction ts with
  | nil =>
    intro i st mx endo hg _ _
    simp only [serGhost] at hg
    injection hg with hmx hr
    injection hr with hendo
    exact ⟨st.buf.data, by rw [← hendo]; rfl, fun p _ => rfl⟩
  | cons t rest ih =>
    intro i st mx endo hg hv hcap
    simp only [List.all_cons, Bool.and_eq_true] at hv
    unfold serStructToks
    simp only [serGhost] at hg
    rcases hfm : fm i t with _ | _ | n <;> rw [hfm] at hg
    · -- Pass
      dsimp only at hg
      rcases hg' : serGhost fm (i + 1) rest (align_offset 4 (tokAdvance t st.off)) with ⟨mx', r⟩
      rw [hg'] at hg
      dsimp only at hg
      injection hg with hmx hr
      subst hmx hr
      have he : tokAdvance t st.off ≤ st.buf.len := le_trans (le_max_left _ _) hcap
      obtain ⟨d, hrun, _, hfr1⟩ := serOne_pass t st hv.1 he
      rw [seq_ok_state _ _ _ hrun]
      obtain ⟨dfin, hfin, hfrfin⟩ :=
        ih (i + 1) ⟨⟨d, st.buf.len⟩, align_offset 4 (tokAdvance t st.off)⟩ mx' endo hg'
          hv.2 (le_trans (le_max_right _ _) hcap)
      dsimp only at hfin hfrfin
      refine ⟨dfin, hfin, ?_⟩
      intro p hp
      have hadv := tokAdvance_ge t st.off
      have hal := align4_le (tokAdvance t st.off)
      rw [hfrfin p (by omega)]
      exact hfr1 p (Or.inl hp)
    · -- Drop
      dsimp only at hg
      rcases hg' : serGhost fm (i + 1) rest (align_offset 4 st.off) with ⟨mx', r⟩
      rw [hg'] at hg
      dsimp only at hg
      injection hg with hmx hr
      subst hmx hr
      have he : tokAdvance t st.off ≤ st.buf.len := le_trans (le_max_left _ _) hcap
      obtain ⟨d, hrun, hfr1⟩ := serOne_drop t st hv.1 he
      rw [seq_ok_state _ _ _ hrun]
      obtain ⟨dfin, hfin, hfrfin⟩ :=
        ih (i + 1) ⟨⟨d, st.buf.len⟩, align_offset 4 st.off⟩ mx' endo hg'
          hv.2 (le_trans (le_max_right _ _) hcap)
      dsimp only at hfin hfrfin
      refine ⟨dfin, hfin, ?_⟩
      intro p hp
      have hal := align4_le st.off
      rw [hfrfin p (by omega)]
      exact hfr1 p (Or.inl hp)
    · -- ModifySize
      cases t with
      | prop noff pb =>
        dsimp only at hg
        rcases hg' : serGhost fm (i + 1) rest (align_offset 4 (st.off + 12 + n)) with ⟨mx', r⟩
        rw [hg'] at hg
        dsimp only at hg
        injection hg with hmx hr
        subst hmx hr
        have he : tokAdvance (.prop noff pb) st.off ≤ st.buf.len :=
          le_trans (le_max_left _ _) hcap
        obtain ⟨d, hrun, _, _, _, _, _, _, _, _, hfr1⟩ :=
          serOne_resize noff pb n st hv.1 he
        rw [seq_ok_state _ _ _ hrun]
        obtain ⟨dfin, hfin, hfrfin⟩ :=
          ih (i + 1) ⟨⟨d, st.buf.len⟩, align_offset 4 (st.off + 12 + n)⟩ mx' endo hg'
            hv.2 (le_trans (le_max_right _ _) hcap)
        dsimp only at hfin hfrfin
        refine ⟨dfin, hfin, ?_⟩
        intro p hp
        have hal := align4_le (st.off + 12 + n)
        rw [hfrfin p (by omega)]
        exact hfr1 p (Or.inl hp)
      | beginNode name => simp at hg
      | endNode => simp at hg
      | nop => simp at hg

theorem serStructToks_err_of (fm : Nat → ParsedTok → ModifyTokenResponse)
    (ts : List ParsedTok) : ∀ (i : Nat) (st : St) (mx : Nat),
    serGhost fm i ts st.off = (mx, none) → ts.all tokValid = true →
    mx ≤ st.buf.len →
    ∃ st', serStructToks fm i ts st =
      .err (.invalidParameter "Cannot return ModifySize from a non-Prop token!") st' := by
  induction ts with
  | nil =>
    intro i st mx hg _ _
    simp only [serGhost] at hg
    injection hg with hmx hr
    injection hr
  | cons t rest ih =>
    intro i st mx hg hv hcap
    simp only [List.all_cons, Bool.and_eq_true] at hv
    unfold serStructToks
    simp only [serGhost] at hg
    rcases hfm : fm i t with _ | _ | n <;> rw [hfm] at hg
    · dsimp only at hg
      rcases hg' : serGhost fm (i + 1) rest (align_offset 4 (tokAdvance t st.off)) with ⟨mx', r⟩
      rw [hg'] at hg
      dsimp only at hg
      injection hg with hmx hr
      subst hmx hr
      have he : tokAdvance t st.off ≤ st.buf.len := le_trans (le_max_left _ _) hcap
      obtain ⟨d, hrun, _, _⟩ := serOne_pass t st hv.1 he
      rw [seq_ok_state _ _ _ hrun]
      exact ih (i + 1) ⟨⟨d, st.buf.len⟩, align_offset 4 (tokAdvance t st.off)⟩ mx' hg'
        hv.2 (le_trans (le_max_right _ _) hcap)
    · dsimp only at hg
      rcases hg' : serGhost fm (i + 1) rest (align_offset 4 st.off) with ⟨mx', r⟩
      rw [hg'] at hg
      dsimp only at hg
      injection hg with hmx hr
      subst hmx hr
      have he : tokAdvance t st.off ≤ st.buf.len := le_trans (le_max_left _ _) hcap
      obtain ⟨d, hrun, _⟩ := serOne_drop t st hv.1 he
      rw [seq_ok_state _ _ _ hrun]
      exact ih (i + 1) ⟨⟨d, st.buf.len⟩, align_offset 4 st.off⟩ mx' hg'
        hv.2 (le_trans (le_max_right _ _) hcap)
    · cases t with
      | prop noff pb =>
        dsimp only at hg
        rcases hg' : serGhost fm (i + 1) rest (align_offset 4 (st.off + 12 + n)) with ⟨mx', r⟩
        rw [hg'] at hg
        dsimp only at hg
        injection hg with hmx hr
        subst hmx hr
        have he : tokAdvance (.prop noff pb) st.off ≤ st.buf.len :=
          le_trans (le_max_left _ _) hcap
        obtain ⟨d, hrun, _, _, _, _, _, _, _, _, _⟩ :=
          serOne_resize noff pb n st hv.1 he
        rw [seq_ok_state _ _ _ hrun]
        exact ih (i + 1) ⟨⟨d, st.buf.len⟩, align_offset 4 (st.off + 12 + n)⟩ mx' hg'
          hv.2 (le_trans (le_max_right _ _) hcap)
      | beginNode name =>
        dsimp only at hg
        injection hg with hmx _
        subst hmx
        obtain ⟨st', hrun⟩ := serOne_resize_nonprop (.beginNode name) n st hv.1
          (by intro a b h; cases h) hcap
        rw [seq_err_state _ _ _ _ hrun]
        exact ⟨st', rfl⟩
      | endNode =>
        dsimp only at hg
        injection hg with hmx _
        subst hmx
        obtain ⟨st', hrun⟩ := serOne_resize_nonprop .endNode n st hv.1
          (by intro a b h; cases h) hcap
        rw [seq_err_state _ _ _ _ hrun]
        exact ⟨st', rfl⟩
      | nop =>
        dsimp only at hg
        injection hg with hmx _
        subst hmx
        obtain ⟨st', hrun⟩ := serOne_resize_nonprop .nop n st hv.1
          (by intro a b h; cases h) hcap
        rw [seq_err_state _ _ _ _ hrun]
        exact ⟨st', rfl⟩

theorem serStructToks_trap_of (fm : Nat → ParsedTok → ModifyTokenResponse)
    (ts : List ParsedTok) : ∀ (i : Nat) (st : St) (mx : Nat) (r : Option Nat),
    serGhost fm i ts st.off = (mx, r) → ts.all tokValid = true →
    st.buf.len < mx →
    ∃ st', serStructToks fm i ts st = .trap st' := by
  induction ts with
  | nil =>
    intro i st mx r hg _ hcap
    simp only [serGhost] at hg
    injection hg with hmx hr
    omega
  | cons t rest ih =>
    intro i st mx r hg hv hcap
    simp only [List.all_cons, Bool.and_eq_true] at hv
    unfold serStructToks
    simp only [serGhost] at hg
    by_cases he : st.buf.len < tokAdvance t st.off
    · obtain ⟨st', hrun⟩ := serOne_trap t (fm i t) st he
      rw [seq_trap_state _ _ _ hrun]
      exact ⟨st', rfl⟩
    · push_neg at he
      rcases hfm : fm i t with _ | _ | n <;> rw [hfm] at hg
      · dsimp only at hg
        rcases hg' : serGhost fm (i + 1) rest (align_offset 4 (tokAdvance t st.off)) with ⟨mx', r'⟩
        rw [hg'] at hg
        dsimp only at hg
        injection hg with hmx hr
        subst hmx hr
        obtain ⟨d, hrun, _, _⟩ := serOne_pass t st hv.1 he
        rw [seq_ok_state _ _ _ hrun]
        exact ih (i + 1) ⟨⟨d, st.buf.len⟩, align_offset 4 (tokAdvance t st.off)⟩ mx' r' hg'
          hv.2 (by simp only [sup_eq_max] at hcap ⊢; omega)
      · dsimp only at hg
        rcases hg' : serGhost fm (i + 1) rest (align_offset 4 st.off) with ⟨mx', r'⟩
        rw [hg'] at hg
        dsimp only at hg
        injection hg with hmx hr
        subst hmx hr
        obtain ⟨d, hrun, _⟩ := serOne_drop t st hv.1 he
        rw [seq_ok_state _ _ _ hrun]
        exact ih (i + 1) ⟨⟨d, st.buf.len⟩, align_offset 4 st.off⟩ mx' r' hg'
          hv.2 (by simp only [sup_eq_max] at hcap ⊢; omega)
      · cases t with
        | prop noff pb =>
          dsimp only at hg
          rcases hg' : serGhost fm (i + 1) rest (align_offset 4 (st.off + 12 + n)) with ⟨mx', r'⟩
          rw [hg'] at hg
          dsimp only at hg
          injection hg with hmx hr
          subst hmx hr
          obtain ⟨d, hrun, _, _, _, _, _, _, _, _, _⟩ :=
            serOne_resize noff pb n st hv.1 he
          rw [seq_ok_state _ _ _ hrun]
          exact ih (i + 1) ⟨⟨d, st.buf.len⟩, align_offset 4 (st.off + 12 + n)⟩ mx' r' hg'
            hv.2 (by simp only [sup_eq_max] at hcap ⊢; omega)
        | beginNode name =>
          dsimp only at hg
          injection hg with hmx _
          omega
        | endNode =>
          dsimp only at hg
          injection hg with hmx _
          omega
        | nop =>
          dsimp only at hg
          injection hg with hmx _
          omega

/-! ### Pass-through bookkeeping lemmas -/

theorem passEnd_le (ts : List ParsedTok) : ∀ o, o ≤ passEnd ts o := by
  induction ts with
  | nil => intro o; simp [passEnd]
  | cons t rest ih =>
    intro o
    have h1 : o ≤ tokAdvance t o := le_trans (by omega) (tokAdvance_ge t o)
    have h2 : tokAdvance t o ≤ align_offset 4 (tokAdvance t o) := align4_le _
    exact le_trans (le_trans h1 h2) (ih _)

theorem passAnnot_snd (ts : List ParsedTok) : ∀ o, (passAnnot ts o).map Prod.snd = ts := by
  induction ts with
  | nil => intro o; rfl
  | cons t rest ih => intro o; simp [passAnnot, ih]

theorem passAnnot_aligned (ts : List ParsedTok) : ∀ o, o % 4 = 0 →
    ∀ pe ∈ passAnnot ts o, pe.1 % 4 = 0 := by
  induction ts with
  | nil => intro o _ pe hpe; simp [passAnnot] at hpe
  | cons t rest ih =>
    intro o ho pe hpe
    simp only [passAnnot, List.mem_cons] at hpe
    rcases hpe with hpe | hpe
    · rw [hpe]; exact ho
    · exact ih _ (align4_mod _) pe hpe

theorem passEnd_mod (ts : List ParsedTok) : ∀ o, o % 4 = 0 → passEnd ts o % 4 = 0 := by
  induction ts with
  | nil => intro o ho; simpa [passEnd] using ho
  | cons t rest ih => intro o _; exact ih _ (align4_mod _)

theorem inPassGap_ge (ts : List ParsedTok) : ∀ o p, inPassGap ts o p = true → o ≤ p := by
  induction ts with
  | nil => intro o p hp; simp [inPassGap] at hp
  | cons t rest ih =>
    intro o p hp
    simp only [inPassGap, Bool.or_eq_true, Bool.and_eq_true, decide_eq_true_eq] at hp
    rcases hp with ⟨hp1, _⟩ | hp
    · exact le_trans (le_trans (by omega) (tokAdvance_ge t o)) hp1
    · exact le_trans (le_trans (le_trans (by omega) (tokAdvance_ge t o)) (align4_le _))
        (ih _ p hp)

theorem tokBytesSpec_transfer (t : ParsedTok) (off : Nat) (d1 d2 : Nat → Nat)
    (hsp : tokBytesSpec d1 off t)
    (hag : ∀ q, off ≤ q → q < tokAdvance t off → d2 q = d1 q) :
    tokBytesSpec d2 off t := by
  cases t with
  | beginNode name =>
    obtain ⟨h0, h1, h2, h3, hbytes, hnul⟩ := hsp
    have hadv : tokAdvance (.beginNode name) off =
        off + 4 + (if name.length = 0 then 4 else name.length + 1) := rfl
    refine ⟨?_, ?_, ?_, ?_, ?_, ?_⟩
    · rw [hag off (by omega) (by rw [hadv]; split <;> omega)]; exact h0
    · rw [hag (off + 1) (by omega) (by rw [hadv]; split <;> omega)]; exact h1
    · rw [hag (off + 2) (by omega) (by rw [hadv]; split <;> omega)]; exact h2
    · rw [hag (off + 3) (by omega) (by rw [hadv]; split <;> omega)]; exact h3
    · intro k hk
      rw [hag (off + 4 + k) (by omega) (by rw [hadv]; split <;> omega)]
      exact hbytes k hk
    · rw [hag (off + 4 + name.length) (by omega) (by rw [hadv]; split <;> omega)]
      exact hnul
  | prop noff pb =>
    obtain ⟨h0, h1, h2, h3, h4, h5, h6, h7, h8, h9, h10, h11, hbytes⟩ := hsp
    have hadv : tokAdvance (.prop noff pb) off = off + 12 + pb.length := rfl
    refine ⟨?_, ?_, ?_, ?_, ?_, ?_, ?_, ?_, ?_, ?_, ?_, ?_, ?_⟩ <;>
      first
      | (intro k hk
         rw [hag (off + 12 + k) (by omega) (by rw [hadv]; omega)]
         exact hbytes k hk)
      | skip
    · rw [hag off (by omega) (by rw [hadv]; omega)]; exact h0
    · rw [hag (off + 1) (by omega) (by rw [hadv]; omega)]; exact h1
    · rw [hag (off + 2) (by omega) (by rw [hadv]; omega)]; exact h2
    · rw [hag (off + 3) (by omega) (by rw [hadv]; omega)]; exact h3
    · rw [hag (off + 4) (by omega) (by rw [hadv]; omega)]; exact h4
    · rw [hag (off + 5) (by omega) (by rw [hadv]; omega)]; exact h5
    · rw [hag (off + 6) (by omega) (by rw [hadv]; omega)]; exact h6
    · rw [hag (off + 7) (by omega) (by rw [hadv]; omega)]; exact h7
    · rw [hag (off + 8) (by omega) (by rw [hadv]; omega)]; exact h8
    · rw [hag (off + 9) (by omega) (by rw [hadv]; omega)]; exact h9
    · rw [hag (off + 10) (by omega) (by rw [hadv]; omega)]; exact h10
    · rw [hag (off + 11) (by omega) (by rw [hadv]; omega)]; exact h11
  | endNode =>
    obtain ⟨h0, h1, h2, h3⟩ := hsp
    have hadv : tokAdvance .endNode off = off + 4 := rfl
    exact ⟨by rw [hag off (by omega) (by rw [hadv]; omega)]; exact h0,
      by rw [hag (off + 1) (by omega) (by rw [hadv]; omega)]; exact h1,
      by rw [hag (off + 2) (by omega) (by rw [hadv]; omega)]; exact h2,
      by rw [hag (off + 3) (by omega) (by rw [hadv]; omega)]; exact h3⟩
  | nop =>
    obtain ⟨h0, h1, h2, h3⟩ := hsp
    have hadv : tokAdvance .nop off = off + 4 := rfl
    exact ⟨by rw [hag off (by omega) (by rw [hadv]; omega)]; exact h0,
      by rw [hag (off + 1) (by omega) (by rw [hadv]; omega)]; exact h1,
      by rw [hag (off + 2) (by omega) (by rw [hadv]; omega)]; exact h2,
      by rw [hag (off + 3) (by omega) (by rw [hadv]; omega)]; exact h3⟩

/-! ### Reading one serialized token back -/

theorem parseToks_step_tok (b : Buffer) (pos fuel : Nat) (t : ParsedTok)
    (hspec : tokBytesSpec b.data pos t) (hv : tokValid t = true)
    (hpos : pos % 4 = 0) (hbound : tokAdvance t pos ≤ b.len) :
    parseToks b pos (fuel + 1) =
      match parseToks b (align_offset 4 (tokAdvance t pos)) fuel with
      | some (r, fin) => some ((pos, t) :: r, fin)
      | none => none := by
  have hlen4 : pos + 4 ≤ b.len := le_trans (tokAdvance_ge t pos) hbound
  cases t with
  | nop =>
    obtain ⟨h0, h1, h2, h3⟩ := hspec
    have h32 : b.read_be_u32 pos = .ok fdtNop := by
      have h := read_back_u32 b pos fdtNop hlen4 (by rw [h0]; decide) (by rw [h1]; decide)
        (by rw [h2]; decide) (by rw [h3]; decide)
      rw [Nat.mod_eq_of_lt (by decide)] at h
      exact h
    simp only [parseToks]
    rw [h32]
    dsimp only
    rw [if_neg (by decide), if_neg (by decide), if_neg (by decide), if_neg (by decide),
      if_pos rfl]
    rw [show tokAdvance ParsedTok.nop pos = pos + 4 from rfl, align4_add4 hpos]
  | endNode =>
    obtain ⟨h0, h1, h2, h3⟩ := hspec
    have h32 : b.read_be_u32 pos = .ok fdtEndNode := by
      have h := read_back_u32 b pos fdtEndNode hlen4 (by rw [h0]; decide) (by rw [h1]; decide)
        (by rw [h2]; decide) (by rw [h3]; decide)
      rw [Nat.mod_eq_of_lt (by decide)] at h
      exact h
    simp only [parseToks]
    rw [h32]
    dsimp only
    rw [if_neg (by decide), if_neg (by decide), if_neg (by decide), if_pos rfl]
    rw [show tokAdvance ParsedTok.endNode pos = pos + 4 from rfl, align4_add4 hpos]
  | beginNode name =>
    obtain ⟨h0, h1, h2, h3, hbytes, hnul⟩ := hspec
    simp only [tokValid, List.all_eq_true, Bool.and_eq_true, decide_eq_true_eq] at hv
    have h32 : b.read_be_u32 pos = .ok fdtBeginNode := by
      have h := read_back_u32 b pos fdtBeginNode hlen4 (by rw [h0]; decide) (by rw [h1]; decide)
        (by rw [h2]; decide) (by rw [h3]; decide)
      rw [Nat.mod_eq_of_lt (by decide)] at h
      exact h
    have hlt : pos + 4 + name.length < b.len := by
      have hadv : tokAdvance (.beginNode name) pos =
          pos + 4 + (if name.length = 0 then 4 else name.length + 1) := rfl
      rw [hadv] at hbound
      rcases Nat.eq_zero_or_pos name.length with hz | hz
      · rw [if_pos hz] at hbound; omega
      · rw [if_neg (by omega)] at hbound; omega
    have hbs : b.read_bstring0 (pos + 4) = .ok name :=
      read_bstring0_of_bytes b (pos + 4) name hbytes (fun c hc => hv c hc) hnul hlt
    simp only [parseToks]
    rw [h32]
    dsimp only
    rw [if_neg (by decide), if_pos rfl]
    rw [hbs]
    dsimp only
    by_cases hn : name.length = 0
    · have hname : name = [] := List.length_eq_zero.mp hn
      subst hname
      rw [show tokAdvance (ParsedTok.beginNode []) pos = pos + 8 from rfl]
      rw [show ((pos + 4 + List.length ([] : List Nat) + 1)) = pos + 5 by simp]
      rw [align4_add5 hpos, align4_of_dvd (by omega)]
    · have hadv : tokAdvance (.beginNode name) pos = pos + 4 + (name.length + 1) := by
        simp only [tokAdvance, if_neg hn]
      rw [hadv, show pos + 4 + name.length + 1 = pos + 4 + (name.length + 1) by omega]
  | prop noff pb =>
    obtain ⟨h0, h1, h2, h3, h4, h5, h6, h7, h8, h9, h10, h11, hbytes⟩ := hspec
    simp only [tokValid, List.all_eq_true, Bool.and_eq_true, decide_eq_true_eq] at hv
    have hadv : tokAdvance (.prop noff pb) pos = pos + 12 + pb.length := rfl
    rw [hadv] at hbound
    have h32 : b.read_be_u32 pos = .ok fdtProp := by
      have h := read_back_u32 b pos fdtProp hlen4 (by rw [h0]; decide) (by rw [h1]; decide)
        (by rw [h2]; decide) (by rw [h3]; decide)
      rw [Nat.mod_eq_of_lt (by decide)] at h
      exact h
    have hlenr : b.read_be_u32 (pos + 4) = .ok pb.length := by
      have h := read_back_u32 b (pos + 4) pb.length (by omega) h4
        (by rw [show pos + 4 + 1 = pos + 5 by omega]; exact h5)
        (by rw [show pos + 4 + 2 = pos + 6 by omega]; exact h6)
        (by rw [show pos + 4 + 3 = pos + 7 by omega]; exact h7)
      rw [Nat.mod_eq_of_lt hv.2] at h
      exact h
    have hnoffr : b.read_be_u32 (pos + 8) = .ok noff := by
      have h := read_back_u32 b (pos + 8) noff (by omega) h8
        (by rw [show pos + 8 + 1 = pos + 9 by omega]; exact h9)
        (by rw [show pos + 8 + 2 = pos + 10 by omega]; exact h10)
        (by rw [show pos + 8 + 3 = pos + 11 by omega]; exact h11)
      rw [Nat.mod_eq_of_lt hv.1.2] at h
      exact h
    have hpb : ((List.range pb.length).map fun k => b.data (pos + 12 + k) % 256) = pb := by
      refine List.ext_get (by simp) ?_
      intro k hk1 hk2
      simp only [List.get_eq_getElem, List.getElem_map, List.getElem_range]
      have hk : k < pb.length := by simpa using hk2
      have := hbytes k hk
      rw [this]
      have hlt256 := hv.1.1 (pb.get ⟨k, hk⟩) (List.get_mem pb k hk)
      simp only [List.get_eq_getElem] at hlt256 ⊢
      exact Nat.mod_eq_of_lt hlt256
    simp only [parseToks]
    rw [h32]
    dsimp only
    rw [if_neg (by decide), if_neg (by decide), if_pos rfl]
    rw [hlenr, hnoffr]
    dsimp only
    rw [if_neg (by omega)]
    rw [hpb, hadv]

/-! ### Round trip: a pass-through loop re-parses to the same tokens -/

theorem serStructToks_pass_rt (ts : List ParsedTok) : ∀ (i : Nat) (st : St)
    (fm : Nat → ParsedTok → ModifyTokenResponse),
    (∀ k t, k < ts.length → fm (i + k) t = .pass) →
    ts.all tokValid = true → st.off % 4 = 0 → passEnd ts st.off ≤ st.buf.len →
    ∃ d, serStructToks fm i ts st = .ok () ⟨⟨d, st.buf.len⟩, passEnd ts st.off⟩ ∧
      (∀ p, p < st.off ∨ passEnd ts st.off ≤ p → d p = st.buf.data p) ∧
      (∀ p, inPassGap ts st.off p = true → d p = st.buf.data p) ∧
      (∀ (B2 : Buffer) (fuel : Nat), B2.len = st.buf.len →
        (∀ q, st.off ≤ q → q < passEnd ts st.off → B2.data q = d q) →
        parseToks B2 st.off (ts.length + fuel) =
          match parseToks B2 (passEnd ts st.off) fuel with
          | some (r, fin) => some (passAnnot ts st.off ++ r, fin)
          | none => none) := by
  induction ts with
  | nil =>
    intro i st fm _ _ _ _
    refine ⟨st.buf.data, rfl, fun p _ => rfl, fun p hp => by simp [inPassGap] at hp, ?_⟩
    intro B2 fuel _ _
    simp only [passEnd, passAnnot, List.length_nil, Nat.zero_add, List.nil_append]
    rcases hres : parseToks B2 st.off fuel with - | ⟨r, fin⟩ <;> simp
  | cons t rest ih =>
    intro i st fm hfm hv hal hcap
    simp only [List.all_cons, Bool.and_eq_true] at hv
    have hpe : passEnd (t :: rest) st.off = passEnd rest (align_offset 4 (tokAdvance t st.off)) :=
      rfl
    have hnext_le : align_offset 4 (tokAdvance t st.off) ≤ passEnd (t :: rest) st.off := by
      rw [hpe]
      exact passEnd_le rest _
    have hadv_le : tokAdvance t st.off ≤ st.buf.len :=
      le_trans (le_trans (align4_le _) hnext_le) hcap
    obtain ⟨d1, hrun1, hspec1, hfr1⟩ := serOne_pass t st hv.1 hadv_le
    have hfm0 : fm i t = .pass := by
      have := hfm 0 t (by simp)
      rwa [Nat.add_zero] at this
    unfold serStructToks
    rw [hfm0, seq_ok_state _ _ _ hrun1]
    have hal' : (align_offset 4 (tokAdvance t st.off)) % 4 = 0 := align4_mod _
    have hcap' : passEnd rest (align_offset 4 (tokAdvance t st.off)) ≤ st.buf.len := by
      rw [← hpe]; exact hcap
    obtain ⟨d, hrun, hfr, hgap, hparse⟩ :=
      ih (i + 1) ⟨⟨d1, st.buf.len⟩, align_offset 4 (tokAdvance t st.off)⟩ fm
        (by
          intro k tk hk
          have := hfm (k + 1) tk (by simp; omega)
          rwa [show i + (k + 1) = i + 1 + k by omega] at this)
        hv.2 hal' hcap'
    dsimp only at hrun hfr hgap hparse
    refine ⟨d, by rw [hrun, hpe], ?_, ?_, ?_⟩
    · -- frame
      intro p hp
      rcases hp with hp | hp
      · rw [hfr p (Or.inl (by
          have : st.off ≤ tokAdvance t st.off := le_trans (by omega) (tokAdvance_ge t st.off)
          have := align4_le (tokAdvance t st.off)
          omega))]
        exact hfr1 p (Or.inl hp)
      · rw [hpe] at hp
        rw [hfr p (Or.inr hp)]
        refine hfr1 p (Or.inr ?_)
        have := align4_le (tokAdvance t st.off)
        have := passEnd_le rest (align_offset 4 (tokAdvance t st.off))
        omega
    · -- alignment gaps keep their old bytes
      intro p hp
      simp only [inPassGap, Bool.or_eq_true, Bool.and_eq_true, decide_eq_true_eq] at hp
      rcases hp with ⟨hp1, hp2⟩ | hp
      · rw [hfr p (Or.inl hp2)]
        exact hfr1 p (Or.inr hp1)
      · rw [hgap p hp]
        refine hfr1 p (Or.inr (le_trans (align4_le _) (inPassGap_ge rest _ p hp)))
    · -- parse decomposition
      intro B2 fuel hlen hagree
      have hlen2 : (t :: rest).length + fuel = (rest.length + fuel) + 1 := by
        simp [List.length_cons]
        omega
      rw [hlen2]
      have hspecB2 : tokBytesSpec B2.data st.off t := by
        refine tokBytesSpec_transfer t st.off d B2.data ?_ ?_
        · refine tokBytesSpec_transfer t st.off d1 d hspec1 ?_
          intro q hq1 hq2
          refine hfr q (Or.inl ?_)
          have := align4_le (tokAdvance t st.off)
          omega
        · intro q hq1 hq2
          refine hagree q hq1 ?_
          rw [hpe]
          have := align4_le (tokAdvance t st.off)
          have := passEnd_le rest (align_offset 4 (tokAdvance t st.off))
          omega
      rw [parseToks_step_tok B2 st.off (rest.length + fuel) t hspecB2 hv.1 hal
        (by rw [hlen]; exact hadv_le)]
      rw [hparse B2 fuel hlen (by
        intro q hq1 hq2
        refine hagree q ?_ ?_
        · have : st.off ≤ tokAdvance t st.off := le_trans (by omega) (tokAdvance_ge t st.off)
          have := align4_le (tokAdvance t st.off)
          omega
        · rw [hpe]; exact hq2)]
      rw [← hpe]
      rcases hres : parseToks B2 (passEnd (t :: rest) st.off) fuel with - | ⟨r, fin⟩
      · rfl
      · simp only [passAnnot, List.cons_append]

/-! ### Phase characterizations: header, reservation block, strings block -/

theorem serGhost_end_ge (fm : Nat → ParsedTok → ModifyTokenResponse) (ts : List ParsedTok) :
    ∀ i o mx endo, serGhost fm i ts o = (mx, some endo) → o ≤ endo := by
  induction ts with
  | nil =>
    intro i o mx endo hg
    simp only [serGhost] at hg
    injection hg with _ hr
    injection hr with hendo
    omega
  | cons t rest ih =>
    intro i o mx endo hg
    simp only [serGhost] at hg
    rcases hfm : fm i t with _ | _ | n <;> rw [hfm] at hg <;> dsimp only at hg
    · rcases hg' : serGhost fm (i + 1) rest (align_offset 4 (tokAdvance t o)) with ⟨mx', r⟩
      rw [hg'] at hg
      dsimp only at hg
      injection hg with _ hr
      subst hr
      have := ih (i + 1) _ _ _ hg'
      have h1 := tokAdvance_ge t o
      have h2 := align4_le (tokAdvance t o)
      omega
    · rcases hg' : serGhost fm (i + 1) rest (align_offset 4 o) with ⟨mx', r⟩
      rw [hg'] at hg
      dsimp only at hg
      injection hg with _ hr
      subst hr
      have := ih (i + 1) _ _ _ hg'
      have h2 := align4_le o
      omega
    · cases t with
      | prop noff pb =>
        dsimp only at hg
        rcases hg' : serGhost fm (i + 1) rest (align_offset 4 (o + 12 + n)) with ⟨mx', r⟩
        rw [hg'] at hg
        dsimp only at hg
        injection hg with _ hr
        subst hr
        have := ih (i + 1) _ _ _ hg'
        have h2 := align4_le (o + 12 + n)
        omega
      | beginNode name => dsimp only at hg; injection hg with _ hr; injection hr
      | endNode => dsimp only at hg; injection hg with _ hr; injection hr
      | nop => dsimp only at hg; injection hg with _ hr; injection hr

theorem serialize_header_ok (t : DevTree) (st : St) (h40 : 40 ≤ st.buf.len) :
    ∃ d, serialize_header t st = .ok () ⟨⟨d, st.buf.len⟩, 40⟩ ∧
      hdrFieldBytes d t ∧ ∀ p, 40 ≤ p → d p = st.buf.data p := by
  unfold serialize_header
  obtain ⟨d1, he1, _, _, _, _, fr1⟩ :=
    step_u32 ⟨st.buf, 0⟩ FDT_MAGIC (show 0 + 4 ≤ st.buf.len by omega)
  rw [seq_ok_state _ _ _ he1]
  obtain ⟨d2, he2, _, _, _, _, fr2⟩ :=
    step_u32 ⟨⟨d1, st.buf.len⟩, 0 + 4⟩ t.totalsize (show 0 + 4 + 4 ≤ st.buf.len by omega)
  dsimp only at he2 fr2
  rw [seq_ok_state _ _ _ he2]
  obtain ⟨d3, he3, s0, s1, s2, s3, fr3⟩ :=
    step_u32 ⟨⟨d2, st.buf.len⟩, 0 + 4 + 4⟩ t.off_dt_struct
      (show 0 + 4 + 4 + 4 ≤ st.buf.len by omega)
  dsimp only at he3 s0 s1 s2 s3 fr3
  rw [seq_ok_state _ _ _ he3]
  obtain ⟨d4, he4, _, _, _, _, fr4⟩ :=
    step_u32 ⟨⟨d3, st.buf.len⟩, 0 + 4 + 4 + 4⟩ t.off_dt_strings
      (show 0 + 4 + 4 + 4 + 4 ≤ st.buf.len by omega)
  dsimp only at he4 fr4
  rw [seq_ok_state _ _ _ he4]
  obtain ⟨d5, he5, _, _, _, _, fr5⟩ :=
    step_u32 ⟨⟨d4, st.buf.len⟩, 0 + 4 + 4 + 4 + 4⟩ t.off_mem_rsvmap
      (show 0 + 4 + 4 + 4 + 4 + 4 ≤ st.buf.len by omega)
  dsimp only at he5 fr5
  rw [seq_ok_state _ _ _ he5]
  obtain ⟨d6, he6, _, _, _, _, fr6⟩ :=
    step_u32 ⟨⟨d5, st.buf.len⟩, 0 + 4 + 4 + 4 + 4 + 4⟩ t.version
      (show 0 + 4 + 4 + 4 + 4 + 4 + 4 ≤ st.buf.len by omega)
  dsimp only at he6 fr6
  rw [seq_ok_state _ _ _ he6]
  obtain ⟨d7, he7, _, _, _, _, fr7⟩ :=
    step_u32 ⟨⟨d6, st.buf.len⟩, 0 + 4 + 4 + 4 + 4 + 4 + 4⟩ t.last_comp_version
      (show 0 + 4 + 4 + 4 + 4 + 4 + 4 + 4 ≤ st.buf.len by omega)
  dsimp only at he7 fr7
  rw [seq_ok_state _ _ _ he7]
  obtain ⟨d8, he8, _, _, _, _, fr8⟩ :=
    step_u32 ⟨⟨d7, st.buf.len⟩, 0 + 4 + 4 + 4 + 4 + 4 + 4 + 4⟩ t.boot_cpuid_phys
      (show 0 + 4 + 4 + 4 + 4 + 4 + 4 + 4 + 4 ≤ st.buf.len by omega)
  dsimp only at he8 fr8
  rw [seq_ok_state _ _ _ he8]
  obtain ⟨d9, he9, t0, t1, t2, t3, fr9⟩ :=
    step_u32 ⟨⟨d8, st.buf.len⟩, 0 + 4 + 4 + 4 + 4 + 4 + 4 + 4 + 4⟩ t.size_dt_strings
      (show 0 + 4 + 4 + 4 + 4 + 4 + 4 + 4 + 4 + 4 ≤ st.buf.len by omega)
  dsimp only at he9 t0 t1 t2 t3 fr9
  rw [seq_ok_state _ _ _ he9]
  obtain ⟨d10, he10, _, _, _, _, fr10⟩ :=
    step_u32 ⟨⟨d9, st.buf.len⟩, 0 + 4 + 4 + 4 + 4 + 4 + 4 + 4 + 4 + 4⟩ t.size_dt_struct
      (show 0 + 4 + 4 + 4 + 4 + 4 + 4 + 4 + 4 + 4 + 4 ≤ st.buf.len by omega)
  dsimp only at he10 fr10
  refine ⟨d10, by rw [he10], ?_, ?_⟩
  · refine ⟨?_, ?_, ?_, ?_, ?_, ?_, ?_, ?_⟩
    · rw [fr10 8 (by omega), fr9 8 (by omega), fr8 8 (by omega), fr7 8 (by omega),
        fr6 8 (by omega), fr5 8 (by omega), fr4 8 (by omega)]
      have e : (8 : Nat) = 0 + 4 + 4 := by omega
      rw [e]
      exact s0
    · rw [fr10 9 (by omega), fr9 9 (by omega), fr8 9 (by omega), fr7 9 (by omega),
        fr6 9 (by omega), fr5 9 (by omega), fr4 9 (by omega)]
      have e : (9 : Nat) = 0 + 4 + 4 + 1 := by omega
      rw [e]
      exact s1
    · rw [fr10 10 (by omega), fr9 10 (by omega), fr8 10 (by omega), fr7 10 (by omega),
        fr6 10 (by omega), fr5 10 (by omega), fr4 10 (by omega)]
      have e : (10 : Nat) = 0 + 4 + 4 + 2 := by omega
      rw [e]
      exact s2
    · rw [fr10 11 (by omega), fr9 11 (by omega), fr8 11 (by omega), fr7 11 (by omega),
        fr6 11 (by omega), fr5 11 (by omega), fr4 11 (by omega)]
      have e : (11 : Nat) = 0 + 4 + 4 + 3 := by omega
      rw [e]
      exact s3
    · rw [fr10 32 (by omega)]
      have e : (32 : Nat) = 0 + 4 + 4 + 4 + 4 + 4 + 4 + 4 + 4 := by omega
      rw [e]
      exact t0
    · rw [fr10 33 (by omega)]
      have e : (33 : Nat) = 0 + 4 + 4 + 4 + 4 + 4 + 4 + 4 + 4 + 1 := by omega
      rw [e]
      exact t1
    · rw [fr10 34 (by omega)]
      have e : (34 : Nat) = 0 + 4 + 4 + 4 + 4 + 4 + 4 + 4 + 4 + 2 := by omega
      rw [e]
      exact t2
    · rw [fr10 35 (by omega)]
      have e : (35 : Nat) = 0 + 4 + 4 + 4 + 4 + 4 + 4 + 4 + 4 + 3 := by omega
      rw [e]
      exact t3
  · intro p hp
    rw [fr10 p (by omega), fr9 p (by omega), fr8 p (by omega), fr7 p (by omega),
      fr6 p (by omega), fr5 p (by omega), fr4 p (by omega), fr3 p (by omega),
      fr2 p (by omega), fr1 p (Or.inr (show (0 : Nat) + 4 ≤ p by omega))]

theorem serialize_header_trap (t : DevTree) (st : St) (h : st.buf.len < 40) :
    ∃ st', serialize_header t st = .trap st' := by
  unfold serialize_header
  by_cases h1 : st.buf.len < 0 + 4
  · obtain ⟨st', he⟩ := step_u32_trap ⟨st.buf, 0⟩ FDT_MAGIC h1
    exact ⟨st', seq_trap_state _ _ _ he⟩
  · push_neg at h1
    obtain ⟨d1, he1, _, _, _, _, _⟩ := step_u32 ⟨st.buf, 0⟩ FDT_MAGIC h1
    rw [seq_ok_state _ _ _ he1]
    by_cases h2 : st.buf.len < 0 + 4 + 4
    · obtain ⟨st', he⟩ := step_u32_trap ⟨⟨d1, st.buf.len⟩, 0 + 4⟩ t.totalsize h2
      exact ⟨st', seq_trap_state _ _ _ he⟩
    · push_neg at h2
      obtain ⟨d2, he2, _, _, _, _, _⟩ := step_u32 ⟨⟨d1, st.buf.len⟩, 0 + 4⟩ t.totalsize h2
      rw [seq_ok_state _ _ _ he2]
      by_cases h3 : st.buf.len < 0 + 4 + 4 + 4
      · obtain ⟨st', he⟩ := step_u32_trap ⟨⟨d2, st.buf.len⟩, 0 + 4 + 4⟩ t.off_dt_struct h3
        exact ⟨st', seq_trap_state _ _ _ he⟩
      · push_neg at h3
        obtain ⟨d3, he3, _, _, _, _, _⟩ :=
          step_u32 ⟨⟨d2, st.buf.len⟩, 0 + 4 + 4⟩ t.off_dt_struct h3
        rw [seq_ok_state _ _ _ he3]
        by_cases h4 : st.buf.len < 0 + 4 + 4 + 4 + 4
        · obtain ⟨st', he⟩ :=
            step_u32_trap ⟨⟨d3, st.buf.len⟩, 0 + 4 + 4 + 4⟩ t.off_dt_strings h4
          exact ⟨st', seq_trap_state _ _ _ he⟩
        · push_neg at h4
          obtain ⟨d4, he4, _, _, _, _, _⟩ :=
            step_u32 ⟨⟨d3, st.buf.len⟩, 0 + 4 + 4 + 4⟩ t.off_dt_strings h4
          rw [seq_ok_state _ _ _ he4]
          by_cases h5 : st.buf.len < 0 + 4 + 4 + 4 + 4 + 4
          · obtain ⟨st', he⟩ :=
              step_u32_trap ⟨⟨d4, st.buf.len⟩, 0 + 4 + 4 + 4 + 4⟩ t.off_mem_rsvmap h5
            exact ⟨st', seq_trap_state _ _ _ he⟩
          · push_neg at h5
            obtain ⟨d5, he5, _, _, _, _, _⟩ :=
              step_u32 ⟨⟨d4, st.buf.len⟩, 0 + 4 + 4 + 4 + 4⟩ t.off_mem_rsvmap h5
            rw [seq_ok_state _ _ _ he5]
            by_cases h6 : st.buf.len < 0 + 4 + 4 + 4 + 4 + 4 + 4
            · obtain ⟨st', he⟩ :=
                step_u32_trap ⟨⟨d5, st.buf.len⟩, 0 + 4 + 4 + 4 + 4 + 4⟩ t.version h6
              exact ⟨st', seq_trap_state _ _ _ he⟩
            · push_neg at h6
              obtain ⟨d6, he6, _, _, _, _, _⟩ :=
                step_u32 ⟨⟨d5, st.buf.len⟩, 0 + 4 + 4 + 4 + 4 + 4⟩ t.version h6
              rw [seq_ok_state _ _ _ he6]
              by_cases h7 : st.buf.len < 0 + 4 + 4 + 4 + 4 + 4 + 4 + 4
              · obtain ⟨st', he⟩ :=
                  step_u32_trap ⟨⟨d6, st.buf.len⟩, 0 + 4 + 4 + 4 + 4 + 4 + 4⟩
                    t.last_comp_version h7
                exact ⟨st', seq_trap_state _ _ _ he⟩
              · push_neg at h7
                obtain ⟨d7, he7, _, _, _, _, _⟩ :=
                  step_u32 ⟨⟨d6, st.buf.len⟩, 0 + 4 + 4 + 4 + 4 + 4 + 4⟩
                    t.last_comp_version h7
                rw [seq_ok_state _ _ _ he7]
                by_cases h8 : st.buf.len < 0 + 4 + 4 + 4 + 4 + 4 + 4 + 4 + 4
                · obtain ⟨st', he⟩ :=
                    step_u32_trap ⟨⟨d7, st.buf.len⟩, 0 + 4 + 4 + 4 + 4 + 4 + 4 + 4⟩
                      t.boot_cpuid_phys h8
                  exact ⟨st', seq_trap_state _ _ _ he⟩
                · push_neg at h8
                  obtain ⟨d8, he8, _, _, _, _, _⟩ :=
                    step_u32 ⟨⟨d7, st.buf.len⟩, 0 + 4 + 4 + 4 + 4 + 4 + 4 + 4⟩
                      t.boot_cpuid_phys h8
                  rw [seq_ok_state _ _ _ he8]
                  by_cases h9 : st.buf.len < 0 + 4 + 4 + 4 + 4 + 4 + 4 + 4 + 4 + 4
                  · obtain ⟨st', he⟩ :=
                      step_u32_trap ⟨⟨d8, st.buf.len⟩, 0 + 4 + 4 + 4 + 4 + 4 + 4 + 4 + 4⟩
                        t.size_dt_strings h9
                    exact ⟨st', seq_trap_state _ _ _ he⟩
                  · push_neg at h9
                    obtain ⟨d9, he9, _, _, _, _, _⟩ :=
                      step_u32 ⟨⟨d8, st.buf.len⟩, 0 + 4 + 4 + 4 + 4 + 4 + 4 + 4 + 4⟩
                        t.size_dt_strings h9
                    rw [seq_ok_state _ _ _ he9]
                    exact step_u32_trap
                      ⟨⟨d9, st.buf.len⟩, 0 + 4 + 4 + 4 + 4 + 4 + 4 + 4 + 4 + 4⟩
                      t.size_dt_struct
                      (show st.buf.len < 0 + 4 + 4 + 4 + 4 + 4 + 4 + 4 + 4 + 4 + 4 by omega)

theorem serRsvEntries_ok (rs : List (Nat × Nat)) : ∀ (st : St),
    st.off + 16 * rs.length ≤ st.buf.len →
    ∃ d, serRsvEntries rs st = .ok () ⟨⟨d, st.buf.len⟩, st.off + 16 * rs.length⟩ ∧
      ∀ p, p < st.off ∨ st.off + 16 * rs.length ≤ p → d p = st.buf.data p := by
  induction rs with
  | nil =>
    intro st _
    exact ⟨st.buf.data, by simp [serRsvEntries], fun p _ => rfl⟩
  | cons e rest ih =>
    rcases e with ⟨a, s⟩
    intro st hcap
    simp only [List.length_cons] at hcap
    unfold serRsvEntries
    obtain ⟨d1, he1, fr1⟩ := step_u64 st a (by omega)
    rw [seq_ok_state _ _ _ he1]
    obtain ⟨d2, he2, fr2⟩ := step_u64 ⟨⟨d1, st.buf.len⟩, st.off + 8⟩ s
      (show st.off + 8 + 8 ≤ st.buf.len by omega)
    dsimp only at he2 fr2
    rw [seq_ok_state _ _ _ he2]
    obtain ⟨d, hrun, fr⟩ := ih ⟨⟨d2, st.buf.len⟩, st.off + 8 + 8⟩
      (show st.off + 8 + 8 + 16 * rest.length ≤ st.buf.len by omega)
    dsimp only at hrun fr
    refine ⟨d, by rw [hrun]; congr 2; simp [List.length_cons]; ring, ?_⟩
    intro p hp
    simp only [List.length_cons] at hp
    rcases hp with hp | hp
    · rw [fr p (Or.inl (by omega)), fr2 p (Or.inl (by omega)), fr1 p (Or.inl hp)]
    · rw [fr p (Or.inr (by omega)), fr2 p (Or.inr (by omega)), fr1 p (Or.inr (by omega))]

theorem serRsvEntries_trap (rs : List (Nat × Nat)) : ∀ (st : St), rs ≠ [] →
    st.buf.len < st.off + 16 * rs.length →
    ∃ st', serRsvEntries rs st = .trap st' := by
  induction rs with
  | nil => intro st hne _; exact absurd rfl hne
  | cons e rest ih =>
    rcases e with ⟨a, s⟩
    intro st _ hcap
    simp only [List.length_cons] at hcap
    unfold serRsvEntries
    by_cases h1 : st.buf.len < st.off + 8
    · obtain ⟨st', he⟩ := step_u64_trap st a h1
      exact ⟨st', seq_trap_state _ _ _ he⟩
    · push_neg at h1
      obtain ⟨d1, he1, _⟩ := step_u64 st a h1
      rw [seq_ok_state _ _ _ he1]
      by_cases h2 : st.buf.len < st.off + 8 + 8
      · obtain ⟨st', he⟩ := step_u64_trap ⟨⟨d1, st.buf.len⟩, st.off + 8⟩ s h2
        exact ⟨st', seq_trap_state _ _ _ he⟩
      · push_neg at h2
        obtain ⟨d2, he2, _⟩ := step_u64 ⟨⟨d1, st.buf.len⟩, st.off + 8⟩ s h2
        dsimp only at he2
        rw [seq_ok_state _ _ _ he2]
        have hrest : rest ≠ [] := by
          intro hcon
          subst hcon
          simp at hcap
          omega
        exact ih ⟨⟨d2, st.buf.len⟩, st.off + 8 + 8⟩ hrest
          (show st.buf.len < st.off + 8 + 8 + 16 * rest.length by omega)

theorem stringsRegion_length (t : DevTree) : (stringsRegion t).length = t.size_dt_strings := by
  simp [stringsRegion]

theorem serialize_strings_block_ok (t : DevTree) (offset : Nat) (st : St)
    (hcap : t.size_dt_strings = 0 ∨ offset + t.size_dt_strings ≤ st.buf.len) :
    ∃ d, serialize_strings_block t offset st =
        .ok () ⟨⟨d, st.buf.len⟩, align_offset 4 (offset + t.size_dt_strings)⟩ ∧
      (∀ k, k < t.size_dt_strings → d (offset + k) = t.bufData (t.off_dt_strings + k) % 256) ∧
      ∀ p, p < offset ∨ offset + t.size_dt_strings ≤ p → d p = st.buf.data p := by
  rcases hcap with hz | hcap
  · refine ⟨st.buf.data, ?_, fun k hk => absurd hk (by omega), fun p _ => rfl⟩
    unfold serialize_strings_block
    have hsr : stringsRegion t = [] := by
      simp [stringsRegion, hz]
    rw [hsr]
    have he : unwrapped (serialize_slice ⟨st.buf, offset⟩ []) =
        .ok () ⟨st.buf, offset + 0⟩ := rfl
    rw [seq_ok_state _ _ _ he]
    dsimp only
    rw [show offset + 0 = offset + t.size_dt_strings by omega]
  · unfold serialize_strings_block
    obtain ⟨d, he, hbytes, hfr⟩ := step_slice ⟨st.buf, offset⟩ (stringsRegion t)
      (show offset + (stringsRegion t).length ≤ st.buf.len by
        rw [stringsRegion_length]; exact hcap)
    dsimp only at he hbytes hfr
    rw [seq_ok_state _ _ _ he]
    dsimp only
    rw [stringsRegion_length] at hfr ⊢
    refine ⟨d, rfl, ?_, hfr⟩
    intro k hk
    have := hbytes k (by rw [stringsRegion_length]; exact hk)
    rw [this]
    congr 1
    simp [stringsRegion]

theorem serialize_strings_block_trap (t : DevTree) (offset : Nat) (st : St)
    (hsz : 0 < t.size_dt_strings) (hcap : st.buf.len < offset + t.size_dt_strings) :
    ∃ st', serialize_strings_block t offset st = .trap st' := by
  unfold serialize_strings_block
  obtain ⟨st', he⟩ := step_slice_trap ⟨st.buf, offset⟩ (stringsRegion t)
    (by
      intro hcon
      have := stringsRegion_length t
      rw [hcon] at this
      simp at this
      omega)
    (show st.buf.len < offset + (stringsRegion t).length by
      rw [stringsRegion_length]; exact hcap)
  exact ⟨st', seq_trap_state _ _ _ he⟩

/-! ### More ghost lemmas -/

theorem serGhost_pass_of (ts : List ParsedTok) : ∀ (i o : Nat)
    (fm : Nat → ParsedTok → ModifyTokenResponse),
    (∀ k t, k < ts.length → fm (i + k) t = .pass) →
    ∃ mx, serGhost fm i ts o = (mx, some (passEnd ts o)) ∧ mx ≤ passEnd ts o := by
  induction ts with
  | nil => intro i o fm _; exact ⟨0, rfl, by omega⟩
  | cons t rest ih =>
    intro i o fm hfm
    have hfm0 : fm i t = .pass := by
      have := hfm 0 t (by simp)
      rwa [Nat.add_zero] at this
    obtain ⟨mx', hg', hle⟩ := ih (i + 1) (align_offset 4 (tokAdvance t o)) fm
      (by
        intro k tk hk
        have := hfm (k + 1) tk (by simp; omega)
        rwa [show i + (k + 1) = i + 1 + k by omega] at this)
    refine ⟨max (tokAdvance t o) mx', ?_, ?_⟩
    · simp only [serGhost, hfm0]
      rw [hg']
      dsimp only
      rw [show passEnd (t :: rest) o = passEnd rest (align_offset 4 (tokAdvance t o)) from rfl]
    · have h1 : tokAdvance t o ≤ align_offset 4 (tokAdvance t o) := align4_le _
      have h2 := passEnd_le rest (align_offset 4 (tokAdvance t o))
      have hpe : passEnd (t :: rest) o = passEnd rest (align_offset 4 (tokAdvance t o)) := rfl
      rw [hpe]
      omega

theorem inPassGap_lt (ts : List ParsedTok) : ∀ o p, inPassGap ts o p = true →
    p < passEnd ts o := by
  induction ts with
  | nil => intro o p hp; simp [inPassGap] at hp
  | cons t rest ih =>
    intro o p hp
    simp only [inPassGap, Bool.or_eq_true, Bool.and_eq_true, decide_eq_true_eq] at hp
    have hpe : passEnd (t :: rest) o = passEnd rest (align_offset 4 (tokAdvance t o)) := rfl
    rw [hpe]
    rcases hp with ⟨_, hp2⟩ | hp
    · exact lt_of_lt_of_le hp2 (passEnd_le rest _)
    · exact ih _ p hp

theorem parseToks_end (b : Buffer) (pos fuel : Nat)
    (h0 : b.data pos = 0) (h1 : b.data (pos + 1) = 0) (h2 : b.data (pos + 2) = 0)
    (h3 : b.data (pos + 3) = fdtEnd) (hcap : pos + 4 ≤ b.len) :
    parseToks b pos (fuel + 1) = some ([], pos + 4) := by
  have h32 : b.read_be_u32 pos = .ok fdtEnd := by
    have h := read_back_u32 b pos fdtEnd hcap (by rw [h0]; decide) (by rw [h1]; decide)
      (by rw [h2]; decide) (by rw [h3]; decide)
    rw [Nat.mod_eq_of_lt (by decide)] at h
    exact h
  simp only [parseToks]
  rw [h32]
  dsimp only
  rw [if_pos rfl]

/-! ### Assembling a successful modify call -/

theorem modify_assemble (t : DevTree) (B : Buffer) (fm : Nat → ParsedTok → ModifyTokenResponse)
    (endo : Nat) (P : (Nat → Nat) → (Nat → Nat) → Prop)
    (hv : validTree t = true)
    (hrun : ∀ d2 : Nat → Nat,
      ∃ dS, serStructToks fm 0 t.tokens ⟨⟨d2, B.len⟩, t.off_dt_struct⟩ =
          .ok () ⟨⟨dS, B.len⟩, endo⟩ ∧
        (∀ p, p < t.off_dt_struct → dS p = d2 p) ∧ P d2 dS)
    (hoff : t.off_dt_struct ≤ endo)
    (hend : endo + 4 ≤ B.len)
    (hstr : t.size_dt_strings = 0 ∨ endo + 4 + t.size_dt_strings ≤ B.len) :
    ∃ d2 dS d, modify t B fm =
        .ok (align_offset 4 (endo + 4 + t.size_dt_strings)) ⟨⟨d, B.len⟩, 8⟩ ∧
      P d2 dS ∧
      hdrFieldBytes d2 t ∧
      (∀ p, t.off_dt_struct ≤ p → d2 p = B.data p) ∧
      (∀ p, t.off_dt_struct ≤ p → p < endo → d p = dS p) ∧
      (d endo = 0 ∧ d (endo + 1) = 0 ∧ d (endo + 2) = 0 ∧ d (endo + 3) = fdtEnd) ∧
      (∀ k, k < t.size_dt_strings →
        d (endo + 4 + k) = t.bufData (t.off_dt_strings + k) % 256) ∧
      (∀ p, endo + 4 + t.size_dt_strings ≤ p → d p = dS p) ∧
      hdrFieldBytes d t ∧
      (d 4 = align_offset 4 (endo + 4 + t.size_dt_strings) / 2 ^ 24 % 256 ∧
       d 5 = align_offset 4 (endo + 4 + t.size_dt_strings) / 2 ^ 16 % 256 ∧
       d 6 = align_offset 4 (endo + 4 + t.size_dt_strings) / 2 ^ 8 % 256 ∧
       d 7 = align_offset 4 (endo + 4 + t.size_dt_strings) % 256) ∧
      (d 12 = (endo + 4) / 2 ^ 24 % 256 ∧ d 13 = (endo + 4) / 2 ^ 16 % 256 ∧
       d 14 = (endo + 4) / 2 ^ 8 % 256 ∧ d 15 = (endo + 4) % 256) ∧
      (d 36 = (endo + 4 - t.off_dt_struct) / 2 ^ 24 % 256 ∧
       d 37 = (endo + 4 - t.off_dt_struct) / 2 ^ 16 % 256 ∧
       d 38 = (endo + 4 - t.off_dt_struct) / 2 ^ 8 % 256 ∧
       d 39 = (endo + 4 - t.off_dt_struct) % 256) := by
  simp only [validTree, Bool.and_eq_true, decide_eq_true_eq] at hv
  have hmem40 : 40 ≤ t.off_mem_rsvmap := hv.1.1.1
  have hrsv : t.off_mem_rsvmap + 16 * t.reserved.length = t.off_dt_struct := hv.1.1.2
  have hst40 : 40 ≤ t.off_dt_struct := by omega
  have h40 : 40 ≤ B.len := by omega
  unfold modify
  obtain ⟨d1, heH, hdrb, frH⟩ := serialize_header_ok t ⟨B, 0⟩ h40
  rw [seq_ok_state _ _ _ heH]
  obtain ⟨d2, heR, frR⟩ := serRsvEntries_ok t.reserved ⟨⟨d1, B.len⟩, t.off_mem_rsvmap⟩
    (show t.off_mem_rsvmap + 16 * t.reserved.length ≤ B.len by omega)
  dsimp only at heR frR
  rw [hrsv] at heR frR
  have heR' : serialize_memory_reservation_block t ⟨⟨d1, B.len⟩, 40⟩ =
      .ok () ⟨⟨d2, B.len⟩, t.off_dt_struct⟩ := heR
  have hdrb2 : hdrFieldBytes d2 t := by
    obtain ⟨k8, k9, k10, k11, k32, k33, k34, k35⟩ := hdrb
    exact ⟨by rw [frR 8 (Or.inl (by omega))]; exact k8,
      by rw [frR 9 (Or.inl (by omega))]; exact k9,
      by rw [frR 10 (Or.inl (by omega))]; exact k10,
      by rw [frR 11 (Or.inl (by omega))]; exact k11,
      by rw [frR 32 (Or.inl (by omega))]; exact k32,
      by rw [frR 33 (Or.inl (by omega))]; exact k33,
      by rw [frR 34 (Or.inl (by omega))]; exact k34,
      by rw [frR 35 (Or.inl (by omega))]; exact k35⟩
  rw [seq_ok_state _ _ _ heR']
  obtain ⟨dS, hS, hSlow, hP⟩ := hrun d2
  obtain ⟨dE, heE, e0, e1, e2, e3, frE⟩ :=
    step_u32 ⟨⟨dS, B.len⟩, endo⟩ fdtEnd (show endo + 4 ≤ B.len from hend)
  dsimp only at heE e0 e1 e2 e3 frE
  have hsb : serialize_structure_block t fm ⟨⟨d2, B.len⟩, t.off_dt_struct⟩ =
      .ok (endo + 4 - t.off_dt_struct) ⟨⟨dE, B.len⟩, endo + 4⟩ := by
    unfold serialize_structure_block
    rw [seq_ok_state _ _ _ hS, seq_ok_state _ _ _ heE]
  rw [hsb]
  dsimp only
  obtain ⟨d3, he3, p0, p1, p2, p3, fr3⟩ :=
    step_u32 ⟨⟨dE, B.len⟩, 36⟩ (endo + 4 - t.off_dt_struct) (show 36 + 4 ≤ B.len by omega)
  dsimp only at he3 p0 p1 p2 p3 fr3
  have he3' : set_structure_block_size (endo + 4 - t.off_dt_struct) ⟨⟨dE, B.len⟩, endo + 4⟩ =
      .ok () ⟨⟨d3, B.len⟩, 36 + 4⟩ := he3
  rw [seq_ok_state _ _ _ he3']
  obtain ⟨d4, he4, q0, q1, q2, q3, fr4⟩ :=
    step_u32 ⟨⟨d3, B.len⟩, 12⟩ (endo + 4) (show 12 + 4 ≤ B.len by omega)
  dsimp only at he4 q0 q1 q2 q3 fr4
  have he4' : set_strings_block_offset (endo + 4) ⟨⟨d3, B.len⟩, 36 + 4⟩ =
      .ok () ⟨⟨d4, B.len⟩, 12 + 4⟩ := he4
  rw [seq_ok_state _ _ _ he4']
  obtain ⟨d5, he5, sbytes, fr5⟩ :=
    serialize_strings_block_ok t (endo + 4) ⟨⟨d4, B.len⟩, 12 + 4⟩
      (by rcases hstr with h | h; exact Or.inl h; exact Or.inr h)
  dsimp only at he5 sbytes fr5
  rw [seq_ok_state _ _ _ he5]
  obtain ⟨d6, he6, r0, r1, r2, r3, fr6⟩ :=
    step_u32 ⟨⟨d5, B.len⟩, 4⟩ (align_offset 4 (endo + 4 + t.size_dt_strings))
      (show 4 + 4 ≤ B.len by omega)
  dsimp only at he6 r0 r1 r2 r3 fr6
  have he6' : set_total_size (align_offset 4 (endo + 4 + t.size_dt_strings))
      ⟨⟨d5, B.len⟩, align_offset 4 (endo + 4 + t.size_dt_strings)⟩ =
      .ok () ⟨⟨d6, B.len⟩, 4 + 4⟩ := he6
  rw [seq_ok_state _ _ _ he6']
  have hT4 : endo + 4 ≤ align_offset 4 (endo + 4 + t.size_dt_strings) := by
    have := align4_le (endo + 4 + t.size_dt_strings)
    omega
  refine ⟨d2, dS, d6, rfl, hP, hdrb2, ?_, ?_, ?_, ?_, ?_, ?_, ?_, ?_, ?_⟩
  · -- pre-structure buffer agrees with B from off_dt_struct on
    intro p hp
    rw [frR p (Or.inr (by omega)), frH p (by omega)]
  · -- final buffer agrees with the struct-run image on the structure block
    intro p hp1 hp2
    rw [fr6 p (Or.inr (by omega)), fr5 p (Or.inl (by omega)), fr4 p (Or.inr (by omega)),
      fr3 p (by omega), frE p (Or.inl hp2)]
  · -- the End tag
    refine ⟨?_, ?_, ?_, ?_⟩
    · rw [fr6 endo (Or.inr (by omega)), fr5 endo (Or.inl (by omega)),
        fr4 endo (Or.inr (by omega)), fr3 endo (by omega), e0]
      decide
    · rw [fr6 (endo + 1) (Or.inr (by omega)), fr5 (endo + 1) (Or.inl (by omega)),
        fr4 (endo + 1) (Or.inr (by omega)), fr3 (endo + 1) (by omega), e1]
      decide
    · rw [fr6 (endo + 2) (Or.inr (by omega)), fr5 (endo + 2) (Or.inl (by omega)),
        fr4 (endo + 2) (Or.inr (by omega)), fr3 (endo + 2) (by omega), e2]
      decide
    · rw [fr6 (endo + 3) (Or.inr (by omega)), fr5 (endo + 3) (Or.inl (by omega)),
        fr4 (endo + 3) (Or.inr (by omega)), fr3 (endo + 3) (by omega), e3]
      decide
  · -- the relocated strings block
    intro k hk
    rw [fr6 (endo + 4 + k) (Or.inr (by omega))]
    exact sbytes k hk
  · -- bytes past the strings block are whatever the structure pass left
    intro p hp
    rw [fr6 p (Or.inr (by omega)), fr5 p (Or.inr (by omega)), fr4 p (Or.inr (by omega)),
      fr3 p (by omega), frE p (Or.inr (by omega))]
  · -- the never-patched header fields survive
    obtain ⟨k8, k9, k10, k11, k32, k33, k34, k35⟩ := hdrb2
    have sur : ∀ q, 8 ≤ q ∧ q ≤ 11 ∨ 32 ≤ q ∧ q ≤ 35 → d6 q = d2 q := by
      intro q hq
      rw [fr6 q (Or.inr (by omega)), fr5 q (Or.inl (by omega)), fr4 q (by omega),
        fr3 q (by omega), frE q (Or.inl (by omega)), hSlow q (by omega)]
    exact ⟨by rw [sur 8 (by omega)]; exact k8, by rw [sur 9 (by omega)]; exact k9,
      by rw [sur 10 (by omega)]; exact k10, by rw [sur 11 (by omega)]; exact k11,
      by rw [sur 32 (by omega)]; exact k32, by rw [sur 33 (by omega)]; exact k33,
      by rw [sur 34 (by omega)]; exact k34, by rw [sur 35 (by omega)]; exact k35⟩
  · exact ⟨r0, r1, r2, r3⟩
  · refine ⟨?_, ?_, ?_, ?_⟩
    · rw [fr6 12 (Or.inr (by omega)), fr5 12 (Or.inl (by omega)), q0]
    · rw [fr6 13 (Or.inr (by omega)), fr5 13 (Or.inl (by omega)), q1]
    · rw [fr6 14 (Or.inr (by omega)), fr5 14 (Or.inl (by omega)), q2]
    · rw [fr6 15 (Or.inr (by omega)), fr5 15 (Or.inl (by omega)), q3]
  · refine ⟨?_, ?_, ?_, ?_⟩
    · rw [fr6 36 (Or.inr (by omega)), fr5 36 (Or.inl (by omega)), fr4 36 (Or.inr (by omega)), p0]
    · rw [fr6 37 (Or.inr (by omega)), fr5 37 (Or.inl (by omega)), fr4 37 (Or.inr (by omega)), p1]
    · rw [fr6 38 (Or.inr (by omega)), fr5 38 (Or.inl (by omega)), fr4 38 (Or.inr (by omega)), p2]
    · rw [fr6 39 (Or.inr (by omega)), fr5 39 (Or.inl (by omega)), fr4 39 (Or.inr (by omega)), p3]

theorem serGhost_nx_ge (fm : Nat → ParsedTok → ModifyTokenResponse) (ts : List ParsedTok) :
    ∀ i o mx, serGhost fm i ts o = (mx, none) → o + 4 ≤ mx := by
  induction ts with
  | nil =>
    intro i o mx hg
    simp only [serGhost] at hg
    injection hg with _ hr
    injection hr
  | cons t rest ih =>
    intro i o mx hg
    simp only [serGhost] at hg
    have hadv := tokAdvance_ge t o
    rcases hfm : fm i t with _ | _ | n <;> rw [hfm] at hg <;> dsimp only at hg
    · rcases hg' : serGhost fm (i + 1) rest (align_offset 4 (tokAdvance t o)) with ⟨mx', r⟩
      rw [hg'] at hg
      dsimp only at hg
      injection hg with hmx hr
      subst hr
      have := ih (i + 1) _ _ hg'
      have := align4_le (tokAdvance t o)
      omega
    · rcases hg' : serGhost fm (i + 1) rest (align_offset 4 o) with ⟨mx', r⟩
      rw [hg'] at hg
      dsimp only at hg
      injection hg with hmx hr
      subst hr
      have := ih (i + 1) _ _ hg'
      have := align4_le o
      omega
    · cases t with
      | prop noff pb =>
        dsimp only at hg
        rcases hg' : serGhost fm (i + 1) rest (align_offset 4 (o + 12 + n)) with ⟨mx', r⟩
        rw [hg'] at hg
        dsimp only at hg
        injection hg with hmx hr
        subst hr
        have := ih (i + 1) _ _ hg'
        have := align4_le (o + 12 + n)
        omega
      | beginNode name =>
        dsimp only at hg
        injection hg with hmx _
        have : tokAdvance (.beginNode name) o = o + 4 +
            (if name.length = 0 then 4 else name.length + 1) := rfl
        omega
      | endNode =>
        dsimp only at hg
        injection hg with hmx _
        have : tokAdvance .endNode o = o + 4 := rfl
        omega
      | nop =>
        dsimp only at hg
        injection hg with hmx _
        have : tokAdvance .nop o = o + 4 := rfl
        omega

theorem modify_trap (t : DevTree) (B : Buffer) (fm : Nat → ParsedTok → ModifyTokenResponse)
    (req : Nat) (tot : Option Nat) (hv : validTree t = true)
    (hG : modifyGhost t fm = (req, tot)) (hlt : B.len < req) :
    ∃ st', modify t B fm = .trap st' := by
  have hv' := hv
  simp only [validTree, Bool.and_eq_true, decide_eq_true_eq] at hv'
  have hmem40 : 40 ≤ t.off_mem_rsvmap := hv'.1.1.1
  have hrsv : t.off_mem_rsvmap + 16 * t.reserved.length = t.off_dt_struct := hv'.1.1.2
  have htoks : t.tokens.all tokValid = true := hv'.2
  by_cases h40 : B.len < 40
  · obtain ⟨st', he⟩ := serialize_header_trap t ⟨B, 0⟩ h40
    exact ⟨st', by unfold modify; rw [seq_trap_state _ _ _ he]⟩
  · push_neg at h40
    obtain ⟨d1, heH, _, _⟩ := serialize_header_ok t ⟨B, 0⟩ h40
    by_cases hB : t.reserved.length ≠ 0 ∧ B.len < t.off_dt_struct
    · -- the reservation copy traps
      obtain ⟨st', heRt⟩ := serRsvEntries_trap t.reserved ⟨⟨d1, B.len⟩, t.off_mem_rsvmap⟩
        (by intro hcon; exact hB.1 (by rw [hcon]; rfl))
        (show B.len < t.off_mem_rsvmap + 16 * t.reserved.length by omega)
      refine ⟨st', ?_⟩
      unfold modify
      rw [seq_ok_state _ _ _ heH]
      have heRt' : serialize_memory_reservation_block t ⟨⟨d1, B.len⟩, 40⟩ = .trap st' := heRt
      rw [seq_trap_state _ _ _ heRt']
    · -- the reservation copy succeeds
      push_neg at hB
      have hstruct_le : t.reserved.length ≠ 0 → t.off_dt_struct ≤ B.len := hB
      have hrsvok : ∃ d2, serialize_memory_reservation_block t ⟨⟨d1, B.len⟩, 40⟩ =
          .ok () ⟨⟨d2, B.len⟩, t.off_dt_struct⟩ := by
        rcases hz : t.reserved with _ | ⟨e, rest'⟩
        · refine ⟨d1, ?_⟩
          show serRsvEntries t.reserved ⟨⟨d1, B.len⟩, t.off_mem_rsvmap⟩ = _
          rw [hz]
          show Out.ok () ⟨⟨d1, B.len⟩, t.off_mem_rsvmap⟩ = _
          have hoffeq : t.off_mem_rsvmap = t.off_dt_struct := by
            rw [hz] at hrsv
            simpa using hrsv
          rw [hoffeq]
        · have hk : t.reserved.length ≠ 0 := by rw [hz]; simp
          have hcap2 : t.off_mem_rsvmap + 16 * t.reserved.length ≤ B.len := by
            have := hstruct_le hk
            omega
          obtain ⟨d2, heR, _⟩ :=
            serRsvEntries_ok t.reserved ⟨⟨d1, B.len⟩, t.off_mem_rsvmap⟩ hcap2
          dsimp only at heR
          rw [hrsv] at heR
          exact ⟨d2, heR⟩
      obtain ⟨d2, heR'⟩ := hrsvok
      rcases hg : serGhost fm 0 t.tokens t.off_dt_struct with ⟨mxS, r⟩
      unfold modifyGhost at hG
      rw [hg] at hG
      by_cases hS : B.len < mxS
      · -- the token loop traps
        obtain ⟨st', hSt⟩ := serStructToks_trap_of fm t.tokens 0
          ⟨⟨d2, B.len⟩, t.off_dt_struct⟩ mxS r hg htoks hS
        refine ⟨st', ?_⟩
        unfold modify
        rw [seq_ok_state _ _ _ heH, seq_ok_state _ _ _ heR']
        have hsb : serialize_structure_block t fm ⟨⟨d2, B.len⟩, t.off_dt_struct⟩ =
            .trap st' := by
          unfold serialize_structure_block
          rw [seq_trap_state _ _ _ hSt]
        rw [hsb]
      · push_neg at hS
        cases r with
        | none =>
          -- every write fits, so the ghost maximum is at most the length
          exfalso
          dsimp only at hG
          injection hG with hreq _
          have hle : req ≤ B.len := by
            rw [← hreq]
            refine max_le (by omega) (max_le ?_ hS)
            unfold rsvMaxEnd
            split <;> omega
          omega
        | some endo =>
          obtain ⟨dS, hSt, _⟩ := serStructToks_ok_of fm t.tokens 0
            ⟨⟨d2, B.len⟩, t.off_dt_struct⟩ mxS endo hg htoks hS
          dsimp only at hG
          by_cases hE : B.len < endo + 4
          · -- the closing End tag traps
            obtain ⟨st', heE⟩ := step_u32_trap ⟨⟨dS, B.len⟩, endo⟩ fdtEnd
              (show B.len < endo + 4 from hE)
            refine ⟨st', ?_⟩
            unfold modify
            rw [seq_ok_state _ _ _ heH, seq_ok_state _ _ _ heR']
            have hsb : serialize_structure_block t fm ⟨⟨d2, B.len⟩, t.off_dt_struct⟩ =
                .trap st' := by
              unfold serialize_structure_block
              rw [seq_ok_state _ _ _ hSt, seq_trap_state _ _ _ heE]
            rw [hsb]
          · push_neg at hE
            obtain ⟨dE, heE, _, _, _, _, _⟩ :=
              step_u32 ⟨⟨dS, B.len⟩, endo⟩ fdtEnd hE
            dsimp only at heE
            have hsb : serialize_structure_block t fm ⟨⟨d2, B.len⟩, t.off_dt_struct⟩ =
                .ok (endo + 4 - t.off_dt_struct) ⟨⟨dE, B.len⟩, endo + 4⟩ := by
              unfold serialize_structure_block
              rw [seq_ok_state _ _ _ hSt, seq_ok_state _ _ _ heE]
            by_cases hStr : 0 < t.size_dt_strings ∧ B.len < endo + 4 + t.size_dt_strings
            · -- the strings copy traps
              obtain ⟨d3, he3, _, _, _, _, _⟩ :=
                step_u32 ⟨⟨dE, B.len⟩, 36⟩ (endo + 4 - t.off_dt_struct)
                  (show 36 + 4 ≤ B.len by omega)
              dsimp only at he3
              have he3' : set_structure_block_size (endo + 4 - t.off_dt_struct)
                  ⟨⟨dE, B.len⟩, endo + 4⟩ = .ok () ⟨⟨d3, B.len⟩, 36 + 4⟩ := he3
              obtain ⟨d4, he4, _, _, _, _, _⟩ :=
                step_u32 ⟨⟨d3, B.len⟩, 12⟩ (endo + 4) (show 12 + 4 ≤ B.len by omega)
              dsimp only at he4
              have he4' : set_strings_block_offset (endo + 4) ⟨⟨d3, B.len⟩, 36 + 4⟩ =
                  .ok () ⟨⟨d4, B.len⟩, 12 + 4⟩ := he4
              obtain ⟨st', he5⟩ := serialize_strings_block_trap t (endo + 4)
                ⟨⟨d4, B.len⟩, 12 + 4⟩ hStr.1 (show B.len < endo + 4 + t.size_dt_strings from hStr.2)
              refine ⟨st', ?_⟩
              unfold modify
              rw [seq_ok_state _ _ _ heH, seq_ok_state _ _ _ heR', hsb]
              dsimp only
              rw [seq_ok_state _ _ _ he3', seq_ok_state _ _ _ he4',
                seq_trap_state _ _ _ he5]
            · -- everything fits after all: contradiction with B.len < req
              exfalso
              push_neg at hStr
              injection hG with hreq _
              have h1 : max 40 (max (rsvMaxEnd t) (max mxS (endo + 4))) ≤ B.len := by
                refine max_le (by omega) (max_le ?_ (max_le hS hE))
                unfold rsvMaxEnd
                split <;> omega
              have hle : req ≤ B.len := by
                rw [← hreq]
                split
                · exact h1
                · exact max_le h1 (hStr (by omega))
              omega

theorem serGhost_end_mod (fm : Nat → ParsedTok → ModifyTokenResponse) (ts : List ParsedTok) :
    ∀ i o mx endo, serGhost fm i ts o = (mx, some endo) → o % 4 = 0 → endo % 4 = 0 := by
  induction ts with
  | nil =>
    intro i o mx endo hg ho
    simp only [serGhost] at hg
    injection hg with _ hr
    injection hr with hendo
    rwa [← hendo]
  | cons t rest ih =>
    intro i o mx endo hg ho
    simp only [serGhost] at hg
    rcases hfm : fm i t with _ | _ | n <;> rw [hfm] at hg <;> dsimp only at hg
    · rcases hg' : serGhost fm (i + 1) rest (align_offset 4 (tokAdvance t o)) with ⟨mx', r⟩
      rw [hg'] at hg
      dsimp only at hg
      injection hg with _ hr
      subst hr
      exact ih (i + 1) _ _ _ hg' (align4_mod _)
    · rcases hg' : serGhost fm (i + 1) rest (align_offset 4 o) with ⟨mx', r⟩
      rw [hg'] at hg
      dsimp only at hg
      injection hg with _ hr
      subst hr
      exact ih (i + 1) _ _ _ hg' (align4_mod _)
    · cases t with
      | prop noff pb =>
        dsimp only at hg
        rcases hg' : serGhost fm (i + 1) rest (align_offset 4 (o + 12 + n)) with ⟨mx', r⟩
        rw [hg'] at hg
        dsimp only at hg
        injection hg with _ hr
        subst hr
        exact ih (i + 1) _ _ _ hg' (align4_mod _)
      | beginNode name => dsimp only at hg; injection hg with _ hr; injection hr
      | endNode => dsimp only at hg; injection hg with _ hr; injection hr
      | nop => dsimp only at hg; injection hg with _ hr; injection hr

theorem serGhost_append (fm : Nat → ParsedTok → ModifyTokenResponse)
    (ts2 : List ParsedTok) (ts1 : List ParsedTok) : ∀ (i o : Nat),
    serGhost fm i (ts1 ++ ts2) o =
      match serGhost fm i ts1 o with
      | (mx1, some e1) =>
        match serGhost fm (i + ts1.length) ts2 e1 with
        | (mx2, r) => (max mx1 mx2, r)
      | (mx1, none) => (mx1, none) := by
  induction ts1 with
  | nil =>
    intro i o
    simp only [List.nil_append, serGhost, List.length_nil, Nat.add_zero]
    rcases hg : serGhost fm i ts2 o with ⟨mx2, r⟩
    simp
  | cons t rest ih =>
    intro i o
    simp only [List.cons_append, serGhost]
    rcases hfm : fm i t with _ | _ | n <;> dsimp only <;> simp only [List.append_eq]
    · rw [ih (i + 1) (align_offset 4 (tokAdvance t o))]
      rcases hg1 : serGhost fm (i + 1) rest (align_offset 4 (tokAdvance t o)) with ⟨mx1, r1⟩
      cases r1 with
      | some e1 =>
        dsimp only
        rcases hg2 : serGhost fm (i + 1 + rest.length) ts2 e1 with ⟨mx2, r2⟩
        simp only [List.length_cons]
        rw [show i + (rest.length + 1) = i + 1 + rest.length by omega, hg2]
        dsimp only
        rw [← max_assoc]
      | none => dsimp only
    · rw [ih (i + 1) (align_offset 4 o)]
      rcases hg1 : serGhost fm (i + 1) rest (align_offset 4 o) with ⟨mx1, r1⟩
      cases r1 with
      | some e1 =>
        dsimp only
        rcases hg2 : serGhost fm (i + 1 + rest.length) ts2 e1 with ⟨mx2, r2⟩
        simp only [List.length_cons]
        rw [show i + (rest.length + 1) = i + 1 + rest.length by omega, hg2]
        dsimp only
        rw [← max_assoc]
      | none => dsimp only
    · cases t with
      | prop noff pb =>
        dsimp only
        rw [ih (i + 1) (align_offset 4 (o + 12 + n))]
        rcases hg1 : serGhost fm (i + 1) rest (align_offset 4 (o + 12 + n)) with ⟨mx1, r1⟩
        cases r1 with
        | some e1 =>
          dsimp only
          rcases hg2 : serGhost fm (i + 1 + rest.length) ts2 e1 with ⟨mx2, r2⟩
          simp only [List.length_cons]
          rw [show i + (rest.length + 1) = i + 1 + rest.length by omega, hg2]
          dsimp only
          rw [← max_assoc]
        | none => dsimp only
      | beginNode name => rfl
      | endNode => rfl
      | nop => rfl

theorem eraseIdx_append_cons (tk : ParsedTok) (ts2 : List ParsedTok) :
    ∀ ts1 : List ParsedTok, (ts1 ++ tk :: ts2).eraseIdx ts1.length = ts1 ++ ts2 := by
  intro ts1
  induction ts1 with
  | nil => rfl
  | cons a rest ih =>
    show a :: (rest ++ tk :: ts2).eraseIdx rest.length = a :: (rest ++ ts2)
    rw [ih]

theorem modify_err (t : DevTree) (B : Buffer) (fm : Nat → ParsedTok → ModifyTokenResponse)
    (mxS : Nat) (hv : validTree t = true)
    (hg : serGhost fm 0 t.tokens t.off_dt_struct = (mxS, none))
    (hcap : mxS ≤ B.len) :
    ∃ st', modify t B fm =
      .err (.invalidParameter "Cannot return ModifySize from a non-Prop token!") st' := by
  have hv' := hv
  simp only [validTree, Bool.and_eq_true, decide_eq_true_eq] at hv'
  have hmem40 : 40 ≤ t.off_mem_rsvmap := hv'.1.1.1
  have hrsv : t.off_mem_rsvmap + 16 * t.reserved.length = t.off_dt_struct := hv'.1.1.2
  have htoks : t.tokens.all tokValid = true := hv'.2
  have hmx4 : t.off_dt_struct + 4 ≤ mxS := serGhost_nx_ge fm t.tokens 0 t.off_dt_struct mxS hg
  have h40 : 40 ≤ B.len := by omega
  obtain ⟨d1, heH, _, _⟩ := serialize_header_ok t ⟨B, 0⟩ h40
  obtain ⟨d2, heR, _⟩ := serRsvEntries_ok t.reserved ⟨⟨d1, B.len⟩, t.off_mem_rsvmap⟩
    (show t.off_mem_rsvmap + 16 * t.reserved.length ≤ B.len by omega)
  dsimp only at heR
  rw [hrsv] at heR
  have heR' : serialize_memory_reservation_block t ⟨⟨d1, B.len⟩, 40⟩ =
      .ok () ⟨⟨d2, B.len⟩, t.off_dt_struct⟩ := heR
  obtain ⟨st', hSt⟩ := serStructToks_err_of fm t.tokens 0 ⟨⟨d2, B.len⟩, t.off_dt_struct⟩
    mxS hg htoks hcap
  refine ⟨st', ?_⟩
  unfold modify
  rw [seq_ok_state _ _ _ heH, seq_ok_state _ _ _ heR']
  have hsb : serialize_structure_block t fm ⟨⟨d2, B.len⟩, t.off_dt_struct⟩ =
      .err (.invalidParameter "Cannot return ModifySize from a non-Prop token!") st' := by
    unfold serialize_structure_block
    rw [seq_err_state _ _ _ _ hSt]
  rw [hsb]

theorem seq_assoc {α : Type} (o : Out Unit) (k1 : St → Out Unit) (k2 : St → Out α) :
    (o.seq k1).seq k2 = o.seq fun st => (k1 st).seq k2 := by
  cases o <;> rfl

theorem serStructToks_append (fm : Nat → ParsedTok → ModifyTokenResponse)
    (ts2 : List ParsedTok) (ts1 : List ParsedTok) : ∀ (i : Nat) (st : St),
    serStructToks fm i (ts1 ++ ts2) st =
      (serStructToks fm i ts1 st).seq (serStructToks fm (i + ts1.length) ts2) := by
  induction ts1 with
  | nil =>
    intro i st
    simp only [List.nil_append, List.length_nil, Nat.add_zero]
    rfl
  | cons t rest ih =>
    intro i st
    show (serOne t (fm i t) st).seq (serStructToks fm (i + 1) (rest ++ ts2)) =
      ((serOne t (fm i t) st).seq (serStructToks fm (i + 1) rest)).seq
        (serStructToks fm (i + (t :: rest).length) ts2)
    rw [seq_assoc]
    congr 1
    funext st'
    rw [ih (i + 1) st', List.length_cons,
      show i + 1 + rest.length = i + (rest.length + 1) by omega]

theorem serStructToks_dropAt_run (ts1 ts2 : List ParsedTok) (tk : ParsedTok) (st : St)
    (hv1 : ts1.all tokValid = true) (hvk : tokValid tk = true) (hv2 : ts2.all tokValid = true)
    (hal : st.off % 4 = 0)
    (hcapk : tokAdvance tk (passEnd ts1 st.off) ≤ st.buf.len)
    (hcap : passEnd ts2 (passEnd ts1 st.off) ≤ st.buf.len) :
    ∃ d, serStructToks (respDropAt ts1.length) 0 (ts1 ++ tk :: ts2) st =
        .ok () ⟨⟨d, st.buf.len⟩, passEnd ts2 (passEnd ts1 st.off)⟩ ∧
      (∀ p, p < st.off → d p = st.buf.data p) ∧
      ∀ (B2 : Buffer) (fuel : Nat), B2.len = st.buf.len →
        (∀ q, st.off ≤ q → q < passEnd ts2 (passEnd ts1 st.off) → B2.data q = d q) →
        parseToks B2 st.off (ts1.length + (ts2.length + fuel)) =
          match parseToks B2 (passEnd ts2 (passEnd ts1 st.off)) fuel with
          | some (r, fin) =>
            some (passAnnot ts1 st.off ++ (passAnnot ts2 (passEnd ts1 st.off) ++ r), fin)
          | none => none := by
  have hadvk := tokAdvance_ge tk (passEnd ts1 st.off)
  have hpe1le : passEnd ts1 st.off ≤ st.buf.len := by omega
  have hpe12 : passEnd ts1 st.off ≤ passEnd ts2 (passEnd ts1 st.off) := passEnd_le ts2 _
  have hofle : st.off ≤ passEnd ts1 st.off := passEnd_le ts1 _
  obtain ⟨dP, hrunP, hfrP, hgapP, hparseP⟩ := serStructToks_pass_rt ts1 0 st
    (respDropAt ts1.length)
    (fun k tk' hk => by unfold respDropAt; rw [if_neg (by omega)]) hv1 hal hpe1le
  have halP : passEnd ts1 st.off % 4 = 0 := passEnd_mod ts1 st.off hal
  obtain ⟨dD, hrunD, hfrD⟩ := serOne_drop tk ⟨⟨dP, st.buf.len⟩, passEnd ts1 st.off⟩ hvk hcapk
  dsimp only at hrunD hfrD
  rw [align4_of_dvd halP] at hrunD
  obtain ⟨dS, hrunS, hfrS, hgapS, hparseS⟩ := serStructToks_pass_rt ts2 (ts1.length + 1)
    ⟨⟨dD, st.buf.len⟩, passEnd ts1 st.off⟩ (respDropAt ts1.length)
    (fun k tk' hk => by unfold respDropAt; rw [if_neg (by omega)]) hv2 halP hcap
  dsimp only at hrunS hfrS hgapS hparseS
  refine ⟨dS, ?_, ?_, ?_⟩
  · rw [serStructToks_append (respDropAt ts1.length) (tk :: ts2) ts1 0 st,
      seq_ok_state _ _ _ hrunP, show 0 + ts1.length = ts1.length from by omega]
    show (serOne tk (respDropAt ts1.length ts1.length tk)
        ⟨⟨dP, st.buf.len⟩, passEnd ts1 st.off⟩).seq
        (serStructToks (respDropAt ts1.length) (ts1.length + 1) ts2) = _
    rw [show respDropAt ts1.length ts1.length tk = .drop from by
        unfold respDropAt; rw [if_pos rfl],
      seq_ok_state _ _ _ hrunD]
    exact hrunS
  · intro p hp
    rw [hfrS p (Or.inl (by omega)), hfrD p (Or.inl (by omega)), hfrP p (Or.inl hp)]
  · intro B2 fuel hlen hagree
    have hagreeP : ∀ q, st.off ≤ q → q < passEnd ts1 st.off → B2.data q = dP q := by
      intro q hq1 hq2
      rw [hagree q hq1 (by omega), hfrS q (Or.inl hq2), hfrD q (Or.inl hq2)]
    have hmainP := hparseP B2 (ts2.length + fuel) hlen hagreeP
    have hagreeS : ∀ q, passEnd ts1 st.off ≤ q →
        q < passEnd ts2 (passEnd ts1 st.off) → B2.data q = dS q := by
      intro q hq1 hq2
      exact hagree q (by omega) hq2
    have hmainS := hparseS B2 fuel hlen hagreeS
    rw [hmainP, hmainS]
    rcases hres : parseToks B2 (passEnd ts2 (passEnd ts1 st.off)) fuel with - | ⟨r, fin⟩ <;>
      dsimp only

/-! ### Claim theorems -/

/-- C8: for every buffer, offset and value, `write_be_u32` (width 4) and
`write_be_u64` (width 8) return `UnexpectedEndOfInput` whenever the access
would exceed the buffer's bounds (`pos + width > len`), never touch memory
outside the buffer (no slot at or past `len` changes, and the length never
changes), and on success store the value's bytes in big-endian order at
`pos` — most significant byte first — with no alignment requirement on
`pos`. -/
theorem c8_write_be_bounds (b : Buffer) (pos v : Nat) :
    (b.len < pos + 4 → b.write_be_u32 pos v = (.error .unexpectedEndOfInput, b)) ∧
    (pos + 4 ≤ b.len →
      (b.write_be_u32 pos v).1 = .ok ∧
      (b.write_be_u32 pos v).2.data pos = v / 2 ^ 24 % 256 ∧
      (b.write_be_u32 pos v).2.data (pos + 1) = v / 2 ^ 16 % 256 ∧
      (b.write_be_u32 pos v).2.data (pos + 2) = v / 2 ^ 8 % 256 ∧
      (b.write_be_u32 pos v).2.data (pos + 3) = v % 256) ∧
    (∀ p, b.len ≤ p → (b.write_be_u32 pos v).2.data p = b.data p) ∧
    (b.write_be_u32 pos v).2.len = b.len ∧
    (b.len < pos + 8 → b.write_be_u64 pos v = (.error .unexpectedEndOfInput, b)) ∧
    (pos + 8 ≤ b.len →
      (b.write_be_u64 pos v).1 = .ok ∧
      ∀ k, k < 8 → (b.write_be_u64 pos v).2.data (pos + k) = v / 2 ^ (8 * (7 - k)) % 256) ∧
    (∀ p, b.len ≤ p → (b.write_be_u64 pos v).2.data p = b.data p) ∧
    (b.write_be_u64 pos v).2.len = b.len := by
  refine ⟨fun h => write_be_u32_err b pos v h, fun h => ?_,
    fun p hp => (write_be_u32_oob b pos v p hp).1,
    (write_be_u32_oob b pos v b.len le_rfl).2,
    fun h => write_be_u64_err b pos v h, fun h => ?_,
    fun p hp => (write_be_u64_oob b pos v p hp).1,
    (write_be_u64_oob b pos v b.len le_rfl).2⟩
  · obtain ⟨hr, _, h0, h1, h2, h3, _⟩ := write_be_u32_spec b pos v h
    exact ⟨hr, h0, h1, h2, h3⟩
  · obtain ⟨hr, _, hk, _⟩ := write_be_u64_spec b pos v h
    exact ⟨hr, hk⟩

/-- C10: `write_be_u32` and `write_be_u64` are atomic on failure — when
they return `UnexpectedEndOfInput` the buffer is returned completely
unchanged, because the bounds check precedes every store.  By contrast
`write_slice` and `write_bstring0` store bytes one at a time and can
leave a written prefix behind when they fail, witnessed here by concrete
runs whose failing result differs from the input buffer at position 0. -/
theorem c10_write_atomic_on_failure (b : Buffer) (pos v : Nat) :
    ((b.write_be_u32 pos v).1 = .error .unexpectedEndOfInput → (b.write_be_u32 pos v).2 = b) ∧
    ((b.write_be_u64 pos v).1 = .error .unexpectedEndOfInput → (b.write_be_u64 pos v).2 = b) ∧
    (∃ (b0 : Buffer) (q : Nat) (s : List Nat),
      (b0.write_slice q s).1 = .error .unexpectedEndOfInput ∧
        (b0.write_slice q s).2.data 0 ≠ b0.data 0) ∧
    (∃ (b0 : Buffer) (q : Nat) (s : List Nat),
      (b0.write_bstring0 q s).1 = .error .unexpectedEndOfInput ∧
        (b0.write_bstring0 q s).2.data 0 ≠ b0.data 0) := by
  refine ⟨?_, ?_, ⟨⟨fun _ => 0, 1⟩, 0, [5, 6], by decide, by decide⟩,
    ⟨⟨fun _ => 0, 1⟩, 0, [5, 6], by decide, by decide⟩⟩
  · intro h
    by_cases hc : b.len < pos + 4
    · rw [write_be_u32_err b pos v hc]
    · have hok := (write_be_u32_spec b pos v (by omega)).1
      rw [hok] at h
      exact SliceWriteResult.noConfusion h
  · intro h
    by_cases hc : b.len < pos + 8
    · rw [write_be_u64_err b pos v hc]
    · have hok := (write_be_u64_spec b pos v (by omega)).1
      rw [hok] at h
      exact SliceWriteResult.noConfusion h

/-- C3: refuted — the structure-block loop is `while let Ok(Some(token))`,
which treats the parser's fail-fast error signal exactly like normal end of
sequence: the error is swallowed, the pass is NOT aborted, and `modify`
returns success.  First conjunct: on the concrete tree whose stream ends in
the parser-error signal, `modify` still returns `Ok 84`.  Second conjunct:
`modify` is entirely insensitive to the stream's terminal signal, so no
input with a parser error can ever make it propagate that error. -/
theorem c3_parser_error_swallowed :
    (modify exTreeErr exBuf respPass).okVal = some 84 ∧
    (modify exTreeErr exBuf respPass).errVal = none ∧
    ∀ (t : DevTree) (B : Buffer) (fm : Nat → ParsedTok → ModifyTokenResponse) (e : Bool),
      modify { t with parseErr := e } B fm = modify t B fm := by
  refine ⟨by decide, by decide, ?_⟩
  intro t B fm e
  rfl

/-- C5: when the callback answers `ModifySize n` on a property token, the
serializer rewrites the stored length field (the four bytes at the token's
start + 4) to `n`, leaves the name-offset field (at start + 8) equal to the
source token's value, and the iteration ends with the cursor at the
token's start + 12 + n rounded up to 4 — it advances by `n` payload bytes
from the end of the property header, not by the original value length. -/
theorem c5_resize_semantics (noff : Nat) (pb : List Nat) (n : Nat) (st : St)
    (hv : tokValid (.prop noff pb) = true)
    (hn : n < 2 ^ 32)
    (hcap : st.off + 12 + pb.length ≤ st.buf.len) :
    ∃ d, serOne (.prop noff pb) (.modifySize n) st =
        .ok () ⟨⟨d, st.buf.len⟩, align_offset 4 (st.off + 12 + n)⟩ ∧
      Buffer.read_be_u32 ⟨d, st.buf.len⟩ (st.off + 4) = .ok n ∧
      Buffer.read_be_u32 ⟨d, st.buf.len⟩ (st.off + 8) = .ok noff := by
  have hnoff : noff < 2 ^ 32 := by
    simp only [tokValid, Bool.and_eq_true, decide_eq_true_eq] at hv
    exact hv.1.2
  obtain ⟨d, he, a4, a5, a6, a7, a8, a9, a10, a11, hfr⟩ := serOne_resize noff pb n st hv hcap
  refine ⟨d, he, ?_, ?_⟩
  · have h := read_back_u32 ⟨d, st.buf.len⟩ (st.off + 4) n
      (show st.off + 4 + 4 ≤ st.buf.len by omega)
      a4 (show d (st.off + 4 + 1) = n / 2 ^ 16 % 256 from by
        rw [show st.off + 4 + 1 = st.off + 5 by omega]; exact a5)
      (show d (st.off + 4 + 2) = n / 2 ^ 8 % 256 from by
        rw [show st.off + 4 + 2 = st.off + 6 by omega]; exact a6)
      (show d (st.off + 4 + 3) = n % 256 from by
        rw [show st.off + 4 + 3 = st.off + 7 by omega]; exact a7)
    rwa [Nat.mod_eq_of_lt hn] at h
  · have h := read_back_u32 ⟨d, st.buf.len⟩ (st.off + 8) noff
      (show st.off + 8 + 4 ≤ st.buf.len by omega)
      a8 (show d (st.off + 8 + 1) = noff / 2 ^ 16 % 256 from by
        rw [show st.off + 8 + 1 = st.off + 9 by omega]; exact a9)
      (show d (st.off + 8 + 2) = noff / 2 ^ 8 % 256 from by
        rw [show st.off + 8 + 2 = st.off + 10 by omega]; exact a10)
      (show d (st.off + 8 + 3) = noff % 256 from by
        rw [show st.off + 8 + 3 = st.off + 11 by omega]; exact a11)
    rwa [Nat.mod_eq_of_lt hnoff] at h

/-- Witness for C5: resizing a concrete 2-byte property to 6 bytes in a
30-byte buffer — the stored length reads back 6, the name offset reads
back 5, and the cursor ends at `align4 (0 + 12 + 6) = 20`. -/
theorem c5_resize_semantics_witness :
    ∃ d, serOne (.prop 5 [1, 2]) (.modifySize 6) ⟨⟨fun _ => 0, 30⟩, 0⟩ =
        .ok () ⟨⟨d, 30⟩, align_offset 4 (0 + 12 + 6)⟩ ∧
      Buffer.read_be_u32 ⟨d, 30⟩ (0 + 4) = .ok 6 ∧
      Buffer.read_be_u32 ⟨d, 30⟩ (0 + 8) = .ok 5 :=
  c5_resize_semantics 5 [1, 2] 6 ⟨⟨fun _ => 0, 30⟩, 0⟩ (by decide) (by decide) (by decide)

/-- C7: on any valid tree, a callback that answers `ModifySize` at the
stream position of a non-property token (BeginNode, EndNode or Nop, split
out as `tk` between `ts1` and `ts2`) makes `modify` abort with the
invalid-parameter error; the pass never reaches the tokens after the
offending one.  The capacity hypothesis only needs to cover the writes up
to and including the offending token, whose bytes are emitted before the
directive is examined. -/
theorem c7_resize_nonprop_error (t : DevTree) (B : Buffer) (ts1 ts2 : List ParsedTok)
    (tk : ParsedTok) (n : Nat)
    (hv : validTree t = true)
    (hsplit : t.tokens = ts1 ++ tk :: ts2)
    (hnp : ∀ noff pb, tk ≠ .prop noff pb)
    (hcap : tokAdvance tk (passEnd ts1 t.off_dt_struct) ≤ B.len) :
    ∃ st', modify t B (respResizeAt ts1.length n) =
      .err (.invalidParameter "Cannot return ModifySize from a non-Prop token!") st' := by
  obtain ⟨mx1, hg1, hmx1⟩ := serGhost_pass_of ts1 0 t.off_dt_struct (respResizeAt ts1.length n)
    (fun k tk' hk => by unfold respResizeAt; rw [if_neg (by omega)])
  have hghead : serGhost (respResizeAt ts1.length n) ts1.length (tk :: ts2)
      (passEnd ts1 t.off_dt_struct) =
      (tokAdvance tk (passEnd ts1 t.off_dt_struct), none) := by
    simp only [serGhost]
    rw [show respResizeAt ts1.length n ts1.length tk = .modifySize n from by
      unfold respResizeAt; rw [if_pos rfl]]
  have hgfull : serGhost (respResizeAt ts1.length n) 0 t.tokens t.off_dt_struct =
      (max mx1 (tokAdvance tk (passEnd ts1 t.off_dt_struct)), none) := by
    rw [hsplit, serGhost_append (respResizeAt ts1.length n) (tk :: ts2) ts1 0 t.off_dt_struct,
      hg1]
    dsimp only
    rw [show 0 + ts1.length = ts1.length from by omega, hghead]
  have hadv := tokAdvance_ge tk (passEnd ts1 t.off_dt_struct)
  exact modify_err t B (respResizeAt ts1.length n) _ hv hgfull (max_le (by omega) hcap)

/-- Witness for C7: `ModifySize 7` answered at stream index 2 of the
concrete tree — the Nop token — makes `modify` return the
invalid-parameter error. -/
theorem c7_resize_nonprop_error_witness :
    ∃ st', modify exTree exBuf (respResizeAt 2 7) =
      .err (.invalidParameter "Cannot return ModifySize from a non-Prop token!") st' :=
  c7_resize_nonprop_error exTree exBuf [.beginNode [97, 98], .prop 0 [1, 2, 3, 4, 5]]
    [.endNode] .nop 7 (by decide) (by decide)
    (fun noff pb h => ParsedTok.noConfusion h) (by decide)

/-- C2 counterexample: on the valid concrete tree and a 30-byte destination
(shorter than the 84-byte minimum the pass requires), `modify` does NOT
return an error value — it traps, the model of the Rust panic that the
`.unwrap()` on the failed write raises.  The claim's "fails by returning
an out-of-bounds/end-of-input error value to the caller" is false: the
error value is `none` and so is the success value. -/
theorem c2_capacity_counterexample :
    (modify exTree exBufShort respPass).isTrap = true ∧
    (modify exTree exBufShort respPass).errVal = none ∧
    (modify exTree exBufShort respPass).okVal = none := by
  decide

/-- C2 (amended): a destination buffer shorter than the true minimum
required length (the first component of `modifyGhost`) makes `modify`
trap — a Rust panic from the `.unwrap()` on the failed write — rather than
return an error value; and regardless of the outcome no byte at or beyond
the destination buffer's end is ever written (and its length never
changes). -/
theorem c2_capacity_trap (t : DevTree) (B : Buffer)
    (fm : Nat → ParsedTok → ModifyTokenResponse) (req : Nat) (tot : Option Nat)
    (hv : validTree t = true)
    (hG : modifyGhost t fm = (req, tot))
    (hlt : B.len < req) :
    (∃ st', modify t B fm = .trap st') ∧
    (modify t B fm).errVal = none ∧
    ∀ p, B.len ≤ p → (modify t B fm).state.buf.len = B.len ∧
      (modify t B fm).state.buf.data p = B.data p := by
  obtain ⟨st', htrap⟩ := modify_trap t B fm req tot hv hG hlt
  refine ⟨⟨st', htrap⟩, by rw [htrap]; rfl, fun p hp => ?_⟩
  exact ⟨(modify_oob t B fm p hp).1, (modify_oob t B fm p hp).2⟩

/-- Witness for C2: the concrete tree's minimum is 84 bytes; a 30-byte
buffer traps, propagates no error value, and slot 100 (outside the
buffer) keeps its pre-call content. -/
theorem c2_capacity_trap_witness :
    (∃ st', modify exTree exBufShort respPass = .trap st') ∧
    (modify exTree exBufShort respPass).errVal = none ∧
    ∀ p, 30 ≤ p → (modify exTree exBufShort respPass).state.buf.len = 30 ∧
      (modify exTree exBufShort respPass).state.buf.data p = exBufShort.data p :=
  c2_capacity_trap exTree exBufShort respPass 84 (some 84) (by decide) (by decide) (by decide)

/-- C9 counterexample: dropping the first node of `gapTree` (long name
"abcdefgh", bytes up to offset 53) rewinds the cursor to 40, and the
surviving second node "ab" then occupies bytes 40–46; its alignment
padding byte at offset 47 does NOT retain the destination's pre-call
content 7 — it holds 100, residue of the dropped token's name.  The final
conjunct confirms 47 is an alignment-gap position of the emitted token
stream (the surviving tokens are `[.beginNode [97, 98]]` starting at 40:
bytes 40–46, next 4-aligned offset 48). -/
theorem c9_padding_counterexample :
    (modify gapTree gapBuf (respDropAt 0)).okVal = some 52 ∧
    (modify gapTree gapBuf (respDropAt 0)).state.buf.data 47 = 100 ∧
    gapBuf.data 47 = 7 ∧
    inPassGap [.beginNode [97, 98]] 40 47 = true := by
  decide

/-- C9 (amended): the alignment step itself writes nothing — but padding
bytes retain the destination's pre-call content only when no directive
rewinds or shrinks the cursor over previously written bytes.  For a
pass-through run this holds for every padding byte: every byte in a
token-alignment gap, and every byte in the tail gap after the copied
strings block, is unchanged by `modify`. -/
theorem c9_pass_padding_preserved (t : DevTree) (B : Buffer) (p : Nat)
    (hv : validTree t = true)
    (hcap : passEnd t.tokens t.off_dt_struct + 4 + t.size_dt_strings ≤ B.len)
    (hp : inPassGap t.tokens t.off_dt_struct p = true ∨
      (passEnd t.tokens t.off_dt_struct + 4 + t.size_dt_strings ≤ p ∧
        p < align_offset 4 (passEnd t.tokens t.off_dt_struct + 4 + t.size_dt_strings))) :
    (modify t B respPass).state.buf.data p = B.data p := by
  have hv' := hv
  simp only [validTree, Bool.and_eq_true, decide_eq_true_eq] at hv'
  have hoffmod : t.off_dt_struct % 4 = 0 := hv'.1.2
  have htoks : t.tokens.all tokValid = true := hv'.2
  have hoffle : t.off_dt_struct ≤ passEnd t.tokens t.off_dt_struct := passEnd_le _ _
  obtain ⟨d2, dS, d, heq, hP, _, hpre, hmid, _, _, habove, _, _, _, _⟩ :=
    modify_assemble t B respPass (passEnd t.tokens t.off_dt_struct)
      (fun d2 dS =>
        (∀ q, inPassGap t.tokens t.off_dt_struct q = true → dS q = d2 q) ∧
        (∀ q, q < t.off_dt_struct ∨ passEnd t.tokens t.off_dt_struct ≤ q → dS q = d2 q))
      hv
      (fun d2 => by
        obtain ⟨dS, hrun, hfr, hgap, _⟩ := serStructToks_pass_rt t.tokens 0
          ⟨⟨d2, B.len⟩, t.off_dt_struct⟩ respPass (fun k tk hk => rfl) htoks hoffmod
          (show passEnd t.tokens t.off_dt_struct ≤ B.len by omega)
        exact ⟨dS, hrun, fun p hp' => hfr p (Or.inl hp'), hgap, hfr⟩)
      hoffle (by omega) (Or.inr hcap)
  rw [heq]
  show d p = B.data p
  obtain ⟨hgapP, hfrP⟩ := hP
  rcases hp with hgp | ⟨htail, _⟩
  · have h1 : t.off_dt_struct ≤ p := inPassGap_ge t.tokens t.off_dt_struct p hgp
    have h2 : p < passEnd t.tokens t.off_dt_struct := inPassGap_lt t.tokens t.off_dt_struct p hgp
    rw [hmid p h1 h2, hgapP p hgp, hpre p h1]
  · have h1 : passEnd t.tokens t.off_dt_struct ≤ p := by omega
    rw [habove p (by omega), hfrP p (Or.inr h1), hpre p (by omega)]

/-- Witness for C9: position 47 of the concrete tree's pass-through run —
the padding byte between the first node's bytes (which end at 47) and the
next token at 48 — keeps the destination's pre-call content. -/
theorem c9_pass_padding_preserved_witness :
    (modify exTree exBuf respPass).state.buf.data 47 = exBuf.data 47 :=
  c9_pass_padding_preserved exTree exBuf 47 (by decide) (by decide) (Or.inl (by decide))

/-- C4: for every successful `modify` call (any callback whose ghost
replay succeeds at final structure cursor `endo`, in a big-enough buffer),
re-reading the output header gives: strings-block offset (at 12) `endo+4`
= structure-block offset (at 8) + structure-block size (at 36) rounded up
to 4; total size (at 4) = strings offset + strings size (at 32) rounded up
to 4, and that total is exactly the value `modify` returns; and the
structure-size field equals the cursor's net advance from the structure
block's start (`endo + 4 - off_dt_struct`, the `End` tag included). -/
theorem c4_header_consistency (t : DevTree) (B : Buffer)
    (fm : Nat → ParsedTok → ModifyTokenResponse) (mxS endo : Nat)
    (hv : validTree t = true)
    (hg : serGhost fm 0 t.tokens t.off_dt_struct = (mxS, some endo))
    (hmx : mxS ≤ B.len) (hend : endo + 4 ≤ B.len)
    (hstr : t.size_dt_strings = 0 ∨ endo + 4 + t.size_dt_strings ≤ B.len)
    (htot : align_offset 4 (endo + 4 + t.size_dt_strings) < 2 ^ 32) :
    ∃ d, modify t B fm =
        .ok (align_offset 4 (endo + 4 + t.size_dt_strings)) ⟨⟨d, B.len⟩, 8⟩ ∧
      Buffer.read_be_u32 ⟨d, B.len⟩ 12 = .ok (endo + 4) ∧
      Buffer.read_be_u32 ⟨d, B.len⟩ 8 = .ok t.off_dt_struct ∧
      Buffer.read_be_u32 ⟨d, B.len⟩ 36 = .ok (endo + 4 - t.off_dt_struct) ∧
      endo + 4 = t.off_dt_struct + (endo + 4 - t.off_dt_struct) ∧
      endo + 4 = align_offset 4 (t.off_dt_struct + (endo + 4 - t.off_dt_struct)) ∧
      Buffer.read_be_u32 ⟨d, B.len⟩ 32 = .ok t.size_dt_strings ∧
      Buffer.read_be_u32 ⟨d, B.len⟩ 4 = .ok (align_offset 4 (endo + 4 + t.size_dt_strings)) := by
  have hv' := hv
  simp only [validTree, Bool.and_eq_true, decide_eq_true_eq] at hv'
  have hmem40 : 40 ≤ t.off_mem_rsvmap := hv'.1.1.1
  have hrsv : t.off_mem_rsvmap + 16 * t.reserved.length = t.off_dt_struct := hv'.1.1.2
  have hoffmod : t.off_dt_struct % 4 = 0 := hv'.1.2
  have htoks : t.tokens.all tokValid = true := hv'.2
  have hoffle : t.off_dt_struct ≤ endo := serGhost_end_ge fm t.tokens 0 _ _ _ hg
  have hemod : endo % 4 = 0 := serGhost_end_mod fm t.tokens 0 _ _ _ hg hoffmod
  have htotge : endo + 4 + t.size_dt_strings ≤ align_offset 4 (endo + 4 + t.size_dt_strings) :=
    align4_le _
  obtain ⟨d2, dS, d, heq, _, _, _, _, _, _, _, hdrd, h4b, h12b, h36b⟩ :=
    modify_assemble t B fm endo (fun _ _ => True) hv
      (fun d2 => by
        obtain ⟨dS, hrun, hlow⟩ := serStructToks_ok_of fm t.tokens 0
          ⟨⟨d2, B.len⟩, t.off_dt_struct⟩ mxS endo hg htoks
          (show mxS ≤ B.len from hmx)
        exact ⟨dS, hrun, hlow, trivial⟩)
      hoffle hend hstr
  obtain ⟨k8, k9, k10, k11, k32, k33, k34, k35⟩ := hdrd
  obtain ⟨s12, s13, s14, s15⟩ := h12b
  obtain ⟨s36, s37, s38, s39⟩ := h36b
  obtain ⟨s4, s5, s6, s7⟩ := h4b
  have h40 : 40 ≤ B.len := by omega
  refine ⟨d, heq, ?_, ?_, ?_, by omega, ?_, ?_, ?_⟩
  · have h := read_back_u32 ⟨d, B.len⟩ 12 (endo + 4) (show 12 + 4 ≤ B.len by omega)
      s12 s13 s14 s15
    rwa [Nat.mod_eq_of_lt (by omega)] at h
  · have h := read_back_u32 ⟨d, B.len⟩ 8 t.off_dt_struct (show 8 + 4 ≤ B.len by omega)
      k8 k9 k10 k11
    rwa [Nat.mod_eq_of_lt (by omega)] at h
  · have h := read_back_u32 ⟨d, B.len⟩ 36 (endo + 4 - t.off_dt_struct)
      (show 36 + 4 ≤ B.len by omega) s36 s37 s38 s39
    rwa [Nat.mod_eq_of_lt (by omega)] at h
  · rw [show t.off_dt_struct + (endo + 4 - t.off_dt_struct) = endo + 4 by omega,
      align4_of_dvd (by omega)]
  · have h := read_back_u32 ⟨d, B.len⟩ 32 t.size_dt_strings (show 32 + 4 ≤ B.len by omega)
      k32 k33 k34 k35
    rwa [Nat.mod_eq_of_lt (by omega)] at h
  · have h := read_back_u32 ⟨d, B.len⟩ 4 (align_offset 4 (endo + 4 + t.size_dt_strings))
      (show 4 + 4 ≤ B.len by omega) s4 s5 s6 s7
    rwa [Nat.mod_eq_of_lt htot] at h

/-- Witness for C4: the concrete pass-through run ends the structure block
at 76; the header reads back strings offset 80 = 40 + 40 (aligned), total
84 = align4 (80 + 4) = the returned value, structure size 40. -/
theorem c4_header_consistency_witness :
    ∃ d, modify exTree exBuf respPass = .ok 84 ⟨⟨d, 84⟩, 8⟩ ∧
      Buffer.read_be_u32 ⟨d, 84⟩ 12 = .ok 80 ∧
      Buffer.read_be_u32 ⟨d, 84⟩ 8 = .ok 40 ∧
      Buffer.read_be_u32 ⟨d, 84⟩ 36 = .ok 40 ∧
      80 = 40 + 40 ∧
      80 = align_offset 4 (40 + 40) ∧
      Buffer.read_be_u32 ⟨d, 84⟩ 32 = .ok 4 ∧
      Buffer.read_be_u32 ⟨d, 84⟩ 4 = .ok 84 :=
  c4_header_consistency exTree exBuf respPass 76 76 (by decide) (by decide) (by decide)
    (by decide) (Or.inr (by decide)) (by decide)

/-- C1: modifying a valid tree with the always-`Pass` callback, in any
buffer of at least the exact minimum size, succeeds, and the output
re-parses to exactly the same token sequence as the input — same names,
lengths, name offsets, value bytes, in order (`annot.map Prod.snd =
t.tokens`), every token 4-aligned — with the strings block copied
byte-for-byte from the source (at its new offset: block offsets in the
output differ from the source's). -/
theorem c1_pass_roundtrip (t : DevTree) (B : Buffer)
    (hv : validTree t = true)
    (hcap : passEnd t.tokens t.off_dt_struct + 4 + t.size_dt_strings ≤ B.len) :
    ∃ d, modify t B respPass =
        .ok (align_offset 4 (passEnd t.tokens t.off_dt_struct + 4 + t.size_dt_strings))
          ⟨⟨d, B.len⟩, 8⟩ ∧
      (∃ annot, parseToks ⟨d, B.len⟩ t.off_dt_struct (t.tokens.length + 1) =
          some (annot, passEnd t.tokens t.off_dt_struct + 4) ∧
        annot.map Prod.snd = t.tokens ∧
        ∀ pe ∈ annot, pe.1 % 4 = 0) ∧
      ∀ k, k < t.size_dt_strings →
        d (passEnd t.tokens t.off_dt_struct + 4 + k) =
          t.bufData (t.off_dt_strings + k) % 256 := by
  have hv' := hv
  simp only [validTree, Bool.and_eq_true, decide_eq_true_eq] at hv'
  have hoffmod : t.off_dt_struct % 4 = 0 := hv'.1.2
  have htoks : t.tokens.all tokValid = true := hv'.2
  have hoffle : t.off_dt_struct ≤ passEnd t.tokens t.off_dt_struct := passEnd_le _ _
  obtain ⟨d2, dS, d, heq, hP, _, _, hmid, hEnd, hstrcpy, _, _, _, _, _⟩ :=
    modify_assemble t B respPass (passEnd t.tokens t.off_dt_struct)
      (fun d2 dS => ∀ (B2 : Buffer) (fuel : Nat), B2.len = B.len →
        (∀ q, t.off_dt_struct ≤ q → q < passEnd t.tokens t.off_dt_struct →
          B2.data q = dS q) →
        parseToks B2 t.off_dt_struct (t.tokens.length + fuel) =
          match parseToks B2 (passEnd t.tokens t.off_dt_struct) fuel with
          | some (r, fin) => some (passAnnot t.tokens t.off_dt_struct ++ r, fin)
          | none => none)
      hv
      (fun d2 => by
        obtain ⟨dS, hrun, hfr, _, hparse⟩ := serStructToks_pass_rt t.tokens 0
          ⟨⟨d2, B.len⟩, t.off_dt_struct⟩ respPass (fun k tk hk => rfl) htoks hoffmod
          (show passEnd t.tokens t.off_dt_struct ≤ B.len by omega)
        exact ⟨dS, hrun, fun p hp => hfr p (Or.inl hp), hparse⟩)
      hoffle (by omega) (Or.inr hcap)
  obtain ⟨e0, e1, e2, e3⟩ := hEnd
  refine ⟨d, heq, ⟨passAnnot t.tokens t.off_dt_struct, ?_, passAnnot_snd _ _, ?_⟩, hstrcpy⟩
  · have hptail : parseToks ⟨d, B.len⟩ (passEnd t.tokens t.off_dt_struct) 1 =
        some ([], passEnd t.tokens t.off_dt_struct + 4) :=
      parseToks_end ⟨d, B.len⟩ _ 0 e0 e1 e2 e3
        (show passEnd t.tokens t.off_dt_struct + 4 ≤ B.len by omega)
    have hmain := hP ⟨d, B.len⟩ 1 rfl (fun q hq1 hq2 =>
      show d q = dS q from hmid q hq1 hq2)
    rw [hptail] at hmain
    dsimp only at hmain
    rwa [List.append_nil] at hmain
  · exact passAnnot_aligned t.tokens t.off_dt_struct hoffmod

/-- Witness for C1: the concrete tree round-trips through an 84-byte
buffer — `modify` returns 84 and the output parses back to the four
source tokens, 4-aligned, with the 4 strings bytes copied. -/
theorem c1_pass_roundtrip_witness :
    ∃ d, modify exTree exBuf respPass = .ok 84 ⟨⟨d, 84⟩, 8⟩ ∧
      (∃ annot, parseToks ⟨d, 84⟩ 40 5 = some (annot, 80) ∧
        annot.map Prod.snd = exTree.tokens ∧
        ∀ pe ∈ annot, pe.1 % 4 = 0) ∧
      ∀ k, k < 4 → d (80 + k) = exTree.bufData (200 + k) % 256 :=
  c1_pass_roundtrip exTree exBuf (by decide) (by decide)

/-- C6: dropping exactly the token at stream index `|ts1|` (any token —
in particular a Nop or a property) of a valid tree, with every other token
passed, succeeds and removes exactly that token: the output structure
block re-parses to `ts1 ++ ts2` (the source tokens with that one erased,
which is `t.tokens.eraseIdx ts1.length`), every remaining token unchanged,
in order, and still starting 4-byte aligned.  The rewind is visible in the
capacity hypotheses: the dropped token's bytes are written (up to
`tokAdvance tk (passEnd ts1 off)`) before the cursor returns to the
token's start `passEnd ts1 off`, where the next token overwrites them. -/
theorem c6_drop_single_token (t : DevTree) (B : Buffer) (ts1 ts2 : List ParsedTok)
    (tk : ParsedTok)
    (hv : validTree t = true)
    (hsplit : t.tokens = ts1 ++ tk :: ts2)
    (hcapk : tokAdvance tk (passEnd ts1 t.off_dt_struct) ≤ B.len)
    (hcap : passEnd ts2 (passEnd ts1 t.off_dt_struct) + 4 + t.size_dt_strings ≤ B.len) :
    ∃ d, modify t B (respDropAt ts1.length) =
        .ok (align_offset 4
            (passEnd ts2 (passEnd ts1 t.off_dt_struct) + 4 + t.size_dt_strings))
          ⟨⟨d, B.len⟩, 8⟩ ∧
      t.tokens.eraseIdx ts1.length = ts1 ++ ts2 ∧
      (∃ annot, parseToks ⟨d, B.len⟩ t.off_dt_struct (ts1.length + ts2.length + 1) =
          some (annot, passEnd ts2 (passEnd ts1 t.off_dt_struct) + 4) ∧
        annot.map Prod.snd = ts1 ++ ts2 ∧
        ∀ pe ∈ annot, pe.1 % 4 = 0) := by
  have hv' := hv
  simp only [validTree, Bool.and_eq_true, decide_eq_true_eq] at hv'
  have hoffmod : t.off_dt_struct % 4 = 0 := hv'.1.2
  have htoks : t.tokens.all tokValid = true := hv'.2
  rw [hsplit] at htoks
  simp only [List.all_append, List.all_cons, Bool.and_eq_true] at htoks
  obtain ⟨hv1, hvk, hv2⟩ := htoks
  have hofle : t.off_dt_struct ≤ passEnd ts1 t.off_dt_struct := passEnd_le _ _
  have hpe12 : passEnd ts1 t.off_dt_struct ≤ passEnd ts2 (passEnd ts1 t.off_dt_struct) :=
    passEnd_le _ _
  obtain ⟨d2, dS, d, heq, hP, _, _, hmid, hEnd, _, _, _, _, _, _⟩ :=
    modify_assemble t B (respDropAt ts1.length)
      (passEnd ts2 (passEnd ts1 t.off_dt_struct))
      (fun d2 dS => ∀ (B2 : Buffer) (fuel : Nat), B2.len = B.len →
        (∀ q, t.off_dt_struct ≤ q →
          q < passEnd ts2 (passEnd ts1 t.off_dt_struct) → B2.data q = dS q) →
        parseToks B2 t.off_dt_struct (ts1.length + (ts2.length + fuel)) =
          match parseToks B2 (passEnd ts2 (passEnd ts1 t.off_dt_struct)) fuel with
          | some (r, fin) =>
            some (passAnnot ts1 t.off_dt_struct ++
              (passAnnot ts2 (passEnd ts1 t.off_dt_struct) ++ r), fin)
          | none => none)
      hv
      (fun d2 => by
        obtain ⟨dS, hrun, hlow, hparse⟩ := serStructToks_dropAt_run ts1 ts2 tk
          ⟨⟨d2, B.len⟩, t.off_dt_struct⟩ hv1 hvk hv2 hoffmod
          (show tokAdvance tk (passEnd ts1 t.off_dt_struct) ≤ B.len from hcapk)
          (show passEnd ts2 (passEnd ts1 t.off_dt_struct) ≤ B.len by omega)
        exact ⟨dS, by rw [hsplit]; exact hrun, hlow, hparse⟩)
      (by omega) (by omega) (Or.inr hcap)
  obtain ⟨e0, e1, e2, e3⟩ := hEnd
  refine ⟨d, heq, by rw [hsplit]; exact eraseIdx_append_cons tk ts2 ts1,
    ⟨passAnnot ts1 t.off_dt_struct ++ passAnnot ts2 (passEnd ts1 t.off_dt_struct),
      ?_, ?_, ?_⟩⟩
  · have hptail : parseToks ⟨d, B.len⟩ (passEnd ts2 (passEnd ts1 t.off_dt_struct)) 1 =
        some ([], passEnd ts2 (passEnd ts1 t.off_dt_struct) + 4) :=
      parseToks_end ⟨d, B.len⟩ _ 0 e0 e1 e2 e3
        (show passEnd ts2 (passEnd ts1 t.off_dt_struct) + 4 ≤ B.len by omega)
    have hmain := hP ⟨d, B.len⟩ 1 rfl (fun q hq1 hq2 =>
      show d q = dS q from hmid q hq1 hq2)
    rw [hptail] at hmain
    dsimp only at hmain
    rw [List.append_nil] at hmain
    rwa [show ts1.length + ts2.length + 1 = ts1.length + (ts2.length + 1) by omega]
  · rw [List.map_append, passAnnot_snd, passAnnot_snd]
  · intro pe hpe
    rcases List.mem_append.1 hpe with hpe | hpe
    · exact passAnnot_aligned ts1 t.off_dt_struct hoffmod pe hpe
    · exact passAnnot_aligned ts2 (passEnd ts1 t.off_dt_struct)
        (passEnd_mod ts1 t.off_dt_struct hoffmod) pe hpe

/-- Witness for C6: dropping the Nop (index 2) of the concrete tree — the
call returns 80, and the output parses back to the three remaining tokens,
4-aligned. -/
theorem c6_drop_single_token_witness :
    ∃ d, modify exTree exBuf (respDropAt 2) = .ok 80 ⟨⟨d, 84⟩, 8⟩ ∧
      exTree.tokens.eraseIdx 2 =
        [.beginNode [97, 98], .prop 0 [1, 2, 3, 4, 5]] ++ [.endNode] ∧
      (∃ annot, parseToks ⟨d, 84⟩ 40 4 = some (annot, 76) ∧
        annot.map Prod.snd = [.beginNode [97, 98], .prop 0 [1, 2, 3, 4, 5]] ++ [.endNode] ∧
        ∀ pe ∈ annot, pe.1 % 4 = 0) :=
  c6_drop_single_token exTree exBuf [.beginNode [97, 98], .prop 0 [1, 2, 3, 4, 5]]
    [.endNode] .nop (by decide) (by decide) (by decide) (by decide)

end FdtRs
